import Mathlib

/-!
# Terraform compliance analysis of an OpenAPI v2 document

A shallow embedding of `openapi/openapi_v2_spec_analyser.go`: the path
classifier (`isResourceInstanceEndPoint`, `findMatchingResourceRootPath`) and
the resource compliance validator (`validateInstancePath`, `validateRootPath`,
`validateResourceSchemaDefWithOptions`, `getBodyParameterBodySchema`, ...), the
multi-region detection and the discovery pass (`isMultiRegionResource`,
`createMultiRegionResources`, `GetTerraformCompliantResources`), and of the
security extractor of `openapi/openapi_v2_security.go`.

Go maps are association lists: a lookup returns the first binding of the key
and a `range` loop visits the bindings in list order, which stands for the
iteration order the Go runtime happened to pick.  Go `nil` pointers are
`Option`s, `(value, error)` results are `Except`.  The functions of the
repository that are declared outside the analysed sources are the fields of
`Collaborators`, a parameter of the functions that call them.
-/

namespace OpenAPI

/-! ## Regular expressions (the fragment of Go's `regexp` the analyser uses) -/

/-- Abstract syntax of the regular expressions used by the analyser. -/
inductive Regex where
  /-- a literal character (also a one-character class such as `[\/]`) -/
  | chr (c : Char)
  /-- the dot: any character except a newline -/
  | any
  /-- the class of the characters that are not white space (tab, newline,
  form feed, carriage return, space) -/
  | nonSpace
  /-- the caret: beginning of the text -/
  | bot
  /-- the dollar: end of the text -/
  | eot
  /-- concatenation -/
  | seq (r₁ r₂ : Regex)
  /-- greedy repetition, zero or more times -/
  | star (r : Regex)
  /-- greedy repetition, one or more times -/
  | plus (r : Regex)
  /-- greedy option, zero or one time -/
  | opt (r : Regex)
  /-- capturing group number `i` -/
  | group (i : Nat) (r : Regex)

/-- A state of the backtracking matcher: the number of characters consumed
since the start of the text, the text still to read, and the captures. -/
structure MState where
  pos : Nat
  rest : List Char
  caps : Nat → Option (List Char)

/-- Number of capturing groups of a regular expression. -/
def Regex.numSubexp : Regex → Nat
  | .chr _ => 0
  | .any => 0
  | .nonSpace => 0
  | .bot => 0
  | .eot => 0
  | .seq r₁ r₂ => r₁.numSubexp + r₂.numSubexp
  | .star r => r.numSubexp
  | .plus r => r.numSubexp
  | .opt r => r.numSubexp
  | .group _ r => r.numSubexp + 1

/-- Greedy iteration of a matcher `m`: every state reachable by repeating `m`
(each round consuming at least one character), longest repetition first. The
fuel bounds the number of rounds; the length of the remaining text is enough. -/
def starLoop (m : MState → List MState) : Nat → MState → List MState
  | 0, st => [st]
  | n + 1, st =>
    ((m st).filter (fun st' => st'.rest.length < st.rest.length)).flatMap (starLoop m n) ++ [st]

/-- All the ways the regular expression matches at the given state, in the
order a backtracking (leftmost-first) matcher tries them. -/
def matchRe : Regex → MState → List MState
  | .chr c, st =>
    match st.rest with
    | [] => []
    | x :: xs => if x = c then [{ st with pos := st.pos + 1, rest := xs }] else []
  | .any, st =>
    match st.rest with
    | [] => []
    | x :: xs => if x = '\n' then [] else [{ st with pos := st.pos + 1, rest := xs }]
  | .nonSpace, st =>
    match st.rest with
    | [] => []
    | x :: xs =>
      if x = '\t' ∨ x = '\n' ∨ x = '\x0c' ∨ x = '\r' ∨ x = ' ' then []
      else [{ st with pos := st.pos + 1, rest := xs }]
  | .bot, st => if st.pos = 0 then [st] else []
  | .eot, st =>
    match st.rest with
    | [] => [st]
    | _ :: _ => []
  | .seq r₁ r₂, st => (matchRe r₁ st).flatMap (fun st' => matchRe r₂ st')
  | .star r, st => starLoop (fun st' => matchRe r st') st.rest.length st
  | .plus r, st =>
    (matchRe r st).flatMap (fun st₁ => starLoop (fun st' => matchRe r st') st₁.rest.length st₁)
  | .opt r, st => matchRe r st ++ [st]
  | .group i r, st =>
    (matchRe r st).map (fun st' =>
      { st' with caps := fun j => if j = i then some (st.rest.take (st'.pos - st.pos)) else st'.caps j })

/-- The match of `re` that starts at the position `pos`, where the unread text
is `rest`: the one a backtracking matcher finds first. Returns the matched text
and the captures. -/
def matchAt (re : Regex) (pos : Nat) (rest : List Char) :
    Option (List Char × (Nat → Option (List Char))) :=
  (matchRe re { pos := pos, rest := rest, caps := fun _ => none }).head?.map
    (fun st => (rest.take (st.pos - pos), st.caps))

/-- The leftmost match of `re` in the text whose unread part is `rest`, the
first `pos` characters being already skipped: the start position is the
smallest possible one. -/
def findFrom (re : Regex) : Nat → List Char → Option (List Char × (Nat → Option (List Char)))
  | pos, [] => matchAt re pos []
  | pos, x :: xs =>
    match matchAt re pos (x :: xs) with
    | some m => some m
    | none => findFrom re (pos + 1) xs

/-- Go's `(*Regexp).MatchString`: does the text contain a match of `re`? -/
def MatchString (re : Regex) (s : String) : Bool :=
  (findFrom re 0 s.data).isSome

/-- Go's `(*Regexp).FindStringSubmatch`: the text of the leftmost match
followed by the text of each capturing group (the empty string for a group that
took no part in the match); the empty list (`nil`) when there is no match. -/
def FindStringSubmatch (re : Regex) (s : String) : List String :=
  match findFrom re 0 s.data with
  | none => []
  | some (whole, caps) =>
    String.mk whole ::
      (List.range re.numSubexp).map (fun i => String.mk ((caps (i + 1)).getD []))

/-- Go's `strings.TrimRight(s, "/")`: `s` without all its trailing `/`. -/
def TrimRightSlash (s : String) : String :=
  String.mk (s.data.rdropWhile (fun c => c == '/'))

/-- The pattern `^.*{.+}[\/]?$` compiled in `isResourceInstanceEndPoint`. -/
def instanceEndPointRegex : Regex :=
  .seq .bot (.seq (.star .any) (.seq (.chr '{') (.seq (.plus .any)
    (.seq (.chr '}') (.seq (.opt (.chr '/')) .eot)))))

/-- Modelled from the spec: the constant `resourceInstanceRegex` is declared
outside the analysed sources. The root path is derived "by stripping the
trailing parameter segment" with a pattern that has one capture group (the code
reads `result[1]` after checking `len(result) != 2`, e.g. `/v1/cdns/{id}` gives
`/v1/cdns/`): the pattern `((?:.*)){.*}`. -/
def resourceInstanceRegex : Regex :=
  .seq (.group 1 (.star .any)) (.seq (.chr '{') (.seq (.star .any) (.chr '}')))

/-! ## The document model (the parts of `go-openapi/spec` the analyser reads) -/

/-- The value of a vendor extension (`interface{}` in Go). -/
inductive ExtValue where
  | bool (b : Bool)
  | str (s : String)
  | other
  deriving DecidableEq, Repr

/-- Vendor extensions `spec.Extensions`: a map from extension name to value. -/
abbrev Extensions := List (String × ExtValue)

/-- The method `Extensions.GetBool` of go-openapi: looks up the lower-cased key and
returns the boolean stored there together with whether a boolean was found. -/
def Extensions.GetBool (e : Extensions) (key : String) : Bool × Bool :=
  match e.lookup (String.mk (key.data.map Char.toLower)) with
  | some (.bool b) => (b, true)
  | _ => (false, false)

/-- A schema object `spec.Schema`: reference, types, read-only flag, properties,
item schema and vendor extensions. -/
inductive Schema where
  | mk (Ref : String) (Typ : List String) (ReadOnly : Bool)
      (Properties : List (String × Schema)) (Items : Option Schema)
      (Extensions : Extensions)

/-- The reference of the schema as a string (`Ref.String()`), empty when expanded. -/
def Schema.Ref : Schema → String
  | .mk r _ _ _ _ _ => r

/-- The declared types of the schema. -/
def Schema.Typ : Schema → List String
  | .mk _ t _ _ _ _ => t

/-- The read-only flag of the schema. -/
def Schema.ReadOnly : Schema → Bool
  | .mk _ _ ro _ _ _ => ro

/-- The properties of the schema, a map from property name to schema. -/
def Schema.Properties : Schema → List (String × Schema)
  | .mk _ _ _ ps _ _ => ps

/-- The item schema of an array schema. -/
def Schema.Items : Schema → Option Schema
  | .mk _ _ _ _ it _ => it

/-- The vendor extensions of the schema. -/
def Schema.Extensions : Schema → Extensions
  | .mk _ _ _ _ _ e => e

/-- An operation parameter `spec.Parameter`. -/
structure Parameter where
  Name : String := ""
  In : String := ""
  Schema : Option Schema := none

/-- A response `spec.Response`. -/
structure Response where
  Schema : Option Schema := none

/-- The responses of an operation, by status code. -/
structure Responses where
  StatusCodeResponses : List (Int × Response) := []

/-- An operation `spec.Operation`. -/
structure Operation where
  Parameters : List Parameter := []
  Responses : Option Responses := none
  Extensions : Extensions := []

/-- A path item `spec.PathItem`; the zero value declares no operation. -/
structure PathItem where
  Get : Option Operation := none
  Put : Option Operation := none
  Post : Option Operation := none
  Delete : Option Operation := none

/-- The document `specAnalyser.d.Spec()`: the path map and the root level
extensions. -/
structure Swagger where
  Paths : List (String × PathItem) := []
  Extensions : Extensions := []
  Definitions : List (String × Schema) := []

/-- The errors of the analyser, one constructor for each `fmt.Errorf` of the
source, with the arguments of the format string. -/
inductive AnalyserError where
  /-- error occurred while checking if path P is a resource instance path -/
  | errorCheckingInstancePath (path : String)
  /-- path P is not a resource instance path -/
  | notInstancePath (path : String)
  /-- resource instance path P missing required GET operation -/
  | missingGet (path : String)
  /-- resource instance path P missing valid resource root path, more than two
  results returned from match -/
  | malformedRootMatch (path : String) (result : List String)
  /-- resource instance path P missing resource root path -/
  | missingRootPath (path : String)
  /-- resource root path R missing required POST operation -/
  | missingPost (root : String)
  /-- resource root path R POST operation (without body parameter) error: E -/
  | postWithoutBodyError (root : String) (err : AnalyserError)
  /-- resource root path R POST operation (without body parameter) validation error: E -/
  | postWithoutBodyValidationError (root : String) (err : AnalyserError)
  /-- resource root path R POST operation validation error: E -/
  | postValidationError (root : String) (err : AnalyserError)
  /-- operation is missing responses -/
  | missingResponses
  /-- operation response N is missing the schema definition -/
  | responseMissingSchema (code : Int)
  /-- operation is missing successful response -/
  | missingSuccessfulResponse
  /-- resource schema contains properties that are not just read only -/
  | notJustReadOnly
  /-- resource schema is missing a property that uniquely identifies the resource -/
  | missingIdentifier
  /-- resource root operation missing body parameter -/
  | missingBodyParameter
  /-- resource root operation missing the schema for the POST operation body parameter -/
  | missingBodyParameterSchema
  /-- the operation ref was not expanded properly -/
  | refNotExpanded
  /-- POST operation contains an schema with no properties -/
  | schemaWithoutProperties
  /-- failed to create a resource with region: E -/
  | failedRegionResource (err : AnalyserError)
  /-- override host H provided does not comply with expected regex format -/
  | hostNotCompliant (overrideHost : String)
  /-- could not find any region for K matching region extension N: V -/
  | noRegionFound (regionIdentifier regionExtensionName resourceRegions : String)
  /-- could not build properly the resource region map for K matching region
  extension N: V -/
  | regionMapNotBuilt (regionIdentifier regionExtensionName resourceRegions : String)
  /-- missing matching K root level region extension N -/
  | missingRegionExtension (regionIdentifier regionExtensionName : String)
  /-- subresource with path P is missing parent path instance definition U -/
  | missingParentInstancePath (resourcePath parentInstanceURI : String)
  /-- subresource with path P is missing parent root path definition U -/
  | missingParentRootPath (resourcePath parentURI : String)
  /-- subresource with path P contains a parent U that is marked as ignored -/
  | ignoredParent (resourcePath parentURI : String)
  /-- apiKey In value V not supported, only header and query values are valid -/
  | apiKeyInNotSupported (location : String)
  /-- an error of a collaborator outside the analysed sources -/
  | external (message : String)
  /-- global security scheme N not found or not matching supported apiKey type -/
  | globalSecuritySchemeNotFound (name : String)
  /-- missing get operation -/
  | missingGetOperation
  /-- missing get 200 OK response specification -/
  | missingGet200Response
  /-- missing response schema -/
  | missingResponseSchema
  /-- response does not return an array of items -/
  | responseNotArray
  /-- the response schema is missing the items schema specification or the
  items schema is not properly defined as object with properties configured -/
  | itemsNotObjectWithProperties
  /-- missing get responses -/
  | missingGetResponses
  /-- refresh token POST response U status code N not matching expected
  response status code [200, 204] -/
  | refreshTokenStatus (refreshTokenURL : String) (statusCode : Int)
  /-- refresh token POST response U is missing the access token -/
  | refreshTokenMissingAccessToken (refreshTokenURL : String)
  /-- required security definition N is missing the value -/
  | missingSecurityValue (terraformConfigurationName : String)
  deriving DecidableEq, Repr

/-- Modelled from the spec: the constant `extTfID` is declared outside the
analysed sources; the "use as identifier" extension is `x-terraform-id`. -/
def extTfID : String := "x-terraform-id"

/-! ## The analyser -/

/-- The path item stored under `path`; the zero value when the path is not declared. -/
def Swagger.pathItem (doc : Swagger) (path : String) : PathItem :=
  (doc.Paths.lookup path).getD {}

/-- Checks if the given path is of form `/resource/{id}`. -/
def isResourceInstanceEndPoint (p : String) : Bool × Option AnalyserError :=
  (MatchString instanceEndPointRegex p, none)

/-- The corresponding root path for a given instance path: the captured prefix
when it is declared, else the prefix without trailing slashes when that is
declared. -/
def findMatchingResourceRootPath (doc : Swagger) (resourceInstancePath : String) :
    Except AnalyserError String :=
  let result := FindStringSubmatch resourceInstanceRegex resourceInstancePath
  if result.length ≠ 2 then
    .error (.malformedRootMatch resourceInstancePath result)
  else
    let resourceRootPath := result.getD 1 ""
    if (doc.Paths.lookup resourceRootPath).isSome then
      .ok resourceRootPath
    else
      let resourceRootPath := TrimRightSlash resourceRootPath
      if (doc.Paths.lookup resourceRootPath).isSome then
        .ok resourceRootPath
      else
        .error (.missingRootPath resourceInstancePath)

/-- Whether the path is declared and exposes a POST operation. -/
def postDefined (doc : Swagger) (resourceRootPath : String) : Bool :=
  match doc.Paths.lookup resourceRootPath with
  | none => false
  | some b => b.Post.isSome

/-- The loop of `bodyParameterExists`: the first parameter located in `body`. -/
def firstBodyParameter : List Parameter → Option Parameter
  | [] => none
  | parameter :: rest =>
    if parameter.In = "body" then some parameter else firstBodyParameter rest

/-- The first parameter of the operation located in `body`, if any. -/
def bodyParameterExists (resourceRootPostOperation : Option Operation) : Option Parameter :=
  match resourceRootPostOperation with
  | none => none
  | some op => firstBodyParameter op.Parameters

/-- The schema of the body parameter of the POST operation. -/
def getBodyParameterBodySchema (resourceRootPostOperation : Option Operation) :
    Except AnalyserError Schema :=
  match bodyParameterExists resourceRootPostOperation with
  | none => .error .missingBodyParameter
  | some bodyParameter =>
    match bodyParameter.Schema with
    | none => .error .missingBodyParameterSchema
    | some schema =>
      if schema.Ref ≠ "" then .error .refNotExpanded
      else if schema.Properties.length > 0 then .ok schema
      else .error .schemaWithoutProperties

/-- The loop of `getSuccessfulResponseDefinition` over the declared responses. -/
def successfulResponseLoop : List (Int × Response) → Except AnalyserError Schema
  | [] => .error .missingSuccessfulResponse
  | (responseStatusCode, response) :: rest =>
    if responseStatusCode = 200 ∨ responseStatusCode = 201 ∨ responseStatusCode = 202 then
      match response.Schema with
      | none => .error (.responseMissingSchema responseStatusCode)
      | some schema => .ok schema
    else successfulResponseLoop rest

/-- The schema of the response that matches a successful response (either 200,
201 or 202, whichever is found first). -/
def getSuccessfulResponseDefinition (operation : Option Operation) :
    Except AnalyserError Schema :=
  match operation with
  | none => .error .missingResponses
  | some op =>
    match op.Responses with
    | none => .error .missingResponses
    | some responses => successfulResponseLoop responses.StatusCodeResponses

/-- The loop of `validateResourceSchemaDefWithOptions` over the properties; the
accumulator is `containsIdentifier`. -/
def validatePropertiesLoop (shouldPropBeReadOnly : Bool) :
    List (String × Schema) → Bool → Except AnalyserError Bool
  | [], containsIdentifier => .ok containsIdentifier
  | (propertyName, property) :: rest, containsIdentifier =>
    let containsIdentifier :=
      if propertyName = "id" then true
      else if (property.Extensions.GetBool extTfID).1 && (property.Extensions.GetBool extTfID).2 then true
      else containsIdentifier
    if shouldPropBeReadOnly && property.ReadOnly == false then
      .error .notJustReadOnly
    else validatePropertiesLoop shouldPropBeReadOnly rest containsIdentifier

/-- Validates the schema of a resource: it needs an identifier property, and
with `shouldPropBeReadOnly` every property has to be read only. -/
def validateResourceSchemaDefWithOptions (schema : Schema) (shouldPropBeReadOnly : Bool) :
    Except AnalyserError Unit :=
  match validatePropertiesLoop shouldPropBeReadOnly schema.Properties false with
  | .error e => .error e
  | .ok containsIdentifier =>
    if containsIdentifier == false then .error .missingIdentifier else .ok ()

/-- Validates the schema of a resource that is created with a body. -/
def validateResourceSchemaDefinition (schema : Schema) : Except AnalyserError Unit :=
  validateResourceSchemaDefWithOptions schema false

/-- The path is an instance path and declares GET. -/
def validateInstancePath (doc : Swagger) (path : String) : Except AnalyserError Unit :=
  let (isResourceInstance, err) := isResourceInstanceEndPoint path
  if err.isSome then .error (.errorCheckingInstancePath path)
  else if !isResourceInstance then .error (.notInstancePath path)
  else
    let endPoint := doc.pathItem path
    if endPoint.Get.isNone then .error (.missingGet path) else .ok ()

/-- The root path of the instance path, its path item and the payload schema of
its POST operation. -/
def validateRootPath (doc : Swagger) (resourcePath : String) :
    Except AnalyserError (String × PathItem × Schema) :=
  match findMatchingResourceRootPath doc resourcePath with
  | .error err => .error err
  | .ok resourceRootPath =>
    let postExist := postDefined doc resourceRootPath
    if !postExist then .error (.missingPost resourceRootPath)
    else
      let resourceRootPathItem := doc.pathItem resourceRootPath
      let resourceRootPostOperation := resourceRootPathItem.Post
      match getBodyParameterBodySchema resourceRootPostOperation with
      | .error err =>
        let bodyParam := bodyParameterExists resourceRootPostOperation
        match bodyParam with
        | none =>
          match getSuccessfulResponseDefinition resourceRootPostOperation with
          | .error err => .error (.postWithoutBodyError resourceRootPath err)
          | .ok resourceSchema =>
            match validateResourceSchemaDefWithOptions resourceSchema true with
            | .error err => .error (.postWithoutBodyValidationError resourceRootPath err)
            | .ok _ => .ok (resourceRootPath, resourceRootPathItem, resourceSchema)
        | some _ => .error (.postValidationError resourceRootPath err)
      | .ok resourceRootPostSchemaDef =>
        .ok (resourceRootPath, resourceRootPathItem, resourceRootPostSchemaDef)

/-- The root path, its path item and the payload schema of the resource of the
instance path, when the end point is fully compliant. -/
def isEndPointFullyTerraformResourceCompliant (doc : Swagger) (resourcePath : String) :
    Except AnalyserError (String × PathItem × Schema) :=
  match validateInstancePath doc resourcePath with
  | .error err => .error err
  | .ok _ =>
    match validateRootPath doc resourcePath with
    | .error err => .error err
    | .ok (resourceRootPath, resourceRootPathItem, resourceRootPostSchemaDef) =>
      match validateResourceSchemaDefinition resourceRootPostSchemaDef with
      | .error err => .error err
      | .ok _ => .ok (resourceRootPath, resourceRootPathItem, resourceRootPostSchemaDef)

/-! ## Example documents -/

/-- A property schema with the given read-only flag and extensions. -/
def propSchema (readOnly : Bool) (ext : Extensions) : Schema :=
  .mk "" ["string"] readOnly [] none ext

/-- An object schema with the given properties. -/
def objSchema (props : List (String × Schema)) : Schema :=
  .mk "" ["object"] false props none []

/-- The schema `CDN` of the end-to-end scenario: `id` (read only) and `label`. -/
def cdnSchema : Schema :=
  objSchema [("id", propSchema true []), ("label", propSchema false [])]

/-- The document of the end-to-end scenario: `/v1/cdns` with a POST whose body
is a `CDN`, and `/v1/cdns/{id}` with a GET. -/
def cdnDoc : Swagger :=
  { Paths :=
      [("/v1/cdns",
          { Post := some
              { Parameters := [{ Name := "body", In := "body", Schema := some cdnSchema }],
                Responses := some { StatusCodeResponses := [(201, { Schema := some cdnSchema })] } } }),
       ("/v1/cdns/{id}",
          { Get := some
              { Parameters := [{ Name := "id", In := "path" }],
                Responses := some { StatusCodeResponses := [(200, { Schema := some cdnSchema })] } } })] }

/-- A property usable as the unique identifier: it is named `id`, or its
`x-terraform-id` extension is the boolean true. -/
def usableAsIdentifier (np : String × Schema) : Bool :=
  decide (np.1 = "id") || decide (np.2.Extensions.lookup "x-terraform-id" = some (.bool true))

/-- A schema with two properties usable as identifier: `id` and a flagged `name`. -/
def twoIdentifiersSchema : Schema :=
  objSchema [("id", propSchema true []),
             ("name", propSchema false [("x-terraform-id", .bool true)])]

/-- The schema of a computed-only resource without identifier: its single
property `value` is read only. -/
def tokenSchema : Schema :=
  objSchema [("value", propSchema true [])]

/-- A document whose root path `/v1/tokens` has a POST without body parameter
that answers 201 with a `tokenSchema`. -/
def tokenDoc : Swagger :=
  { Paths :=
      [("/v1/tokens",
          { Post := some
              { Responses := some { StatusCodeResponses := [(201, { Schema := some tokenSchema })] } } }),
       ("/v1/tokens/{id}", { Get := some {} })] }

/-- The schema of a computed-only resource: `id` and `value`, both read only. -/
def computedSchema : Schema :=
  objSchema [("id", propSchema true []), ("value", propSchema true [])]

/-- A document whose root path `/v1/tokens` has a POST without body parameter
that answers 201 with a `computedSchema`. -/
def computedDoc : Swagger :=
  { Paths :=
      [("/v1/tokens",
          { Post := some
              { Responses := some { StatusCodeResponses := [(201, { Schema := some computedSchema })] } } }),
       ("/v1/tokens/{id}", { Get := some {} })] }

/-- A document whose root path `/v1/cdns` declares GET only. -/
def getOnlyDoc : Swagger :=
  { Paths := [("/v1/cdns", { Get := some {} }), ("/v1/cdns/{id}", { Get := some {} })] }

/-- The states reached by the pattern `.*` on the text `s` read from position
`pos`: one for each prefix of `s` without newline, the longest prefix first. -/
def dotStar (pos : Nat) (caps : Nat → Option (List Char)) : List Char → List MState
  | [] => [{ pos := pos, rest := [], caps := caps }]
  | x :: xs =>
    (if x = '\n' then [] else dotStar (pos + 1) caps xs)
      ++ [{ pos := pos, rest := x :: xs, caps := caps }]

/-- A document with nested parameters: `/repos/{owner}` and
`/repos/{owner}/{repo}`. -/
def reposDoc : Swagger :=
  { Paths :=
      [("/repos/{owner}", { Get := some {}, Post := some {} }),
       ("/repos/{owner}/{repo}", { Get := some {} })] }

/-! ## Multi-region resources and the discovery pass -/

/-- The method `Extensions.GetString` of go-openapi: looks up the lower-cased key
and returns the string stored there together with whether a string was found. -/
def Extensions.GetString (e : Extensions) (key : String) : String × Bool :=
  match e.lookup (String.mk (key.data.map Char.toLower)) with
  | some (.str v) => (v, true)
  | _ => ("", false)

/-- Go's `strings.Replace(s, " ", "", -1)`: `s` without its space characters. -/
def removeSpaces (s : String) : String :=
  String.mk (s.data.filter (fun c => c != ' '))

/-- The pieces of a text between its commas. -/
def splitOnComma : List Char → List (List Char)
  | [] => [[]]
  | c :: cs =>
    if c = ',' then [] :: splitOnComma cs
    else
      match splitOnComma cs with
      | [] => [[c]]
      | x :: xs => (c :: x) :: xs

/-- Go's `strings.Split(s, ",")`. -/
def stringsSplitComma (s : String) : List String :=
  (splitOnComma s.data).map String.mk

/-- The zero value of `spec.Schema`. -/
def Schema.zero : Schema :=
  .mk "" [] false [] none []

/-- Modelled from the spec: the type `SpecV2Resource` is declared outside the
analysed sources. A resource descriptor has a root path, a payload schema, the
root and instance path items with the declared operations, and an optional
region (empty when the resource has none). -/
structure SpecV2Resource where
  Region : String := ""
  Path : String := ""
  SchemaDefinition : Schema := Schema.zero
  RootPathItem : PathItem := {}
  InstancePathItem : PathItem := {}

/-- Modelled from the spec: the type `ParentResourceInfo` is declared outside
the analysed sources. The parent chain of a sub-resource: the instance paths
and the root paths of its ancestors. -/
structure ParentResourceInfo where
  parentInstanceURIs : List String := []
  parentURIs : List String := []

/-- The functions of the repository that the analyser calls and that are
declared outside the analysed sources. -/
structure Collaborators where
  /-- the overridden host declared by the POST operation, empty when none -/
  getResourceOverrideHost : Option Operation → String
  /-- whether the host is parametrized, and the pattern that was used -/
  IsMultiRegionHost : String → Bool × Regex
  /-- the string stored under an extension name, and whether there is one -/
  StringExtensionExists : Extensions → String → String × Bool
  /-- the constructor of a resource -/
  newSpecV2Resource : String → Schema → PathItem → PathItem →
    List (String × Schema) → List (String × PathItem) → Except AnalyserError SpecV2Resource
  /-- the constructor of the resource of a region -/
  newSpecV2ResourceWithRegion : String → String → Schema → PathItem → PathItem →
    List (String × Schema) → List (String × PathItem) → Except AnalyserError SpecV2Resource
  /-- the parent chain of a resource, none when it is not a sub-resource -/
  GetParentResourceInfo : SpecV2Resource → Option ParentResourceInfo
  /-- whether the resource is marked as ignored -/
  ShouldIgnoreResource : SpecV2Resource → Bool

/-- The format `x-terraform-resource-regions-%s` applied to the region identifier. -/
def getResourceRegionExtensionName (regionIdentifier : String) : String :=
  "x-terraform-resource-regions-" ++ regionIdentifier

/-- The loop that copies the regions into `apiRegions`. -/
def copyRegions : List String → List String → List String
  | [], apiRegions => apiRegions
  | region :: rest, apiRegions => copyRegions rest (apiRegions ++ [region])

/-- Whether the resource is multi region, and its regions. -/
def isMultiRegionResource (deps : Collaborators) (resourceRoot : PathItem)
    (extensions : Extensions) : Except AnalyserError (Bool × List String) :=
  let overrideHost := deps.getResourceOverrideHost resourceRoot.Post
  if overrideHost = "" then .ok (false, [])
  else
    let isMultiRegionHost := (deps.IsMultiRegionHost overrideHost).1
    let regex := (deps.IsMultiRegionHost overrideHost).2
    if !isMultiRegionHost then .ok (false, [])
    else
      let region := FindStringSubmatch regex overrideHost
      if region.length ≠ 5 then .error (.hostNotCompliant overrideHost)
      else
        let regionIdentifier := region.getD 3 ""
        let regionExtensionName := getResourceRegionExtensionName regionIdentifier
        let resourceRegions := (deps.StringExtensionExists extensions regionExtensionName).1
        let extensionExists := (deps.StringExtensionExists extensions regionExtensionName).2
        if extensionExists then
          let resourceRegions := removeSpaces resourceRegions
          let regions := stringsSplitComma resourceRegions
          if regions.length < 1 then
            .error (.noRegionFound regionIdentifier regionExtensionName resourceRegions)
          else
            let apiRegions := copyRegions regions []
            if apiRegions.length < 1 then
              .error (.regionMapNotBuilt regionIdentifier regionExtensionName resourceRegions)
            else .ok (true, apiRegions)
        else .error (.missingRegionExtension regionIdentifier regionExtensionName)

/-- The loop of `createMultiRegionResources` over the regions. -/
def createMultiRegionResourcesLoop (deps : Collaborators) (doc : Swagger)
    (resourceRootPath : String) (resourceRoot pathItem : PathItem)
    (resourcePayloadSchemaDef : Schema) :
    List String → List SpecV2Resource → Except AnalyserError (List SpecV2Resource)
  | [], resources => .ok resources
  | regionName :: rest, resources =>
    match deps.newSpecV2ResourceWithRegion regionName resourceRootPath resourcePayloadSchemaDef
        resourceRoot pathItem doc.Definitions doc.Paths with
    | .error err => .error (.failedRegionResource err)
    | .ok r =>
      createMultiRegionResourcesLoop deps doc resourceRootPath resourceRoot pathItem
        resourcePayloadSchemaDef rest (resources ++ [r])

/-- One resource for each region, or the error of the first construction that fails. -/
def createMultiRegionResources (deps : Collaborators) (doc : Swagger) (regions : List String)
    (resourceRootPath : String) (resourceRoot pathItem : PathItem)
    (resourcePayloadSchemaDef : Schema) : Except AnalyserError (List SpecV2Resource) :=
  createMultiRegionResourcesLoop deps doc resourceRootPath resourceRoot pathItem
    resourcePayloadSchemaDef regions []

/-- Whether the path, or the path followed by `/`, is declared, and its item. -/
def pathExists (doc : Swagger) (path : String) : Bool × PathItem :=
  match doc.Paths.lookup path with
  | some p => (true, p)
  | none =>
    match doc.Paths.lookup (path ++ "/") with
    | some p => (true, p)
    | none => (false, {})

/-- The first loop of `validateSubResourceTerraformCompliance`: every parent
instance path exists. -/
def parentInstanceLoop (doc : Swagger) (resourcePath : String) :
    List String → Except AnalyserError Unit
  | [] => .ok ()
  | parentInstanceURIs :: rest =>
    if !(pathExists doc parentInstanceURIs).1 then
      .error (.missingParentInstancePath resourcePath parentInstanceURIs)
    else parentInstanceLoop doc resourcePath rest

/-- The second loop of `validateSubResourceTerraformCompliance`: every parent
root path exists and is not ignored. -/
def parentRootLoop (deps : Collaborators) (doc : Swagger) (resourcePath : String) :
    List String → Except AnalyserError Unit
  | [] => .ok ()
  | parentURI :: rest =>
    if !(pathExists doc parentURI).1 then
      .error (.missingParentRootPath resourcePath parentURI)
    else
      let parentResource : SpecV2Resource := { RootPathItem := (pathExists doc parentURI).2 }
      if deps.ShouldIgnoreResource parentResource then
        .error (.ignoredParent resourcePath parentURI)
      else parentRootLoop deps doc resourcePath rest

/-- The parents of a sub-resource are declared and not ignored. -/
def validateSubResourceTerraformCompliance (deps : Collaborators) (doc : Swagger)
    (r : SpecV2Resource) : Except AnalyserError Unit :=
  match deps.GetParentResourceInfo r with
  | none => .ok ()
  | some parentResourceInfo =>
    let resourcePath := r.Path
    match parentInstanceLoop doc resourcePath parentResourceInfo.parentInstanceURIs with
    | .error err => .error err
    | .ok _ => parentRootLoop deps doc resourcePath parentResourceInfo.parentURIs

/-- The loop of `GetTerraformCompliantResources` over the paths, visited in the
given order; `resources` is the list built so far. -/
def complianceLoop (deps : Collaborators) (doc : Swagger) :
    List (String × PathItem) → List SpecV2Resource → List SpecV2Resource
  | [], resources => resources
  | (resourcePath, pathItem) :: rest, resources =>
    match isEndPointFullyTerraformResourceCompliant doc resourcePath with
    | .error _ => complianceLoop deps doc rest resources
    | .ok (resourceRootPath, resourceRoot, resourcePayloadSchemaDef) =>
      match isMultiRegionResource deps resourceRoot doc.Extensions with
      | .error _ => complianceLoop deps doc rest resources
      | .ok (isMultiRegion, regions) =>
        if isMultiRegion then
          match createMultiRegionResources deps doc regions resourceRootPath resourceRoot
              pathItem resourcePayloadSchemaDef with
          | .error _ => complianceLoop deps doc rest resources
          | .ok multiRegionResources =>
            complianceLoop deps doc rest (resources ++ multiRegionResources)
        else
          match deps.newSpecV2Resource resourceRootPath resourcePayloadSchemaDef resourceRoot
              pathItem doc.Definitions doc.Paths with
          | .error _ => complianceLoop deps doc rest resources
          | .ok r =>
            match validateSubResourceTerraformCompliance deps doc r with
            | .error _ => complianceLoop deps doc rest resources
            | .ok _ => complianceLoop deps doc rest (resources ++ [r])

/-- The discovery pass when the runtime visits the path map in the order
`order`: the compliant resources, in the order they are found. -/
def GetTerraformCompliantResourcesIn (deps : Collaborators) (doc : Swagger)
    (order : List (String × PathItem)) : Except AnalyserError (List SpecV2Resource) :=
  .ok (complianceLoop deps doc order [])

/-- The discovery pass over the paths of the document. -/
def GetTerraformCompliantResources (deps : Collaborators) (doc : Swagger) :
    Except AnalyserError (List SpecV2Resource) :=
  GetTerraformCompliantResourcesIn deps doc doc.Paths

/-! ## Security definitions -/

/-- A security scheme `spec.SecurityScheme`. -/
structure SecurityScheme where
  Typ : String := ""
  In : String := ""
  Name : String := ""
  Extensions : Extensions := []

/-- Modelled from the spec: the security definition types are declared outside
the analysed sources. A security definition is one of four variants, header or
query, plain or bearer, with a logical name; the plain variants carry the
declared parameter name, the bearer variants use a fixed convention. -/
inductive SpecSecurityDefinition where
  | apiKeyHeader (name apiKeyName : String)
  | apiKeyHeaderBearer (name : String)
  | apiKeyQuery (name apiKeyName : String)
  | apiKeyQueryBearer (name : String)
  deriving DecidableEq, Repr

/-- Modelled from the spec: the header variant with its declared parameter name. -/
def newAPIKeyHeaderSecurityDefinition (name apiKeyName : String) : SpecSecurityDefinition :=
  .apiKeyHeader name apiKeyName

/-- Modelled from the spec: the bearer header variant. -/
def newAPIKeyHeaderBearerSecurityDefinition (name : String) : SpecSecurityDefinition :=
  .apiKeyHeaderBearer name

/-- Modelled from the spec: the query variant with its declared parameter name. -/
def newAPIKeyQuerySecurityDefinition (name apiKeyName : String) : SpecSecurityDefinition :=
  .apiKeyQuery name apiKeyName

/-- Modelled from the spec: the bearer query variant. -/
def newAPIKeyQueryBearerSecurityDefinition (name : String) : SpecSecurityDefinition :=
  .apiKeyQueryBearer name

/-- The security part of the document: the named security definitions and the
global security requirements. -/
structure specV2Security where
  SecurityDefinitions : List (String × SecurityScheme) := []
  GlobalSecurity : List (List (String × List String)) := []

/-- The name of the extension that marks a bearer scheme. -/
def extTfAuthenticationSchemeBearer : String := "x-terraform-authentication-scheme-bearer"

/-- Whether the scheme is flagged as a bearer scheme. -/
def isBearerScheme (secDef : SecurityScheme) : Bool :=
  let authScheme := (secDef.Extensions.GetBool extTfAuthenticationSchemeBearer).1
  let enabled := (secDef.Extensions.GetBool extTfAuthenticationSchemeBearer).2
  if authScheme && enabled then true else false

/-- The loop of `GetAPIKeySecurityDefinitions` over the security definitions. -/
def apiKeySecurityDefinitionsLoop :
    List (String × SecurityScheme) → List SpecSecurityDefinition →
      Except AnalyserError (List SpecSecurityDefinition)
  | [], securityDefinitions => .ok securityDefinitions
  | (secDefName, secDef) :: rest, securityDefinitions =>
    if secDef.Typ = "apiKey" then
      if secDef.In = "header" then
        if isBearerScheme secDef then
          apiKeySecurityDefinitionsLoop rest
            (securityDefinitions ++ [newAPIKeyHeaderBearerSecurityDefinition secDefName])
        else
          apiKeySecurityDefinitionsLoop rest
            (securityDefinitions ++ [newAPIKeyHeaderSecurityDefinition secDefName secDef.Name])
      else if secDef.In = "query" then
        if isBearerScheme secDef then
          apiKeySecurityDefinitionsLoop rest
            (securityDefinitions ++ [newAPIKeyQueryBearerSecurityDefinition secDefName])
        else
          apiKeySecurityDefinitionsLoop rest
            (securityDefinitions ++ [newAPIKeyQuerySecurityDefinition secDefName secDef.Name])
      else .error (.apiKeyInNotSupported secDef.In)
    else apiKeySecurityDefinitionsLoop rest securityDefinitions

/-- The security definitions of type `apiKey`, one extracted definition each. -/
def specV2Security.GetAPIKeySecurityDefinitions (s : specV2Security) :
    Except AnalyserError (List SpecSecurityDefinition) :=
  apiKeySecurityDefinitionsLoop s.SecurityDefinitions []

/-- The extracted definition of an `apiKey` definition located in `header` or
`query`: its variant is fixed by the location and the bearer flag. -/
def extractedDefinition (nd : String × SecurityScheme) : SpecSecurityDefinition :=
  if nd.2.In = "header" then
    if isBearerScheme nd.2 then .apiKeyHeaderBearer nd.1 else .apiKeyHeader nd.1 nd.2.Name
  else
    if isBearerScheme nd.2 then .apiKeyQueryBearer nd.1 else .apiKeyQuery nd.1 nd.2.Name

/-! ## Collaborators and documents of the multi-region scenarios -/

/-- Modelled from the spec: the pattern of `IsMultiRegionHost` is declared
outside the analysed sources. A parametrized host has "the shape
prefix.region-keyword.suffix", as in `some.subdomain.${keyword}.domain.com`;
the match has four groups, the third one being the keyword:
`(\S+)(\$\{(\S+)\})(\S+)`. -/
def multiRegionHostRegex : Regex :=
  .seq (.group 1 (.plus .nonSpace))
    (.seq (.group 2 (.seq (.chr '$') (.seq (.chr '{')
        (.seq (.group 3 (.plus .nonSpace)) (.chr '}')))))
      (.group 4 (.plus .nonSpace)))

/-- Modelled from the spec: the collaborators declared outside the analysed
sources, for documents without sub-resources. The overridden host is the
non-empty string of the extension `x-terraform-resource-host` of the POST
operation; a host is parametrized when `multiRegionHostRegex` matches it; the
string extensions are looked up by name; a resource is built from its
arguments; no resource has a parent; a resource is ignored when its POST
operation has the extension `x-terraform-exclude-resource` set to true. -/
def flatCollaborators : Collaborators where
  getResourceOverrideHost := fun post =>
    match post with
    | none => ""
    | some op =>
      if (op.Extensions.GetString "x-terraform-resource-host").2
          && (op.Extensions.GetString "x-terraform-resource-host").1 != "" then
        (op.Extensions.GetString "x-terraform-resource-host").1
      else ""
  IsMultiRegionHost := fun overrideHost =>
    (decide ((FindStringSubmatch multiRegionHostRegex overrideHost).length ≠ 0),
      multiRegionHostRegex)
  StringExtensionExists := fun extensions key =>
    if (extensions.GetString key).2 then ((extensions.GetString key).1, true) else ("", false)
  newSpecV2Resource := fun path schema root inst _ _ =>
    .ok { Path := path, SchemaDefinition := schema, RootPathItem := root,
          InstancePathItem := inst }
  newSpecV2ResourceWithRegion := fun region path schema root inst _ _ =>
    .ok { Region := region, Path := path, SchemaDefinition := schema, RootPathItem := root,
          InstancePathItem := inst }
  GetParentResourceInfo := fun _ => none
  ShouldIgnoreResource := fun r =>
    match r.RootPathItem.Post with
    | none => false
    | some op =>
      (op.Extensions.GetBool "x-terraform-exclude-resource").1
        && (op.Extensions.GetBool "x-terraform-exclude-resource").2

/-- The root path item of the multi-region scenario: a POST with a `cdnSchema`
body and the host `accounts.${region}.api.com`. -/
def regionRootItem : PathItem :=
  { Post := some
      { Parameters := [{ Name := "body", In := "body", Schema := some cdnSchema }],
        Extensions := [("x-terraform-resource-host", .str "accounts.${region}.api.com")] } }

/-- The document of the multi-region scenario, with the given root level extensions. -/
def regionDoc (extensions : Extensions) : Swagger :=
  { Paths := [("/v1/cdns", regionRootItem), ("/v1/cdns/{id}", { Get := some {} })],
    Extensions := extensions }

/-- A document with two resources, `/v1/cdns` and `/v1/lbs`. -/
def twoResourcesDoc : Swagger :=
  { Paths :=
      [("/v1/cdns",
          { Post := some { Parameters := [{ Name := "body", In := "body", Schema := some cdnSchema }] } }),
       ("/v1/cdns/{id}", { Get := some {} }),
       ("/v1/lbs",
          { Post := some { Parameters := [{ Name := "body", In := "body", Schema := some cdnSchema }] } }),
       ("/v1/lbs/{id}", { Get := some {} })] }

/-- The white space characters: tab, newline, vertical tab, form feed, carriage
return and space. -/
def isWhiteSpace (c : Char) : Bool :=
  c == '\t' || c == '\n' || c == '\x0b' || c == '\x0c' || c == '\r' || c == ' '

/-- The comma-separated names of `v` with the surrounding white space trimmed
from each name, as the specification words the region list. -/
def trimmedNames (v : String) : List String :=
  (splitOnComma v.data).map
    (fun name => String.mk ((name.dropWhile isWhiteSpace).rdropWhile isWhiteSpace))

/-- The name of the region extension of the multi-region scenario. -/
def regionExtensionName : String := "x-terraform-resource-regions-region"

/-- The body schema POST of the documents with several resources. -/
def cdnPostItem : PathItem :=
  { Post := some { Parameters := [{ Name := "body", In := "body", Schema := some cdnSchema }] } }

/-- The resource of `/v1/cdns` in `twoResourcesDoc`. -/
def cdnsResource : SpecV2Resource :=
  { Path := "/v1/cdns", SchemaDefinition := cdnSchema, RootPathItem := cdnPostItem,
    InstancePathItem := { Get := some {} } }

/-- The resource of `/v1/lbs` in `twoResourcesDoc`. -/
def lbsResource : SpecV2Resource :=
  { Path := "/v1/lbs", SchemaDefinition := cdnSchema, RootPathItem := cdnPostItem,
    InstancePathItem := { Get := some {} } }

/-- Security definitions with the four `apiKey` variants and an `oauth2`
definition located elsewhere. -/
def fourVariantsSecurity : specV2Security :=
  { SecurityDefinitions :=
      [("apikey_header", { Typ := "apiKey", In := "header", Name := "X-API-KEY" }),
       ("bearer_header",
          { Typ := "apiKey", In := "header", Name := "Authorization",
            Extensions := [("x-terraform-authentication-scheme-bearer", .bool true)] }),
       ("apikey_query", { Typ := "apiKey", In := "query", Name := "token" }),
       ("bearer_query",
          { Typ := "apiKey", In := "query", Name := "access_token",
            Extensions := [("x-terraform-authentication-scheme-bearer", .bool true)] }),
       ("oauth", { Typ := "oauth2", In := "cookie", Name := "session" })] }

/-- The logical name of an extracted security definition. -/
def SpecSecurityDefinition.getName : SpecSecurityDefinition → String
  | .apiKeyHeader name _ => name
  | .apiKeyHeaderBearer name => name
  | .apiKeyQuery name _ => name
  | .apiKeyQueryBearer name => name

/-! ## Global security schemes -/

/-- Modelled from the spec: the type `SpecSecurityScheme` is declared outside
the analysed sources. A global security scheme is "a name referencing a
SecurityDefinition". -/
structure SpecSecurityScheme where
  Name : String
  deriving DecidableEq, Repr

/-- Modelled from the spec: `createSecuritySchemes` is declared outside the
analysed sources. One scheme "for every entry in the top-level security
requirement list", named after the entry. -/
def createSecuritySchemes (securitySchemes : List (List (String × List String))) :
    List SpecSecurityScheme :=
  securitySchemes.flatMap (fun securityScheme => securityScheme.map (fun e => { Name := e.1 }))

/-- Modelled from the spec: `findSecurityDefinitionFor` is declared outside the
analysed sources. The extracted definition with the given name, when "the
corresponding named SecurityDefinition exists among the extracted apiKey
definitions". -/
def findSecurityDefinitionFor (s : List SpecSecurityDefinition) (securitySchemeName : String) :
    Option SpecSecurityDefinition :=
  s.find? (fun securityDefinition => securityDefinition.getName == securitySchemeName)

/-- The loop of `GetGlobalSecuritySchemes` over the schemes still to check;
`securitySchemes` is the whole list, returned when every scheme is found. -/
def globalSecuritySchemesLoop (s : specV2Security) (securitySchemes : List SpecSecurityScheme) :
    List SpecSecurityScheme → Except AnalyserError (List SpecSecurityScheme)
  | [] => .ok securitySchemes
  | securityScheme :: rest =>
    match s.GetAPIKeySecurityDefinitions with
    | .error _ => .ok []
    | .ok secDef =>
      match findSecurityDefinitionFor secDef securityScheme.Name with
      | none => .error (.globalSecuritySchemeNotFound securityScheme.Name)
      | some _ => globalSecuritySchemesLoop s securitySchemes rest

/-- The global security schemes, each with its extracted security definition. -/
def specV2Security.GetGlobalSecuritySchemes (s : specV2Security) :
    Except AnalyserError (List SpecSecurityScheme) :=
  let securitySchemes := createSecuritySchemes s.GlobalSecurity
  globalSecuritySchemesLoop s securitySchemes securitySchemes

/-! ## Data sources -/

/-- The schema of the items of the list returned by the GET operation of the
path item, when the path is a compliant data source. `Items` of a schema stands
for `Items.Schema`, none when `Items` or `Items.Schema` is nil. -/
def isEndPointTerraformDataSourceCompliant (path : PathItem) : Except AnalyserError Schema :=
  match path.Get with
  | none => .error .missingGetOperation
  | some get =>
    match get.Responses with
    | some responses =>
      match responses.StatusCodeResponses.lookup 200 with
      | none => .error .missingGet200Response
      | some response =>
        match response.Schema with
        | none => .error .missingResponseSchema
        | some schema =>
          if schema.Typ.length > 0 ∧ ¬ schema.Typ.contains "array" then
            .error .responseNotArray
          else
            match schema.Items with
            | none => .error .itemsNotObjectWithProperties
            | some items =>
              if ¬ items.Typ.contains "object" ∨ items.Properties.length = 0 then
                .error .itemsNotObjectWithProperties
              else .ok items
    | none => .error .missingGetResponses

/-- Security definitions with a bearer definition whose declared parameter
name is `name`, and a plain one. -/
def bearerSecurity (name : String) : specV2Security :=
  { SecurityDefinitions :=
      [("bearer_header",
          { Typ := "apiKey", In := "header", Name := name,
            Extensions := [("x-terraform-authentication-scheme-bearer", .bool true)] }),
       ("apikey_query", { Typ := "apiKey", In := "query", Name := "token" })] }

/-- A document security with an `apiKey` definition located in `cookie`, whose
global security requires `token_auth`. -/
def cookieSecurity : specV2Security :=
  { SecurityDefinitions := [("cookie_auth", { Typ := "apiKey", In := "cookie", Name := "sid" })],
    GlobalSecurity := [[("token_auth", [])]] }

/-- A document security with a header definition `some_token` that the global
security requires. -/
def someTokenSecurity : specV2Security :=
  { SecurityDefinitions := [("some_token", { Typ := "apiKey", In := "header", Name := "Token" })],
    GlobalSecurity := [[("some_token", [])]] }

/-! ## Sub-resource scenario -/

/-- The path item of a data source whose GET answers 200 with the schema. -/
def dataSourceItem (schema : Schema) : PathItem :=
  { Get := some
      { Responses := some { StatusCodeResponses := [(200, { Schema := some schema })] } } }

/-- An object schema with the properties `id` and `label`, as the items of a list. -/
def listedObject : Schema :=
  .mk "" ["object"] false [("id", propSchema true []), ("label", propSchema false [])] none []

/-- A response schema that declares no type and whose items are `listedObject`. -/
def untypedListSchema : Schema :=
  .mk "" [] false [] (some listedObject) []

/-- An array schema whose items are of type string. -/
def stringListSchema : Schema :=
  .mk "" ["array"] false [] (some (.mk "" ["string"] false [] none [])) []

/-- An array schema whose items are objects without property. -/
def emptyObjectListSchema : Schema :=
  .mk "" ["array"] false [] (some (.mk "" ["object"] false [] none [])) []

/-! ## The refresh token authenticator -/

/-- An API key: the name of the header and its value. -/
structure apiKey where
  name : String := ""
  value : String := ""

/-- The response of an HTTP request: the status code and the headers, each
header with its values. -/
structure HttpResponse where
  StatusCode : Int := 0
  Header : List (String × List String) := []

/-- Go's `http.Header.Get`: the first value of the header, empty when there is none. -/
def HttpResponse.headerGet (r : HttpResponse) (key : String) : String :=
  match r.Header.lookup key with
  | some (v :: _) => v
  | _ => ""

/-- The authentication context: the headers to send, a map that can be nil. -/
structure authContext where
  headers : Option (List (String × String)) := none

/-- The value of a header of the context, none when it is not set. -/
def authContext.header (ctx : authContext) (key : String) : Option String :=
  match ctx.headers with
  | none => none
  | some m => m.lookup key

/-- The map assignment `m[key] = value`. -/
def mapSet (m : List (String × String)) (key value : String) : List (String × String) :=
  (key, value) :: m.filter (fun e => e.1 != key)

/-- Modelled from the spec: the constant `authorizationHeader` is declared
outside the analysed sources; the bearer variants use "the `Authorization`
header". -/
def authorizationHeader : String := "Authorization"

/-- The refresh token authenticator: the embedded API key, the name of the
terraform property, the URL of the refresh token end point, and the method
`PostJson` of its HTTP client, which answers a request (URL and headers) with a
response or an error. -/
structure apiRefreshTokenAuthenticator extends apiKey where
  terraformConfigurationName : String := ""
  refreshTokenURL : String := ""
  PostJson : String → List (String × String) → Except AnalyserError HttpResponse

/-- The context of the authenticator: its API key. -/
def apiRefreshTokenAuthenticator.getContext (a : apiRefreshTokenAuthenticator) : apiKey :=
  a.toapiKey

/-- Sends a POST request to the refresh token URL and stores the access token
of the response header `Authorization` in the context. Returns the context
after the call and the error, if any. -/
def apiRefreshTokenAuthenticator.prepareAuth (a : apiRefreshTokenAuthenticator)
    (ctx : authContext) : authContext × Option AnalyserError :=
  let apiKey := a.getContext
  let headers := [(apiKey.name, apiKey.value)]
  match a.PostJson a.refreshTokenURL headers with
  | .error err => (ctx, some err)
  | .ok r =>
    if r.StatusCode ≠ 200 ∧ r.StatusCode ≠ 204 then
      (ctx, some (.refreshTokenStatus a.refreshTokenURL r.StatusCode))
    else
      let accessToken := r.headerGet authorizationHeader
      if accessToken = "" then
        (ctx, some (.refreshTokenMissingAccessToken a.refreshTokenURL))
      else
        let ctx : authContext := if ctx.headers.isNone then { headers := some [] } else ctx
        ({ headers := some (mapSet (ctx.headers.getD []) authorizationHeader accessToken) }, none)

/-- Go's `strings.Trim(s, " ")`: `s` without its leading and trailing spaces. -/
def trimSpaces (s : String) : String :=
  String.mk ((s.data.dropWhile (fun c => c == ' ')).rdropWhile (fun c => c == ' '))

/-- The token is configured: not empty and not the bare word `Bearer`. -/
def apiRefreshTokenAuthenticator.validate (a : apiRefreshTokenAuthenticator) :
    Option AnalyserError :=
  if a.value = "" ∨ trimSpaces a.value = "Bearer" then
    some (.missingSecurityValue a.terraformConfigurationName)
  else none

/-- An authenticator with the given token, whose refresh end point answers with
the given response. -/
def refreshAuthenticator (token : String) (response : Except AnalyserError HttpResponse) :
    apiRefreshTokenAuthenticator :=
  { name := "Authorization", value := token, terraformConfigurationName := "refresh_token",
    refreshTokenURL := "https://api.example.com/refresh", PostJson := fun _ _ => response }

/-- A document where `/v1/cdns/{id}` and `/v1/cdns/{id}/` are both declared. -/
def twoInstancePathsDoc : Swagger :=
  { Paths :=
      [("/v1/cdns", cdnPostItem),
       ("/v1/cdns/{id}", { Get := some {} }),
       ("/v1/cdns/{id}/", { Get := some {} })] }

/-- A document whose POST has a body parameter without schema and answers 201
with a `computedSchema`. -/
def invalidBodyDoc : Swagger :=
  { Paths :=
      [("/v1/tokens",
          { Post := some
              { Parameters := [{ Name := "body", In := "body" }],
                Responses := some
                  { StatusCodeResponses := [(201, { Schema := some computedSchema })] } } }),
       ("/v1/tokens/{id}", { Get := some {} })] }

/-- Whether the discovery pass takes the multi-region branch at the path
`resourcePath`: the path is compliant and `isMultiRegionResource` reports its
root as multi-region. -/
def yieldsMultiRegion (deps : Collaborators) (doc : Swagger) (resourcePath : String) : Bool :=
  match isEndPointFullyTerraformResourceCompliant doc resourcePath with
  | .error _ => false
  | .ok (_, resourceRoot, _) =>
    match isMultiRegionResource deps resourceRoot doc.Extensions with
    | .error _ => false
    | .ok (isMultiRegion, _) => isMultiRegion

/-! ## The iteration orders of one run -/

/-- The orders in which one run ranges over the maps of the document other
than the path map. Go fixes no iteration order of a map, so every `range` over
a map visits some permutation of its entries: `responses p` is the order of
the response map ranged by `getSuccessfulResponseDefinition` for the path `p`,
and `properties p b` the order of the properties ranged by
`validateResourceSchemaDefWithOptions` with the flag `b` for the path `p`. -/
structure MapOrders where
  responses : String → List (Int × Response) → List (Int × Response)
  properties : String → Bool → List (String × Schema) → List (String × Schema)

/-- The run that visits every map in the order the document value lists it. -/
def MapOrders.stored : MapOrders :=
  { responses := fun _ l => l, properties := fun _ _ l => l }

/-- The run that visits every map in the reverse of that order. -/
def MapOrders.reversed : MapOrders :=
  { responses := fun _ l => l.reverse, properties := fun _ _ l => l.reverse }

/-- The function `getSuccessfulResponseDefinition` when the response map is
ranged in the order `visit` gives. -/
def getSuccessfulResponseDefinitionIn (visit : List (Int × Response) → List (Int × Response))
    (operation : Option Operation) : Except AnalyserError Schema :=
  match operation with
  | none => .error .missingResponses
  | some op =>
    match op.Responses with
    | none => .error .missingResponses
    | some responses => successfulResponseLoop (visit responses.StatusCodeResponses)

/-- The function `validateResourceSchemaDefWithOptions` when the properties are
ranged in the order `visit` gives. -/
def validateResourceSchemaDefWithOptionsIn
    (visit : List (String × Schema) → List (String × Schema)) (schema : Schema)
    (shouldPropBeReadOnly : Bool) : Except AnalyserError Unit :=
  match validatePropertiesLoop shouldPropBeReadOnly (visit schema.Properties) false with
  | .error e => .error e
  | .ok containsIdentifier =>
    if containsIdentifier == false then .error .missingIdentifier else .ok ()

/-- The function `validateRootPath` in a run with the map orders `orders`. -/
def validateRootPathIn (orders : MapOrders) (doc : Swagger) (resourcePath : String) :
    Except AnalyserError (String × PathItem × Schema) :=
  match findMatchingResourceRootPath doc resourcePath with
  | .error err => .error err
  | .ok resourceRootPath =>
    let postExist := postDefined doc resourceRootPath
    if !postExist then .error (.missingPost resourceRootPath)
    else
      let resourceRootPathItem := doc.pathItem resourceRootPath
      let resourceRootPostOperation := resourceRootPathItem.Post
      match getBodyParameterBodySchema resourceRootPostOperation with
      | .error err =>
        let bodyParam := bodyParameterExists resourceRootPostOperation
        match bodyParam with
        | none =>
          match getSuccessfulResponseDefinitionIn (orders.responses resourcePath)
              resourceRootPostOperation with
          | .error err => .error (.postWithoutBodyError resourceRootPath err)
          | .ok resourceSchema =>
            match validateResourceSchemaDefWithOptionsIn (orders.properties resourcePath true)
                resourceSchema true with
            | .error err => .error (.postWithoutBodyValidationError resourceRootPath err)
            | .ok _ => .ok (resourceRootPath, resourceRootPathItem, resourceSchema)
        | some _ => .error (.postValidationError resourceRootPath err)
      | .ok resourceRootPostSchemaDef =>
        .ok (resourceRootPath, resourceRootPathItem, resourceRootPostSchemaDef)

/-- The function `isEndPointFullyTerraformResourceCompliant` in a run with the
map orders `orders`. -/
def isEndPointFullyTerraformResourceCompliantIn (orders : MapOrders) (doc : Swagger)
    (resourcePath : String) : Except AnalyserError (String × PathItem × Schema) :=
  match validateInstancePath doc resourcePath with
  | .error err => .error err
  | .ok _ =>
    match validateRootPathIn orders doc resourcePath with
    | .error err => .error err
    | .ok (resourceRootPath, resourceRootPathItem, resourceRootPostSchemaDef) =>
      match validateResourceSchemaDefWithOptionsIn (orders.properties resourcePath false)
          resourceRootPostSchemaDef false with
      | .error err => .error err
      | .ok _ => .ok (resourceRootPath, resourceRootPathItem, resourceRootPostSchemaDef)

/-- The loop of `GetTerraformCompliantResources` in a run with the map orders
`orders`, the paths being visited in the given order. -/
def complianceLoopIn (orders : MapOrders) (deps : Collaborators) (doc : Swagger) :
    List (String × PathItem) → List SpecV2Resource → List SpecV2Resource
  | [], resources => resources
  | (resourcePath, pathItem) :: rest, resources =>
    match isEndPointFullyTerraformResourceCompliantIn orders doc resourcePath with
    | .error _ => complianceLoopIn orders deps doc rest resources
    | .ok (resourceRootPath, resourceRoot, resourcePayloadSchemaDef) =>
      match isMultiRegionResource deps resourceRoot doc.Extensions with
      | .error _ => complianceLoopIn orders deps doc rest resources
      | .ok (isMultiRegion, regions) =>
        if isMultiRegion then
          match createMultiRegionResources deps doc regions resourceRootPath resourceRoot
              pathItem resourcePayloadSchemaDef with
          | .error _ => complianceLoopIn orders deps doc rest resources
          | .ok multiRegionResources =>
            complianceLoopIn orders deps doc rest (resources ++ multiRegionResources)
        else
          match deps.newSpecV2Resource resourceRootPath resourcePayloadSchemaDef resourceRoot
              pathItem doc.Definitions doc.Paths with
          | .error _ => complianceLoopIn orders deps doc rest resources
          | .ok r =>
            match validateSubResourceTerraformCompliance deps doc r with
            | .error _ => complianceLoopIn orders deps doc rest resources
            | .ok _ => complianceLoopIn orders deps doc rest (resources ++ [r])

/-- One run of the discovery pass: the path map is visited in the order
`order` and the other maps in the orders `orders`. -/
def GetTerraformCompliantResourcesRun (deps : Collaborators) (doc : Swagger)
    (orders : MapOrders) (order : List (String × PathItem)) :
    Except AnalyserError (List SpecV2Resource) :=
  .ok (complianceLoopIn orders deps doc order [])

/-- A document whose root path `/v1/tokens` has a POST without body parameter
that declares two successful responses: 200 without schema and 201 with a
`computedSchema`. -/
def twoSuccessCodesDoc : Swagger :=
  { Paths :=
      [("/v1/tokens",
          { Post := some
              { Responses := some
                  { StatusCodeResponses := [(200, {}), (201, { Schema := some computedSchema })] } } }),
       ("/v1/tokens/{id}", { Get := some {} })] }

/-- The resource of `/v1/tokens` in `twoSuccessCodesDoc`. -/
def tokensResource : SpecV2Resource :=
  { Path := "/v1/tokens", SchemaDefinition := computedSchema,
    RootPathItem := twoSuccessCodesDoc.pathItem "/v1/tokens",
    InstancePathItem := { Get := some {} } }

theorem getBool_extTfID (e : Extensions) :
    ((e.GetBool extTfID).1 && (e.GetBool extTfID).2)
      = decide (e.lookup "x-terraform-id" = some (.bool true)) := by
  have h : String.mk (extTfID.data.map Char.toLower) = "x-terraform-id" := by decide
  unfold Extensions.GetBool
  rw [h]
  cases hl : List.lookup "x-terraform-id" e with
  | none => simp
  | some v => cases v <;> simp

theorem validatePropertiesLoop_false (ps : List (String × Schema)) (c : Bool) :
    validatePropertiesLoop false ps c = .ok (c || ps.any usableAsIdentifier) := by
  induction ps generalizing c with
  | nil => simp [validatePropertiesLoop]
  | cons np rest ih =>
    obtain ⟨name, prop⟩ := np
    simp only [validatePropertiesLoop, ih, getBool_extTfID, usableAsIdentifier, List.any_cons]
    by_cases h1 : name = "id"
    · simp [h1]
    · by_cases h2 : List.lookup "x-terraform-id" prop.Extensions = some (.bool true)
      · simp [h1, h2]
      · simp [h1, h2]

theorem validatePropertiesLoop_true (ps : List (String × Schema)) (c : Bool) :
    validatePropertiesLoop true ps c =
      if ps.all (fun np => np.2.ReadOnly) then .ok (c || ps.any usableAsIdentifier)
      else .error .notJustReadOnly := by
  induction ps generalizing c with
  | nil => simp [validatePropertiesLoop]
  | cons np rest ih =>
    obtain ⟨name, prop⟩ := np
    simp only [validatePropertiesLoop, ih, getBool_extTfID, usableAsIdentifier, List.any_cons,
      List.all_cons]
    cases hro : prop.ReadOnly
    · simp
    · cases hall : rest.all (fun np => np.2.ReadOnly) <;>
        by_cases h1 : name = "id" <;>
        by_cases h2 : List.lookup "x-terraform-id" prop.Extensions = some (.bool true) <;>
        simp [h1, h2]

theorem validateResourceSchemaDefinition_eq (schema : Schema) :
    validateResourceSchemaDefinition schema =
      if schema.Properties.any usableAsIdentifier then .ok () else .error .missingIdentifier := by
  unfold validateResourceSchemaDefinition validateResourceSchemaDefWithOptions
  rw [validatePropertiesLoop_false]
  cases h : schema.Properties.any usableAsIdentifier <;> simp

theorem validateResourceSchemaDefWithOptions_true (schema : Schema) :
    validateResourceSchemaDefWithOptions schema true =
      if schema.Properties.all (fun np => np.2.ReadOnly) then
        (if schema.Properties.any usableAsIdentifier then .ok () else .error .missingIdentifier)
      else .error .notJustReadOnly := by
  unfold validateResourceSchemaDefWithOptions
  rw [validatePropertiesLoop_true]
  cases h1 : schema.Properties.all (fun np => np.2.ReadOnly) <;>
    cases h2 : schema.Properties.any usableAsIdentifier <;> simp

theorem any_usableAsIdentifier (ps : List (String × Schema)) :
    ps.any usableAsIdentifier = true ↔
      ∃ np ∈ ps, np.1 = "id" ∨ np.2.Extensions.lookup "x-terraform-id" = some (.bool true) := by
  simp [List.any_eq_true, usableAsIdentifier]

/-! ## Lemmas on the root path validation -/

theorem findMatchingResourceRootPath_ok_mem {doc : Swagger} {p root : String}
    (h : findMatchingResourceRootPath doc p = .ok root) :
    (doc.Paths.lookup root).isSome = true := by
  unfold findMatchingResourceRootPath at h
  simp only at h
  split at h
  · cases h
  · split at h
    · cases h; assumption
    · split at h
      · cases h; assumption
      · cases h

theorem pathItem_of_lookup {doc : Swagger} {path : String} {item : PathItem}
    (h : doc.Paths.lookup path = some item) : doc.pathItem path = item := by
  simp [Swagger.pathItem, h]

theorem lookup_of_pathItem_post {doc : Swagger} {path : String} {op : Operation}
    (h : (doc.pathItem path).Post = some op) :
    doc.Paths.lookup path = some (doc.pathItem path) := by
  unfold Swagger.pathItem at h ⊢
  cases hl : List.lookup path doc.Paths with
  | none => rw [hl] at h; simp at h
  | some item => simp

theorem lookup_of_pathItem_get {doc : Swagger} {path : String} {op : Operation}
    (h : (doc.pathItem path).Get = some op) :
    doc.Paths.lookup path = some (doc.pathItem path) := by
  unfold Swagger.pathItem at h ⊢
  cases hl : List.lookup path doc.Paths with
  | none => rw [hl] at h; simp at h
  | some item => simp

theorem postDefined_eq (doc : Swagger) (root : String) :
    postDefined doc root = (doc.pathItem root).Post.isSome := by
  unfold postDefined Swagger.pathItem
  cases hl : List.lookup root doc.Paths <;> simp

theorem firstBodyParameter_none {ps : List Parameter} :
    firstBodyParameter ps = none ↔ ∀ q ∈ ps, q.In ≠ "body" := by
  induction ps with
  | nil => simp [firstBodyParameter]
  | cons q rest ih =>
    by_cases hq : q.In = "body" <;> simp [firstBodyParameter, hq, ih]

theorem firstBodyParameter_some {ps : List Parameter} {q : Parameter}
    (h : firstBodyParameter ps = some q) : q ∈ ps ∧ q.In = "body" := by
  induction ps with
  | nil => simp [firstBodyParameter] at h
  | cons q' rest ih =>
    by_cases hq : q'.In = "body"
    · simp [firstBodyParameter, hq] at h
      subst h
      simp [hq]
    · simp [firstBodyParameter, hq] at h
      have := ih h
      simp [this]

theorem getBodyParameterBodySchema_ok_iff (op : Option Operation) (schema : Schema) :
    getBodyParameterBodySchema op = .ok schema ↔
      ∃ param, bodyParameterExists op = some param ∧ param.Schema = some schema ∧
        schema.Ref = "" ∧ schema.Properties ≠ [] := by
  unfold getBodyParameterBodySchema
  cases hb : bodyParameterExists op with
  | none => simp
  | some param =>
    cases hs : param.Schema with
    | none => simp [hs]
    | some sch =>
      simp only [hs]
      constructor
      · intro h
        split at h
        · cases h
        · rename_i hr
          split at h
          · rename_i hp
            cases h
            exact ⟨param, rfl, hs, by simpa using hr, List.length_pos.mp hp⟩
          · cases h
      · rintro ⟨q, hq, hqs, hr, hp⟩
        cases hq
        rw [hs] at hqs
        cases hqs
        simp [hr, List.length_pos.mpr hp]

theorem successfulResponseLoop_ok {l : List (Int × Response)} {schema : Schema}
    (h : successfulResponseLoop l = .ok schema) :
    ∃ code response, (code, response) ∈ l ∧ (code = 200 ∨ code = 201 ∨ code = 202) ∧
      response.Schema = some schema := by
  induction l with
  | nil => simp [successfulResponseLoop] at h
  | cons cr rest ih =>
    obtain ⟨code, response⟩ := cr
    unfold successfulResponseLoop at h
    split at h
    · rename_i hc
      cases hs : response.Schema with
      | none => rw [hs] at h; cases h
      | some sch =>
        rw [hs] at h
        cases h
        exact ⟨code, response, by simp, hc, hs⟩
    · obtain ⟨c, r, hm, hc, hs⟩ := ih h
      exact ⟨c, r, by simp [hm], hc, hs⟩

theorem getSuccessfulResponseDefinition_ok {op : Option Operation} {schema : Schema}
    (h : getSuccessfulResponseDefinition op = .ok schema) :
    ∃ o responses code response, op = some o ∧ o.Responses = some responses ∧
      (code, response) ∈ responses.StatusCodeResponses ∧
      (code = 200 ∨ code = 201 ∨ code = 202) ∧ response.Schema = some schema := by
  unfold getSuccessfulResponseDefinition at h
  cases op with
  | none => cases h
  | some o =>
    cases hr : o.Responses with
    | none => simp [hr] at h
    | some responses =>
      simp only [hr] at h
      obtain ⟨c, r, hm, hc, hs⟩ := successfulResponseLoop_ok h
      exact ⟨o, responses, c, r, rfl, hr, hm, hc, hs⟩

/-- The result of `validateRootPath` once the root path is known. -/
theorem validateRootPath_of_root {doc : Swagger} {p root : String}
    (h : findMatchingResourceRootPath doc p = .ok root) :
    validateRootPath doc p =
      if (doc.pathItem root).Post.isSome then
        match getBodyParameterBodySchema (doc.pathItem root).Post with
        | .error err =>
          match bodyParameterExists (doc.pathItem root).Post with
          | none =>
            match getSuccessfulResponseDefinition (doc.pathItem root).Post with
            | .error err => .error (.postWithoutBodyError root err)
            | .ok resourceSchema =>
              match validateResourceSchemaDefWithOptions resourceSchema true with
              | .error err => .error (.postWithoutBodyValidationError root err)
              | .ok _ => .ok (root, doc.pathItem root, resourceSchema)
          | some _ => .error (.postValidationError root err)
        | .ok schema => .ok (root, doc.pathItem root, schema)
      else .error (.missingPost root) := by
  unfold validateRootPath
  rw [h]
  simp only [postDefined_eq]
  cases (doc.pathItem root).Post.isSome <;> simp

theorem getBodyParameterBodySchema_no_body {op : Option Operation}
    (h : bodyParameterExists op = none) :
    getBodyParameterBodySchema op = .error .missingBodyParameter := by
  simp [getBodyParameterBodySchema, h]

/-! ## The resource compliance validator -/

/-- C1: soundness of the resource compliance check. If
`isEndPointFullyTerraformResourceCompliant` succeeds on the path `P` with
`(root, rootItem, schema)` then (1) `P` has the instance-path shape and the
path item stored under `P` declares GET, (2) `root` is a key of the path map,
`rootItem` is the item stored under it and it declares POST, (3) `schema` is
the schema of the POST body parameter, with no unexpanded reference and at
least one property, or else the POST has no parameter located in `body` and
`schema` is the schema of a declared 200/201/202 response all of whose
properties are read only, and (4) `schema` has a property named `id` or a
property whose `x-terraform-id` extension is the boolean true. -/
theorem isEndPointFullyTerraformResourceCompliant_sound (doc : Swagger) (P root : String)
    (rootItem : PathItem) (schema : Schema)
    (h : isEndPointFullyTerraformResourceCompliant doc P = .ok (root, rootItem, schema)) :
    ((isResourceInstanceEndPoint P).1 = true ∧
      ∃ item, doc.Paths.lookup P = some item ∧ item.Get.isSome = true) ∧
    (doc.Paths.lookup root = some rootItem ∧ rootItem.Post.isSome = true) ∧
    (∃ op, rootItem.Post = some op ∧
      ((∃ param, bodyParameterExists (some op) = some param ∧ param ∈ op.Parameters ∧
          param.In = "body" ∧ param.Schema = some schema ∧
          schema.Ref = "" ∧ schema.Properties ≠ []) ∨
       ((∀ q ∈ op.Parameters, q.In ≠ "body") ∧
          ∃ responses code response, op.Responses = some responses ∧
            (code, response) ∈ responses.StatusCodeResponses ∧
            (code = 200 ∨ code = 201 ∨ code = 202) ∧ response.Schema = some schema ∧
            ∀ np ∈ schema.Properties, np.2.ReadOnly = true))) ∧
    (∃ np ∈ schema.Properties,
      np.1 = "id" ∨ np.2.Extensions.lookup "x-terraform-id" = some (.bool true)) := by
  unfold isEndPointFullyTerraformResourceCompliant at h
  cases hi : validateInstancePath doc P with
  | error e => rw [hi] at h; cases h
  | ok u =>
    rw [hi] at h
    simp only at h
    cases hr : validateRootPath doc P with
    | error e => rw [hr] at h; cases h
    | ok res =>
      obtain ⟨r, it, sc⟩ := res
      rw [hr] at h
      simp only at h
      cases hv : validateResourceSchemaDefinition sc with
      | error e => rw [hv] at h; cases h
      | ok u' =>
        rw [hv] at h
        simp only [Except.ok.injEq, Prod.mk.injEq] at h
        obtain ⟨h1, h2, h3⟩ := h
        subst h1 h2 h3
        refine ⟨?_, ?_, ?_, ?_⟩
        · -- the instance path
          unfold validateInstancePath at hi
          simp only [isResourceInstanceEndPoint, Option.isSome_none, Bool.false_eq_true,
            if_false] at hi
          split at hi
          · cases hi
          · rename_i hm
            split at hi
            · cases hi
            · rename_i hg
              refine ⟨by simpa [isResourceInstanceEndPoint] using hm, doc.pathItem P, ?_, ?_⟩
              · cases hget : (doc.pathItem P).Get with
                | none => simp [hget] at hg
                | some op => exact lookup_of_pathItem_get hget
              · cases hget : (doc.pathItem P).Get with
                | none => simp [hget] at hg
                | some op => rfl
        all_goals
          cases hf : findMatchingResourceRootPath doc P with
          | error e => simp [validateRootPath, hf] at hr
          | ok root' =>
            rw [validateRootPath_of_root hf] at hr
            cases hpost : (doc.pathItem root').Post with
            | none => simp [hpost] at hr
            | some op =>
              simp only [hpost, Option.isSome_some, if_true] at hr
              cases hb : getBodyParameterBodySchema (some op) with
              | ok sch =>
                rw [hb] at hr
                simp only [Except.ok.injEq, Prod.mk.injEq] at hr
                obtain ⟨e1, e2, e3⟩ := hr
                subst e1 e2 e3
                obtain ⟨param, hp1, hp2, hp3, hp4⟩ :=
                  (getBodyParameterBodySchema_ok_iff _ _).mp hb
                first
                  | exact ⟨lookup_of_pathItem_post hpost, by simp [hpost]⟩
                  | exact ⟨op, hpost, Or.inl ⟨param, hp1, (firstBodyParameter_some hp1).1,
                      (firstBodyParameter_some hp1).2, hp2, hp3, hp4⟩⟩
                  | exact (any_usableAsIdentifier _).mp (by
                      rw [validateResourceSchemaDefinition_eq] at hv
                      by_contra hne
                      simp [hne] at hv)
              | error err =>
                rw [hb] at hr
                simp only at hr
                cases hbe : bodyParameterExists (some op) with
                | some q => rw [hbe] at hr; cases hr
                | none =>
                  rw [hbe] at hr
                  simp only at hr
                  cases hs : getSuccessfulResponseDefinition (some op) with
                  | error e2 => rw [hs] at hr; cases hr
                  | ok sch =>
                    rw [hs] at hr
                    simp only at hr
                    cases hw : validateResourceSchemaDefWithOptions sch true with
                    | error e3 => rw [hw] at hr; cases hr
                    | ok u3 =>
                      rw [hw] at hr
                      simp only [Except.ok.injEq, Prod.mk.injEq] at hr
                      obtain ⟨e1, e2, e3⟩ := hr
                      subst e1 e2 e3
                      obtain ⟨o, responses, code, response, ho, hresp, hmem, hcode, hsch⟩ :=
                        getSuccessfulResponseDefinition_ok hs
                      cases ho
                      have hall : sch.Properties.all (fun np => np.2.ReadOnly) = true := by
                        rw [validateResourceSchemaDefWithOptions_true] at hw
                        by_contra hne
                        simp [hne] at hw
                      first
                        | exact ⟨lookup_of_pathItem_post hpost, by simp [hpost]⟩
                        | exact ⟨op, hpost, Or.inr ⟨firstBodyParameter_none.mp hbe, responses,
                            code, response, hresp, hmem, hcode, hsch,
                            fun np hnp => by simpa using List.all_eq_true.mp hall np hnp⟩⟩
                        | exact (any_usableAsIdentifier _).mp (by
                            rw [validateResourceSchemaDefinition_eq] at hv
                            by_contra hne
                            simp [hne] at hv)

/-- Witness of C1 on the end-to-end document: `/v1/cdns/{id}` is compliant. -/
theorem isEndPointFullyTerraformResourceCompliant_sound_witness :
    isEndPointFullyTerraformResourceCompliant cdnDoc "/v1/cdns/{id}"
        = .ok ("/v1/cdns", cdnDoc.pathItem "/v1/cdns", cdnSchema) ∧
      (isResourceInstanceEndPoint "/v1/cdns/{id}").1 = true ∧
      ∃ np ∈ cdnSchema.Properties,
        np.1 = "id" ∨ np.2.Extensions.lookup "x-terraform-id" = some (.bool true) :=
  have h := isEndPointFullyTerraformResourceCompliant_sound cdnDoc "/v1/cdns/{id}" "/v1/cdns"
    (cdnDoc.pathItem "/v1/cdns") cdnSchema rfl
  ⟨rfl, h.1.1, h.2.2.2⟩

/-- C2: `validateResourceSchemaDefinition` succeeds if and only if the schema
has a property named `id` or a property whose `x-terraform-id` extension is the
boolean true; otherwise it fails with the missing-identifier error. -/
theorem validateResourceSchemaDefinition_iff (schema : Schema) :
    (validateResourceSchemaDefinition schema = .ok () ↔
      ∃ np ∈ schema.Properties,
        np.1 = "id" ∨ np.2.Extensions.lookup "x-terraform-id" = some (.bool true)) ∧
    (validateResourceSchemaDefinition schema = .ok () ∨
      validateResourceSchemaDefinition schema = .error .missingIdentifier) := by
  rw [validateResourceSchemaDefinition_eq, ← any_usableAsIdentifier]
  cases h : schema.Properties.any usableAsIdentifier <;> simp

/-- C3, as the code has it: when the POST of the root path has no body
parameter and its successful response has the schema `schema`, the candidate is
accepted by `validateRootPath` if and only if every property of `schema` is
read only and `schema` has an identifier property (named `id` or flagged with
`x-terraform-id`); a property that is not read only is rejected with the
read-only error, whatever the other properties are. -/
theorem validateRootPath_computed_only_iff (doc : Swagger) (resourcePath root : String)
    (op : Operation) (schema : Schema)
    (hroot : findMatchingResourceRootPath doc resourcePath = .ok root)
    (hpost : (doc.pathItem root).Post = some op)
    (hbody : ∀ q ∈ op.Parameters, q.In ≠ "body")
    (hresp : getSuccessfulResponseDefinition (some op) = .ok schema) :
    ((∃ r, validateRootPath doc resourcePath = .ok r) ↔
      (∀ np ∈ schema.Properties, np.2.ReadOnly = true) ∧
      ∃ np ∈ schema.Properties,
        np.1 = "id" ∨ np.2.Extensions.lookup "x-terraform-id" = some (.bool true)) ∧
    ((∃ r, validateRootPath doc resourcePath = .ok r) ↔
      validateRootPath doc resourcePath = .ok (root, doc.pathItem root, schema)) ∧
    ((∃ np ∈ schema.Properties, np.2.ReadOnly = false) ↔
      validateRootPath doc resourcePath
        = .error (.postWithoutBodyValidationError root .notJustReadOnly)) := by
  have hbe : bodyParameterExists (some op) = none := firstBodyParameter_none.mpr hbody
  rw [validateRootPath_of_root hroot, hpost]
  simp only [Option.isSome_some, if_true, getBodyParameterBodySchema_no_body hbe, hbe, hresp,
    validateResourceSchemaDefWithOptions_true, ← any_usableAsIdentifier]
  have hall : (∀ np ∈ schema.Properties, np.2.ReadOnly = true) ↔
      schema.Properties.all (fun np => np.2.ReadOnly) = true := by
    simp [List.all_eq_true]
  have hex : (∃ np ∈ schema.Properties, np.2.ReadOnly = false) ↔
      schema.Properties.all (fun np => np.2.ReadOnly) = false := by
    rw [← Bool.not_eq_true, ← hall]
    simp
  rw [hall, hex]
  cases h1 : schema.Properties.all (fun np => np.2.ReadOnly) <;>
    cases h2 : schema.Properties.any usableAsIdentifier <;> simp

/-- Witness of C3 (amended): the computed-only document `computedDoc` is accepted. -/
theorem validateRootPath_computed_only_iff_witness :
    validateRootPath computedDoc "/v1/tokens/{id}"
        = .ok ("/v1/tokens", computedDoc.pathItem "/v1/tokens", computedSchema) ∧
      ∀ np ∈ computedSchema.Properties, np.2.ReadOnly = true :=
  have h := validateRootPath_computed_only_iff computedDoc "/v1/tokens/{id}" "/v1/tokens"
    { Responses := some { StatusCodeResponses := [(201, { Schema := some computedSchema })] } }
    computedSchema rfl rfl (by simp) rfl
  ⟨rfl, (h.1.mp ⟨_, rfl⟩).1⟩

/-- C3 fails as stated: in `tokenDoc` the POST of the root path `/v1/tokens`
has no body parameter and every property of its 201 response schema is read
only, yet `validateRootPath` rejects the candidate, the schema having no
identifier property. -/
theorem validateRootPath_all_read_only_rejected :
    findMatchingResourceRootPath tokenDoc "/v1/tokens/{id}" = .ok "/v1/tokens" ∧
    bodyParameterExists (tokenDoc.pathItem "/v1/tokens").Post = none ∧
    getSuccessfulResponseDefinition (tokenDoc.pathItem "/v1/tokens").Post = .ok tokenSchema ∧
    (∀ np ∈ tokenSchema.Properties, np.2.ReadOnly = true) ∧
    validateRootPath tokenDoc "/v1/tokens/{id}"
      = .error (.postWithoutBodyValidationError "/v1/tokens" .missingIdentifier) := by
  refine ⟨rfl, rfl, rfl, ?_, rfl⟩
  intro np hnp
  simp [tokenSchema, objSchema, Schema.Properties] at hnp
  subst hnp
  rfl

/-- C4, as the code has it: a payload schema accepted by
`validateResourceSchemaDefinition` has at least one property usable as the
unique identifier (named `id` or flagged with `x-terraform-id`). -/
theorem validateResourceSchemaDefinition_identifier_count (schema : Schema)
    (h : validateResourceSchemaDefinition schema = .ok ()) :
    1 ≤ (schema.Properties.filter usableAsIdentifier).length := by
  rw [validateResourceSchemaDefinition_eq] at h
  have hany : schema.Properties.any usableAsIdentifier = true := by
    by_contra hne
    simp [hne] at h
  obtain ⟨np, hnp, hid⟩ := List.any_eq_true.mp hany
  exact List.length_pos_of_mem (List.mem_filter.mpr ⟨hnp, hid⟩)

/-- Witness of C4 (amended) on the schema of the end-to-end scenario. -/
theorem validateResourceSchemaDefinition_identifier_count_witness :
    validateResourceSchemaDefinition cdnSchema = .ok () ∧
      1 ≤ (cdnSchema.Properties.filter usableAsIdentifier).length :=
  ⟨rfl, validateResourceSchemaDefinition_identifier_count cdnSchema rfl⟩

/-- C4 fails as stated: `twoIdentifiersSchema` has two properties usable as
identifier (`id` and the flagged `name`) and is accepted. -/
theorem validateResourceSchemaDefinition_two_identifiers :
    validateResourceSchemaDefinition twoIdentifiersSchema = .ok () ∧
      (twoIdentifiersSchema.Properties.filter usableAsIdentifier).length = 2 := by
  exact ⟨rfl, rfl⟩

/-- C8: for a path with the instance shape, `validateInstancePath` succeeds if
and only if the path item of the document for it declares GET, a missing GET
yields the missing-GET error, and the outcome is the same in every document
whose path item for the path declares the same GET, whatever its PUT and DELETE
are. -/
theorem validateInstancePath_iff_get (doc : Swagger) (path : String)
    (hshape : (isResourceInstanceEndPoint path).1 = true) :
    (validateInstancePath doc path = .ok () ↔ (doc.pathItem path).Get.isSome = true) ∧
    ((doc.pathItem path).Get = none ↔ validateInstancePath doc path = .error (.missingGet path)) ∧
    (∀ doc₂ : Swagger, (doc₂.pathItem path).Get = (doc.pathItem path).Get →
      validateInstancePath doc₂ path = validateInstancePath doc path) := by
  have key : ∀ d : Swagger, validateInstancePath d path =
      if (d.pathItem path).Get.isNone then .error (.missingGet path) else .ok () := by
    intro d
    unfold validateInstancePath
    simp only [isResourceInstanceEndPoint] at hshape ⊢
    simp [hshape]
  refine ⟨?_, ?_, ?_⟩
  · rw [key]
    cases (doc.pathItem path).Get <;> simp
  · rw [key]
    cases (doc.pathItem path).Get <;> simp
  · intro doc₂ h
    rw [key, key, h]

/-- Witness of C8: `/v1/cdns/{id}` has the instance shape and declares GET. -/
theorem validateInstancePath_iff_get_witness :
    (isResourceInstanceEndPoint "/v1/cdns/{id}").1 = true ∧
      validateInstancePath cdnDoc "/v1/cdns/{id}" = .ok () :=
  ⟨by decide,
    (validateInstancePath_iff_get cdnDoc "/v1/cdns/{id}" (by decide)).1.mpr (by rfl)⟩

/-- C9: when the root path of an instance path is found in the document and
its path item declares no POST, `validateRootPath` fails with the missing-POST
error. -/
theorem validateRootPath_missing_post (doc : Swagger) (resourcePath root : String)
    (hroot : findMatchingResourceRootPath doc resourcePath = .ok root)
    (hpost : (doc.pathItem root).Post = none) :
    validateRootPath doc resourcePath = .error (.missingPost root) := by
  rw [validateRootPath_of_root hroot, hpost]
  simp

/-- Witness of C9: in `getOnlyDoc` the root path `/v1/cdns` declares only GET. -/
theorem validateRootPath_missing_post_witness :
    findMatchingResourceRootPath getOnlyDoc "/v1/cdns/{id}" = .ok "/v1/cdns" ∧
      (getOnlyDoc.pathItem "/v1/cdns").Post = none ∧
      validateRootPath getOnlyDoc "/v1/cdns/{id}" = .error (.missingPost "/v1/cdns") :=
  ⟨rfl, rfl, validateRootPath_missing_post getOnlyDoc "/v1/cdns/{id}" "/v1/cdns" rfl rfl⟩

/-- C10: `getBodyParameterBodySchema` succeeds with `schema` if and only if the
operation has a parameter located in `body` (the first one is taken), that
parameter has the schema `schema`, the schema carries no unexpanded reference
and has at least one property; and each of the four failing conditions yields
its own error. -/
theorem getBodyParameterBodySchema_iff (operation : Option Operation) :
    (∀ schema, getBodyParameterBodySchema operation = .ok schema ↔
      ∃ op param, operation = some op ∧ param ∈ op.Parameters ∧ param.In = "body" ∧
        bodyParameterExists operation = some param ∧ param.Schema = some schema ∧
        schema.Ref = "" ∧ schema.Properties ≠ []) ∧
    ((∀ op, operation = some op → ∀ q ∈ op.Parameters, q.In ≠ "body") ↔
      getBodyParameterBodySchema operation = .error .missingBodyParameter) ∧
    ((∃ param, bodyParameterExists operation = some param ∧ param.Schema = none) ↔
      getBodyParameterBodySchema operation = .error .missingBodyParameterSchema) ∧
    ((∃ param schema, bodyParameterExists operation = some param ∧
        param.Schema = some schema ∧ schema.Ref ≠ "") ↔
      getBodyParameterBodySchema operation = .error .refNotExpanded) ∧
    ((∃ param schema, bodyParameterExists operation = some param ∧
        param.Schema = some schema ∧ schema.Ref = "" ∧ schema.Properties = []) ↔
      getBodyParameterBodySchema operation = .error .schemaWithoutProperties) := by
  refine ⟨?_, ?_, ?_, ?_, ?_⟩
  · intro schema
    rw [getBodyParameterBodySchema_ok_iff]
    constructor
    · rintro ⟨param, h1, h2, h3, h4⟩
      cases operation with
      | none => cases h1
      | some op =>
        exact ⟨op, param, rfl, (firstBodyParameter_some h1).1, (firstBodyParameter_some h1).2,
          h1, h2, h3, h4⟩
    · rintro ⟨op, param, -, -, -, h1, h2, h3, h4⟩
      exact ⟨param, h1, h2, h3, h4⟩
  · have h1 : (∀ op, operation = some op → ∀ q ∈ op.Parameters, q.In ≠ "body") ↔
        bodyParameterExists operation = none := by
      cases operation with
      | none => simp [bodyParameterExists]
      | some op => simp [bodyParameterExists, firstBodyParameter_none]
    rw [h1]
    unfold getBodyParameterBodySchema
    cases hb : bodyParameterExists operation with
    | none => simp
    | some param =>
      cases hs : param.Schema with
      | none => simp [hs]
      | some sch =>
        by_cases hr : sch.Ref = ""
        · by_cases hp : sch.Properties = []
          · simp [hs, hr, hp]
          · have hlen : 0 < sch.Properties.length := List.length_pos.mpr hp
            simp [hs, hr, hlen]
        · simp [hs, hr]
  all_goals
    unfold getBodyParameterBodySchema
    cases hb : bodyParameterExists operation with
    | none => simp
    | some param =>
      cases hs : param.Schema with
      | none => simp [hs]
      | some sch =>
        by_cases hr : sch.Ref = ""
        · by_cases hp : sch.Properties = []
          · simp [hs, hr, hp]
          · have hlen : 0 < sch.Properties.length := List.length_pos.mpr hp
            simp [hs, hr, hp, hlen]
        · simp [hs, hr]

/-! ## Lemmas on the matcher -/

theorem starLoop_any (caps : Nat → Option (List Char)) :
    ∀ (rest : List Char) (n pos : Nat), rest.length ≤ n →
      starLoop (fun st' => matchRe .any st') n { pos := pos, rest := rest, caps := caps }
        = dotStar pos caps rest
  | [], 0, pos, _ => by simp [starLoop, dotStar]
  | [], n + 1, pos, _ => by simp [starLoop, dotStar, matchRe]
  | x :: xs, 0, pos, h => by simp at h
  | x :: xs, n + 1, pos, h => by
    have hlen : xs.length ≤ n := by simpa using h
    have hany : matchRe .any { pos := pos, rest := x :: xs, caps := caps } =
        if x = '\n' then [] else [{ pos := pos + 1, rest := xs, caps := caps }] := by
      simp [matchRe]
    simp only [starLoop, hany, dotStar]
    by_cases hx : x = '\n'
    · simp [hx]
    · simp [hx, starLoop_any caps xs n (pos + 1) hlen]

theorem matchRe_star_any (st : MState) :
    matchRe (.star .any) st = dotStar st.pos st.caps st.rest := by
  obtain ⟨pos, rest, caps⟩ := st
  simp only [matchRe]
  exact starLoop_any caps rest rest.length pos (le_refl _)

theorem matchRe_plus_any (st : MState) :
    matchRe (.plus .any) st =
      match st.rest with
      | [] => []
      | x :: xs => if x = '\n' then [] else dotStar (st.pos + 1) st.caps xs := by
  obtain ⟨pos, rest, caps⟩ := st
  cases rest with
  | nil => simp [matchRe]
  | cons x xs =>
    by_cases hx : x = '\n'
    · simp [matchRe, hx]
    · simp only [matchRe, hx, if_false, List.flatMap_cons, List.flatMap_nil, List.append_nil]
      exact starLoop_any caps xs xs.length (pos + 1) (le_refl _)

theorem mem_dotStar {caps : Nat → Option (List Char)} {st : MState} :
    ∀ {s : List Char} {pos : Nat}, st ∈ dotStar pos caps s ↔
      ∃ a, s = a ++ st.rest ∧ '\n' ∉ a ∧ st.pos = pos + a.length ∧ st.caps = caps
  | [], pos => by
    obtain ⟨p, r, c⟩ := st
    simp only [dotStar, List.mem_singleton, MState.mk.injEq]
    constructor
    · rintro ⟨h1, h2, h3⟩
      exact ⟨[], by simp [h2], by simp, by simp [h1], h3⟩
    · rintro ⟨a, h1, -, h3, h4⟩
      have ha : a = [] := by
        cases a with
        | nil => rfl
        | cons y ys => simp at h1
      subst ha
      simp at h1 h3
      exact ⟨h3, h1, h4⟩
  | x :: xs, pos => by
    simp only [dotStar, List.mem_append, List.mem_singleton]
    constructor
    · rintro (h | h)
      · by_cases hx : x = '\n'
        · simp [hx] at h
        · simp only [hx, if_false] at h
          obtain ⟨a, h1, h2, h3, h4⟩ := (@mem_dotStar caps st xs (pos + 1)).mp h
          refine ⟨x :: a, by simp [h1], ?_, by simp [h3]; omega, h4⟩
          simp only [List.mem_cons, not_or]
          exact ⟨fun hc => hx hc.symm, h2⟩
      · subst h
        exact ⟨[], by simp, by simp, by simp, rfl⟩
    · rintro ⟨a, h1, h2, h3, h4⟩
      cases a with
      | nil =>
        right
        obtain ⟨p, r, c⟩ := st
        simp at h1 h3 h4
        simp [h1, h3, h4]
      | cons y ys =>
        left
        simp only [List.cons_append, List.cons.injEq] at h1
        obtain ⟨hy, hxs⟩ := h1
        subst hy
        simp only [List.mem_cons, not_or] at h2
        have hx : ¬ x = '\n' := fun hc => h2.1 hc.symm
        simp only [hx, if_false]
        exact (@mem_dotStar caps st xs (pos + 1)).mpr
          ⟨ys, hxs, h2.2, by simp at h3; omega, h4⟩

theorem mem_matchRe_chr {c : Char} {st st' : MState} :
    st' ∈ matchRe (.chr c) st ↔
      st.rest = c :: st'.rest ∧ st'.pos = st.pos + 1 ∧ st'.caps = st.caps := by
  obtain ⟨pos, rest, caps⟩ := st
  obtain ⟨pos', rest', caps'⟩ := st'
  cases rest with
  | nil => simp [matchRe]
  | cons x xs =>
    by_cases hx : x = c
    · simp only [matchRe, hx, if_true, List.mem_singleton, MState.mk.injEq, List.cons.injEq,
        true_and]
      constructor
      · rintro ⟨h1, h2, h3⟩; exact ⟨h2.symm, h1, h3⟩
      · rintro ⟨h1, h2, h3⟩; exact ⟨h2, h1.symm, h3⟩
    · simp [matchRe, hx]

theorem mem_matchRe_seq {r₁ r₂ : Regex} {st st' : MState} :
    st' ∈ matchRe (.seq r₁ r₂) st ↔ ∃ m ∈ matchRe r₁ st, st' ∈ matchRe r₂ m := by
  simp [matchRe, List.mem_flatMap]

theorem mem_matchRe_eot {st st' : MState} :
    st' ∈ matchRe .eot st ↔ st' = st ∧ st.rest = [] := by
  obtain ⟨pos, rest, caps⟩ := st
  cases rest <;> simp [matchRe]

theorem mem_matchRe_plus_any {st st' : MState} :
    st' ∈ matchRe (.plus .any) st ↔
      ∃ x b, st.rest = x :: b ++ st'.rest ∧ x ≠ '\n' ∧ '\n' ∉ b ∧
        st'.pos = st.pos + 1 + b.length ∧ st'.caps = st.caps := by
  rw [matchRe_plus_any]
  obtain ⟨pos, rest, caps⟩ := st
  cases rest with
  | nil => simp
  | cons x xs =>
    by_cases hx : x = '\n'
    · simp only [hx, if_true, List.not_mem_nil, false_iff]
      rintro ⟨y, b, h1, h2, -⟩
      simp only [List.cons_append, List.cons.injEq] at h1
      exact h2 h1.1.symm
    · simp only [hx, if_false, mem_dotStar]
      constructor
      · rintro ⟨a, h1, h2, h3, h4⟩
        exact ⟨x, a, by simp [h1], hx, h2, h3, h4⟩
      · rintro ⟨y, b, h1, h2, h3, h4, h5⟩
        simp only [List.cons_append, List.cons.injEq] at h1
        exact ⟨b, h1.2, h3, h4, h5⟩

theorem matchRe_instance_pos (pos : Nat) (rest : List Char) (caps : Nat → Option (List Char))
    (h : pos ≠ 0) :
    matchRe instanceEndPointRegex { pos := pos, rest := rest, caps := caps } = [] := by
  simp [instanceEndPointRegex, matchRe, h]

theorem findFrom_instance_pos :
    ∀ (rest : List Char) (pos : Nat), pos ≠ 0 → findFrom instanceEndPointRegex pos rest = none
  | [], pos, h => by
    simp [findFrom, matchAt, matchRe_instance_pos _ _ _ h]
  | x :: xs, pos, h => by
    simp only [findFrom, matchAt, matchRe_instance_pos _ _ _ h, List.head?_nil, Option.map_none']
    exact findFrom_instance_pos xs (pos + 1) (by omega)

theorem findFrom_instance_isSome (s : List Char) :
    (findFrom instanceEndPointRegex 0 s).isSome = true ↔
      ∃ st, st ∈ matchRe instanceEndPointRegex { pos := 0, rest := s, caps := fun _ => none } := by
  cases hL : matchRe instanceEndPointRegex { pos := 0, rest := s, caps := fun _ => none } with
  | nil =>
    simp only [List.not_mem_nil, exists_false, iff_false]
    cases s with
    | nil => simp [findFrom, matchAt, hL]
    | cons x xs => simp [findFrom, matchAt, hL, findFrom_instance_pos xs 1 (by omega)]
  | cons st L =>
    cases s with
    | nil => simp [findFrom, matchAt, hL]
    | cons x xs => simp [findFrom, matchAt, hL]

/-- The texts matched by `^.*{.+}[\/]?$`. -/
theorem mem_matchRe_instance (s : List Char) :
    (∃ st, st ∈ matchRe instanceEndPointRegex { pos := 0, rest := s, caps := fun _ => none }) ↔
      ∃ a name t, s = a ++ '{' :: name ++ '}' :: t ∧ name ≠ [] ∧ (t = [] ∨ t = ['/']) ∧
        '\n' ∉ a ∧ '\n' ∉ name := by
  simp only [instanceEndPointRegex, mem_matchRe_seq]
  constructor
  · rintro ⟨st, s1, h1, s2, h2, s3, h3, s4, h4, s5, h5, s6, h6, h7⟩
    have e1 : s1 = { pos := 0, rest := s, caps := fun _ => none } := by
      simpa [matchRe] using h1
    subst e1
    rw [matchRe_star_any, mem_dotStar] at h2
    obtain ⟨a, ha, hna, -, -⟩ := h2
    obtain ⟨h3r, -, -⟩ := mem_matchRe_chr.mp h3
    obtain ⟨x, b, h4r, hx, hnb, -, -⟩ := mem_matchRe_plus_any.mp h4
    obtain ⟨h5r, -, -⟩ := mem_matchRe_chr.mp h5
    obtain ⟨e7, h7r⟩ := mem_matchRe_eot.mp h7
    refine ⟨a, x :: b, s5.rest, ?_, by simp, ?_, hna, ?_⟩
    · simp only at ha
      rw [ha, h3r, h4r, h5r]
      simp
    · simp only [matchRe, List.mem_append, List.mem_singleton] at h6
      rcases h6 with h6 | h6
      · have h6' : s6 ∈ matchRe (.chr '/') s5 := by simpa [matchRe] using h6
        obtain ⟨h6r, -, -⟩ := mem_matchRe_chr.mp h6'
        right
        rw [h6r, h7r]
      · left
        rw [← h6, h7r]
    · simp only [List.mem_cons, not_or]
      exact ⟨fun hc => hx hc.symm, hnb⟩
  · rintro ⟨a, name, t, hs, hne, ht, hna, hnn⟩
    obtain ⟨x, b, rfl⟩ := List.exists_cons_of_ne_nil hne
    simp only [List.mem_cons, not_or] at hnn
    let c0 : Nat → Option (List Char) := fun _ => none
    refine ⟨{ pos := a.length + 1 + 1 + b.length + 1 + t.length, rest := [], caps := c0 },
      { pos := 0, rest := s, caps := c0 }, by simp [matchRe, c0],
      { pos := a.length, rest := '{' :: (x :: b) ++ '}' :: t, caps := c0 }, ?_,
      { pos := a.length + 1, rest := (x :: b) ++ '}' :: t, caps := c0 }, ?_,
      { pos := a.length + 1 + 1 + b.length, rest := '}' :: t, caps := c0 }, ?_,
      { pos := a.length + 1 + 1 + b.length + 1, rest := t, caps := c0 }, ?_,
      { pos := a.length + 1 + 1 + b.length + 1 + t.length, rest := [], caps := c0 }, ?_, ?_⟩
    · rw [matchRe_star_any, mem_dotStar]
      exact ⟨a, by simpa using hs, hna, by simp, rfl⟩
    · exact mem_matchRe_chr.mpr ⟨by simp, rfl, rfl⟩
    · exact mem_matchRe_plus_any.mpr
        ⟨x, b, by simp, fun hc => hnn.1 hc.symm, hnn.2, rfl, rfl⟩
    · exact mem_matchRe_chr.mpr ⟨rfl, rfl, rfl⟩
    · rcases ht with ht | ht
      · subst ht
        simp [matchRe]
      · subst ht
        simp [matchRe]
    · exact mem_matchRe_eot.mpr ⟨rfl, rfl⟩

theorem isResourceInstanceEndPoint_iff (p : String) :
    (isResourceInstanceEndPoint p).1 = true ↔
      ∃ a name t, p.data = a ++ '{' :: name ++ '}' :: t ∧ name ≠ [] ∧ (t = [] ∨ t = ['/']) ∧
        '\n' ∉ a ∧ '\n' ∉ name := by
  unfold isResourceInstanceEndPoint MatchString
  rw [findFrom_instance_isSome, mem_matchRe_instance]

theorem dotStar_append (caps : Nat → Option (List Char)) (s : List Char) :
    ∀ (a : List Char) (pos : Nat), '\n' ∉ a →
      ∃ L, dotStar pos caps (a ++ s) = dotStar (pos + a.length) caps s ++ L
  | [], pos, _ => ⟨[], by simp⟩
  | x :: xs, pos, h => by
    simp only [List.mem_cons, not_or] at h
    obtain ⟨L, hL⟩ := dotStar_append caps s xs (pos + 1) h.2
    have hx : ¬ x = '\n' := fun hc => h.1 hc.symm
    refine ⟨L ++ [{ pos := pos, rest := x :: (xs ++ s), caps := caps }], ?_⟩
    have hpos : pos + (xs.length + 1) = pos + 1 + xs.length := by omega
    simp only [List.cons_append, dotStar, hx, if_false, List.append_eq, hL, List.length_cons,
      List.append_assoc, hpos]

theorem mem_matchRe_tail {st st' : MState}
    (h : st' ∈ matchRe (.seq (.chr '{') (.seq (.star .any) (.chr '}'))) st) :
    st'.caps = st.caps ∧ ∃ t, st.rest = '{' :: t := by
  obtain ⟨s1, h1, s2, h2, h3⟩ :
      ∃ s1 ∈ matchRe (.chr '{') st, ∃ s2 ∈ matchRe (.star .any) s1,
        st' ∈ matchRe (.chr '}') s2 := by
    simpa only [mem_matchRe_seq] using h
  obtain ⟨h1r, -, h1c⟩ := mem_matchRe_chr.mp h1
  rw [matchRe_star_any, mem_dotStar] at h2
  obtain ⟨-, -, -, -, h2c⟩ := h2
  obtain ⟨-, -, h3c⟩ := mem_matchRe_chr.mp h3
  exact ⟨by rw [h3c, h2c, h1c], _, h1r⟩

theorem matchRe_tail_ne_nil {st : MState} {a b : List Char}
    (h : st.rest = '{' :: (a ++ '}' :: b)) (ha : '\n' ∉ a) :
    matchRe (.seq (.chr '{') (.seq (.star .any) (.chr '}'))) st ≠ [] := by
  have hmem : ({ pos := st.pos + 1 + a.length + 1, rest := b, caps := st.caps } : MState) ∈
      matchRe (.seq (.chr '{') (.seq (.star .any) (.chr '}'))) st := by
    simp only [mem_matchRe_seq]
    refine ⟨{ pos := st.pos + 1, rest := a ++ '}' :: b, caps := st.caps },
      mem_matchRe_chr.mpr ⟨h, rfl, rfl⟩,
      { pos := st.pos + 1 + a.length, rest := '}' :: b, caps := st.caps }, ?_,
      mem_matchRe_chr.mpr ⟨rfl, rfl, rfl⟩⟩
    rw [matchRe_star_any, mem_dotStar]
    exact ⟨a, rfl, ha, rfl, rfl⟩
  intro hnil
  rw [hnil] at hmem
  simp at hmem

/-- The first match of `((?:.*)){.*}` at the start of a text whose last `{` is
followed by a `}`: the group captures the text before that `{`. -/
theorem matchRe_root_head (R rest : List Char) (hR : '\n' ∉ R) (hlast : '{' ∉ rest)
    (hclose : ∃ a b, rest = a ++ '}' :: b ∧ '\n' ∉ a) :
    ∃ st, (matchRe resourceInstanceRegex
        { pos := 0, rest := R ++ '{' :: rest, caps := fun _ => none }).head? = some st ∧
      st.caps 1 = some R := by
  obtain ⟨a, b, hab, hna⟩ := hclose
  let c0 : Nat → Option (List Char) := fun _ => none
  let f : MState → MState := fun st' =>
    { st' with caps := fun j =>
        if j = 1 then some ((R ++ '{' :: rest).take (st'.pos - 0)) else st'.caps j }
  let tail : Regex := .seq (.chr '{') (.seq (.star .any) (.chr '}'))
  have hunfold : matchRe resourceInstanceRegex { pos := 0, rest := R ++ '{' :: rest, caps := c0 }
      = ((matchRe (.star .any) { pos := 0, rest := R ++ '{' :: rest, caps := c0 }).map f).flatMap
          (fun st' => matchRe tail st') := rfl
  obtain ⟨L, hL⟩ := dotStar_append c0 ('{' :: rest) R 0 hR
  have hbrace : dotStar (0 + R.length) c0 ('{' :: rest) =
      dotStar (0 + R.length + 1) c0 rest
        ++ [{ pos := 0 + R.length, rest := '{' :: rest, caps := c0 }] := by
    simp [dotStar]
  have hfirst : ((dotStar (0 + R.length + 1) c0 rest).map f).flatMap
      (fun st' => matchRe tail st') = [] := by
    rw [List.flatMap_eq_nil_iff]
    intro m hm
    obtain ⟨m0, hm0, rfl⟩ := List.mem_map.mp hm
    obtain ⟨pre, hpre, -, -, -⟩ := mem_dotStar.mp hm0
    by_contra hne
    obtain ⟨st', hst'⟩ := List.exists_mem_of_ne_nil _ hne
    obtain ⟨-, t, ht⟩ := mem_matchRe_tail hst'
    apply hlast
    rw [hpre]
    have : m0.rest = '{' :: t := ht
    simp [this]
  have hsecond : matchRe tail (f { pos := 0 + R.length, rest := '{' :: rest, caps := c0 }) ≠ [] :=
    matchRe_tail_ne_nil (a := a) (b := b) (by simp [f, hab]) hna
  obtain ⟨st, hst⟩ := List.exists_mem_of_ne_nil _ hsecond
  obtain ⟨st1, L1, hcons⟩ := List.exists_cons_of_ne_nil hsecond
  have hcaps : st1.caps = (f { pos := 0 + R.length, rest := '{' :: rest, caps := c0 }).caps :=
    (@mem_matchRe_tail _ st1 (by rw [hcons]; simp)).1
  refine ⟨st1, ?_, ?_⟩
  · show (matchRe resourceInstanceRegex { pos := 0, rest := R ++ '{' :: rest, caps := c0 }).head?
      = some st1
    rw [hunfold, matchRe_star_any]
    simp only
    rw [hL, hbrace]
    simp only [List.map_append, List.flatMap_append, hfirst, List.nil_append, List.map_cons,
      List.map_nil, List.flatMap_cons, List.flatMap_nil, List.append_nil, hcons]
    simp
  · rw [hcaps]
    simp [f]

theorem findFrom_of_matchAt {re : Regex} {pos : Nat} {s : List Char}
    {m : List Char × (Nat → Option (List Char))} (h : matchAt re pos s = some m) :
    findFrom re pos s = some m := by
  cases s with
  | nil => simpa [findFrom] using h
  | cons x xs => simp [findFrom, h]

/-- The result of `FindStringSubmatch` with the root pattern on a text whose
last `{` is followed by a `}`: the match and the text before that `{`. -/
theorem FindStringSubmatch_root (p : String) (R rest : List Char)
    (hp : p.data = R ++ '{' :: rest) (hR : '\n' ∉ R) (hlast : '{' ∉ rest)
    (hclose : ∃ a b, rest = a ++ '}' :: b ∧ '\n' ∉ a) :
    ∃ w, FindStringSubmatch resourceInstanceRegex p = [w, String.mk R] := by
  obtain ⟨st, hst, hcap⟩ := matchRe_root_head R rest hR hlast hclose
  have hm : matchAt resourceInstanceRegex 0 p.data
      = some (p.data.take (st.pos - 0), st.caps) := by
    unfold matchAt
    rw [hp, hst]
    rfl
  refine ⟨String.mk (p.data.take (st.pos - 0)), ?_⟩
  unfold FindStringSubmatch
  rw [findFrom_of_matchAt hm]
  have hrange : List.range 1 = [0] := rfl
  simp [resourceInstanceRegex, Regex.numSubexp, hrange, hcap]

/-! ## Lemmas on the path classifier -/

theorem exists_last_split {c : Char} :
    ∀ {l : List Char}, c ∈ l → ∃ R rest, l = R ++ c :: rest ∧ c ∉ rest
  | [], h => by simp at h
  | x :: xs, h => by
    by_cases hxs : c ∈ xs
    · obtain ⟨R, rest, h1, h2⟩ := exists_last_split hxs
      exact ⟨x :: R, rest, by simp [h1], h2⟩
    · have hx : c = x := by
        rcases List.mem_cons.mp h with h | h
        · exact h
        · exact absurd h hxs
      subst hx
      exact ⟨[], xs, rfl, hxs⟩

theorem last_split_unique {c : Char} {r r' : List Char} (hr : c ∉ r) (hr' : c ∉ r') :
    ∀ {a a' : List Char}, a ++ c :: r = a' ++ c :: r' → a = a' ∧ r = r'
  | [], [], h => by simpa using h
  | [], y :: ys, h => by
    simp only [List.nil_append, List.cons_append, List.cons.injEq] at h
    exact absurd (by rw [h.2]; simp) hr
  | x :: xs, [], h => by
    simp only [List.nil_append, List.cons_append, List.cons.injEq] at h
    exact absurd (by rw [← h.2]; simp) hr'
  | x :: xs, y :: ys, h => by
    simp only [List.cons_append, List.cons.injEq] at h
    obtain ⟨h1, h2⟩ := last_split_unique hr hr' h.2
    exact ⟨by rw [h.1, h1], h2⟩

/-- In a path with the instance shape, the text after the last `{` holds a `}`
and the path has no newline. -/
theorem instance_last_split {p : String} {R rest : List Char}
    (hinst : (isResourceInstanceEndPoint p).1 = true)
    (hsplit : p.data = R ++ '{' :: rest) :
    '\n' ∉ R ∧ ∃ a b, rest = a ++ '}' :: b ∧ '\n' ∉ a := by
  obtain ⟨a, name, t, hp, -, ht, hna, hnn⟩ := (isResourceInstanceEndPoint_iff p).mp hinst
  have hnl : '\n' ∉ p.data := by
    rw [hp]
    rcases ht with ht | ht <;> subst ht <;> simp [hna, hnn]
  have hnR : '\n' ∉ R := fun h => hnl (by rw [hsplit]; simp [h])
  have hnrest : '\n' ∉ rest := fun h => hnl (by rw [hsplit]; simp [h])
  have ht' : '{' ∉ t := by rcases ht with ht | ht <;> subst ht <;> simp
  refine ⟨hnR, ?_⟩
  have heq : R ++ '{' :: rest = (a ++ '{' :: name) ++ '}' :: t := by
    rw [← hsplit, hp]
  rcases List.append_eq_append_iff.mp heq with ⟨a', h1, h2⟩ | ⟨c', h1, h2⟩
  · cases a' with
    | nil => simp at h2
    | cons y ys =>
      simp only [List.cons_append, List.cons.injEq] at h2
      exact ⟨ys, t, h2.2, fun h => hnrest (by rw [h2.2]; simp [h])⟩
  · exfalso
    cases c' with
    | nil => simp at h2
    | cons y ys =>
      simp only [List.cons_append, List.cons.injEq] at h2
      exact ht' (by rw [h2.2]; simp)

/-- The result of `findMatchingResourceRootPath` on a path with the instance
shape, `R` being the text before its last `{`. -/
theorem findMatchingResourceRootPath_eq (doc : Swagger) {p : String} {R rest : List Char}
    (hinst : (isResourceInstanceEndPoint p).1 = true)
    (hsplit : p.data = R ++ '{' :: rest) (hlast : '{' ∉ rest) :
    findMatchingResourceRootPath doc p =
      if (doc.Paths.lookup (String.mk R)).isSome then .ok (String.mk R)
      else if (doc.Paths.lookup (TrimRightSlash (String.mk R))).isSome then
        .ok (TrimRightSlash (String.mk R))
      else .error (.missingRootPath p) := by
  obtain ⟨hnR, hclose⟩ := instance_last_split hinst hsplit
  obtain ⟨w, hw⟩ := FindStringSubmatch_root p R rest hsplit hnR hlast hclose
  unfold findMatchingResourceRootPath
  simp only [hw]
  simp

theorem trimRightSlash_isPrefix (s : String) : (TrimRightSlash s).data <+: s.data := by
  unfold TrimRightSlash
  exact List.rdropWhile_prefix _ _

/-! ## The path classifier -/

/-- C5, as the code has it: `isResourceInstanceEndPoint` never fails, and it
returns true exactly when the path is `a{name}` or `a{name}/` where `name` is
not empty and neither `a` nor `name` holds a newline; `name` may hold `/` and
braces. -/
theorem isResourceInstanceEndPoint_shape (p : String) :
    (isResourceInstanceEndPoint p).2 = none ∧
    ((isResourceInstanceEndPoint p).1 = true ↔
      ∃ a name t, p.data = a ++ '{' :: name ++ '}' :: t ∧ name ≠ [] ∧ (t = [] ∨ t = ['/']) ∧
        '\n' ∉ a ∧ '\n' ∉ name) :=
  ⟨rfl, isResourceInstanceEndPoint_iff p⟩

/-- C5 fails as stated: `/files/{dir/name}` is classified as an instance path,
yet it does not end with a bracketed `{name}` (optionally followed by `/`)
whose name has no `/` and no brace. -/
theorem isResourceInstanceEndPoint_slash_in_name :
    (isResourceInstanceEndPoint "/files/{dir/name}").1 = true ∧
    ¬ ∃ a name t, "/files/{dir/name}".data = a ++ '{' :: name ++ '}' :: t ∧ name ≠ [] ∧
        '/' ∉ name ∧ '{' ∉ name ∧ '}' ∉ name ∧ (t = [] ∨ t = ['/']) := by
  refine ⟨by decide, ?_⟩
  rintro ⟨a, name, t, h, -, hslash, hopen, -, ht⟩
  have hconc : "/files/{dir/name}".data = "/files/".data ++ '{' :: "dir/name\x7d".data := by decide
  have hr : '{' ∉ "dir/name\x7d".data := by decide
  have hr' : '{' ∉ name ++ '}' :: t := by
    rcases ht with ht | ht <;> subst ht <;> simp [hopen]
  have h' : "/files/".data ++ '{' :: "dir/name\x7d".data = a ++ '{' :: (name ++ '}' :: t) := by
    rw [← hconc, h]
    simp
  obtain ⟨-, h2⟩ := last_split_unique hr hr' h'
  rcases ht with ht | ht
  · subst ht
    have hmem : '/' ∈ name ++ ['}'] := by
      rw [← h2]
      decide
    simp at hmem
    exact hslash hmem
  · subst ht
    have hlast := congrArg List.getLast? h2
    simp at hlast

/-- C6: for an instance path whose text before its last bracketed parameter is
`R`, `findMatchingResourceRootPath` returns `R` when `R` is a declared path,
otherwise `R` without its trailing separators when that is a declared path,
otherwise it fails with the missing-root-path error; a root path it returns is
a key of the path map. `TrimRightSlash R` is a prefix of `R` that does not end
with `/`, and it is `R₀` when `R` is `R₀/` and `R₀` does not end with `/`. -/
theorem findMatchingResourceRootPath_spec (doc : Swagger) (p : String) (R rest : List Char)
    (hinst : (isResourceInstanceEndPoint p).1 = true)
    (hsplit : p.data = R ++ '{' :: rest) (hlast : '{' ∉ rest) :
    ((doc.Paths.lookup (String.mk R)).isSome = true →
      findMatchingResourceRootPath doc p = .ok (String.mk R)) ∧
    ((doc.Paths.lookup (String.mk R)).isSome = false →
      (doc.Paths.lookup (TrimRightSlash (String.mk R))).isSome = true →
      findMatchingResourceRootPath doc p = .ok (TrimRightSlash (String.mk R))) ∧
    ((doc.Paths.lookup (String.mk R)).isSome = false →
      (doc.Paths.lookup (TrimRightSlash (String.mk R))).isSome = false →
      findMatchingResourceRootPath doc p = .error (.missingRootPath p)) ∧
    (∀ root, findMatchingResourceRootPath doc p = .ok root →
      (doc.Paths.lookup root).isSome = true) ∧
    ((TrimRightSlash (String.mk R)).data <+: R ∧
      (TrimRightSlash (String.mk R)).data.getLast? ≠ some '/' ∧
      ∀ R₀ : List Char, R = R₀ ++ ['/'] → R₀.getLast? ≠ some '/' →
        TrimRightSlash (String.mk R) = String.mk R₀) := by
  have heq := findMatchingResourceRootPath_eq doc hinst hsplit hlast
  refine ⟨?_, ?_, ?_, ?_, ?_, ?_, ?_⟩
  · intro h1
    rw [heq, if_pos h1]
  · intro h1 h2
    rw [heq, if_neg (by simp [h1]), if_pos h2]
  · intro h1 h2
    rw [heq, if_neg (by simp [h1]), if_neg (by simp [h2])]
  · intro root hroot
    exact findMatchingResourceRootPath_ok_mem hroot
  · exact trimRightSlash_isPrefix (String.mk R)
  · unfold TrimRightSlash
    simp only
    intro hl
    have hne : List.rdropWhile (fun c => c == '/') R ≠ [] := by
      intro hnil
      rw [hnil] at hl
      simp at hl
    have hlast' := List.rdropWhile_last_not (fun c => c == '/') R hne
    rw [List.getLast?_eq_getLast _ hne] at hl
    simp only [Option.some.injEq] at hl
    rw [hl] at hlast'
    simp at hlast'
  · intro R₀ hR hR₀
    unfold TrimRightSlash
    simp only [hR]
    rw [List.rdropWhile_concat_pos _ _ _ (by simp)]
    have hself : List.rdropWhile (fun c => c == '/') R₀ = R₀ := by
      rw [List.rdropWhile_eq_self_iff]
      intro hne
      rw [List.getLast?_eq_getLast _ hne] at hR₀
      simpa using hR₀
    rw [hself]

/-- Witness of C6: the root path of `/v1/cdns/{id}` in the end-to-end document
is `/v1/cdns`, the prefix `/v1/cdns/` being not declared. -/
theorem findMatchingResourceRootPath_spec_witness :
    (isResourceInstanceEndPoint "/v1/cdns/{id}").1 = true ∧
      "/v1/cdns/{id}".data = "/v1/cdns/".data ++ '{' :: "id\x7d".data ∧
      '{' ∉ "id\x7d".data ∧
      findMatchingResourceRootPath cdnDoc "/v1/cdns/{id}" = .ok "/v1/cdns" :=
  ⟨by decide, by decide, by decide,
    (findMatchingResourceRootPath_spec cdnDoc "/v1/cdns/{id}" "/v1/cdns/".data "id\x7d".data
      (by decide) (by decide) (by decide)).2.1 (by decide) (by decide)⟩

/-- C7, as the code has it: for a path `P` with the instance shape, a root
path derived by `findMatchingResourceRootPath` is a strict prefix of `P`, so it
is never `P` again; it can have the instance shape itself. -/
theorem findMatchingResourceRootPath_shorter (doc : Swagger) (P root : String)
    (hinst : (isResourceInstanceEndPoint P).1 = true)
    (hroot : findMatchingResourceRootPath doc P = .ok root) :
    root.data <+: P.data ∧ root.data.length < P.data.length ∧ root ≠ P := by
  obtain ⟨a, name, t, hp, -, -, -, -⟩ := (isResourceInstanceEndPoint_iff P).mp hinst
  have hmem : '{' ∈ P.data := by rw [hp]; simp
  obtain ⟨R, rest, hsplit, hlast⟩ := exists_last_split hmem
  have heq := findMatchingResourceRootPath_eq doc hinst hsplit hlast
  have hpre : root.data <+: R := by
    rw [heq] at hroot
    split at hroot
    · cases hroot
      exact List.prefix_refl _
    · split at hroot
      · cases hroot
        exact trimRightSlash_isPrefix (String.mk R)
      · cases hroot
  have hlen : root.data.length < P.data.length := by
    have := hpre.length_le
    rw [hsplit, List.length_append, List.length_cons]
    omega
  refine ⟨?_, hlen, ?_⟩
  · rw [hsplit]
    exact hpre.trans (List.prefix_append _ _)
  · intro h
    rw [h] at hlen
    exact lt_irrefl _ hlen

/-- Witness of C7 (amended) on the end-to-end document. -/
theorem findMatchingResourceRootPath_shorter_witness :
    (isResourceInstanceEndPoint "/v1/cdns/{id}").1 = true ∧
      findMatchingResourceRootPath cdnDoc "/v1/cdns/{id}" = .ok "/v1/cdns" ∧
      ("/v1/cdns" : String) ≠ "/v1/cdns/{id}" :=
  ⟨by decide, rfl,
    (findMatchingResourceRootPath_shorter cdnDoc "/v1/cdns/{id}" "/v1/cdns"
      (by decide) rfl).2.2⟩

/-- C7 fails as stated: in `reposDoc` the instance path `/repos/{owner}/{repo}`
has the root path `/repos/{owner}`, which has the instance shape itself. -/
theorem findMatchingResourceRootPath_root_is_instance :
    (isResourceInstanceEndPoint "/repos/{owner}/{repo}").1 = true ∧
    findMatchingResourceRootPath reposDoc "/repos/{owner}/{repo}" = .ok "/repos/{owner}" ∧
    (isResourceInstanceEndPoint "/repos/{owner}").1 = true :=
  ⟨by decide, rfl, by decide⟩

/-! ## Lemmas on the multi-region detection -/

theorem copyRegions_eq (regions apiRegions : List String) :
    copyRegions regions apiRegions = apiRegions ++ regions := by
  induction regions generalizing apiRegions with
  | nil => simp [copyRegions]
  | cons r rest ih => simp [copyRegions, ih]

theorem splitOnComma_ne_nil (l : List Char) : splitOnComma l ≠ [] := by
  cases l with
  | nil => simp [splitOnComma]
  | cons c cs =>
    unfold splitOnComma
    split
    · simp
    · split <;> simp

theorem splitOnComma_no_comma (l : List Char) : ∀ x ∈ splitOnComma l, ',' ∉ x := by
  induction l with
  | nil => simp [splitOnComma]
  | cons c cs ih =>
    unfold splitOnComma
    by_cases hc : c = ','
    · simp only [hc, if_true]
      intro x hx
      rcases List.mem_cons.mp hx with h | h
      · simp [h]
      · exact ih x h
    · simp only [hc, if_false]
      cases hs : splitOnComma cs with
      | nil => exact absurd hs (splitOnComma_ne_nil cs)
      | cons y ys =>
        rw [hs] at ih
        simp only
        intro x hx
        rcases List.mem_cons.mp hx with h | h
        · subst h
          simp only [List.mem_cons, not_or]
          exact ⟨fun h' => hc h'.symm, ih y (by simp)⟩
        · exact ih x (by simp [h])

theorem splitOnComma_intercalate (l : List Char) :
    [','].intercalate (splitOnComma l) = l := by
  induction l with
  | nil => simp [splitOnComma, List.intercalate]
  | cons c cs ih =>
    unfold splitOnComma
    cases hs : splitOnComma cs with
    | nil => exact absurd hs (splitOnComma_ne_nil cs)
    | cons y ys =>
      rw [hs] at ih
      by_cases hc : c = ','
      · simp only [hc, if_true]
        simp only [List.intercalate, List.intersperse, List.flatten_cons, List.nil_append,
          List.singleton_append] at ih ⊢
        rw [ih]
      · simp only [hc, if_false]
        cases ys with
        | nil =>
          simp only [List.intercalate, List.intersperse, List.flatten_cons, List.flatten_nil,
            List.append_nil] at ih ⊢
          rw [ih]
        | cons z zs =>
          simp only [List.intercalate, List.intersperse, List.flatten_cons, List.cons_append] at ih ⊢
          rw [ih]

theorem stringsSplitComma_length_pos (s : String) : ¬ (stringsSplitComma s).length < 1 := by
  unfold stringsSplitComma
  have := List.length_pos.mpr (splitOnComma_ne_nil s.data)
  simp only [List.length_map]
  omega

/-- The result of `isMultiRegionResource` when the override host matches the
pattern with the keyword `k`. -/
theorem isMultiRegionResource_of_match (deps : Collaborators) (resourceRoot : PathItem)
    (extensions : Extensions) (host : String) (re : Regex) (m0 m1 m2 k m4 : String)
    (hhost : deps.getResourceOverrideHost resourceRoot.Post = host) (hne : host ≠ "")
    (hmulti : deps.IsMultiRegionHost host = (true, re))
    (hmatch : FindStringSubmatch re host = [m0, m1, m2, k, m4]) :
    isMultiRegionResource deps resourceRoot extensions =
      if (deps.StringExtensionExists extensions (getResourceRegionExtensionName k)).2 then
        .ok (true, stringsSplitComma (removeSpaces
          (deps.StringExtensionExists extensions (getResourceRegionExtensionName k)).1))
      else .error (.missingRegionExtension k (getResourceRegionExtensionName k)) := by
  unfold isMultiRegionResource
  simp only [hhost, hne, if_false, hmulti, hmatch, Bool.not_true, Bool.false_eq_true,
    List.length_cons, List.length_nil, copyRegions_eq, List.nil_append]
  have hk : [m0, m1, m2, k, m4].getD 3 "" = k := rfl
  rw [hk]
  have hnil : ∀ v : String, stringsSplitComma v ≠ [] := fun v => by
    unfold stringsSplitComma
    simpa using splitOnComma_ne_nil v.data
  cases hex : (deps.StringExtensionExists extensions (getResourceRegionExtensionName k)).2 with
  | false => simp
  | true =>
    simp only [if_true]
    rw [if_neg (stringsSplitComma_length_pos _)]
    simp [hnil]

theorem splitOnComma_subset (l : List Char) : ∀ x ∈ splitOnComma l, ∀ c ∈ x, c ∈ l := by
  induction l with
  | nil => simp [splitOnComma]
  | cons d ds ih =>
    unfold splitOnComma
    by_cases hd : d = ','
    · simp only [hd, if_true]
      intro x hx c hc
      rcases List.mem_cons.mp hx with h | h
      · subst h
        simp at hc
      · exact List.mem_cons_of_mem _ (ih x h c hc)
    · simp only [hd, if_false]
      cases hs : splitOnComma ds with
      | nil => exact absurd hs (splitOnComma_ne_nil ds)
      | cons y ys =>
        rw [hs] at ih
        simp only
        intro x hx c hc
        rcases List.mem_cons.mp hx with h | h
        · subst h
          rcases List.mem_cons.mp hc with h' | h'
          · simp [h']
          · exact List.mem_cons_of_mem _ (ih y (by simp) c h')
        · exact List.mem_cons_of_mem _ (ih x (by simp [h]) c hc)

/-! ## The multi-region detection -/

/-- C14: when the POST override host of the root path item matches the
parametrized-host pattern with the keyword `k` and there is no string extension
named `x-terraform-resource-regions-` followed by `k`, `isMultiRegionResource`
returns the missing-extension error; the name that is looked up is
`getResourceRegionExtensionName k`, that template applied to `k`. -/
theorem isMultiRegionResource_missing_extension (deps : Collaborators) (resourceRoot : PathItem)
    (extensions : Extensions) (host : String) (re : Regex) (m0 m1 m2 k m4 : String)
    (hhost : deps.getResourceOverrideHost resourceRoot.Post = host) (hne : host ≠ "")
    (hmulti : deps.IsMultiRegionHost host = (true, re))
    (hmatch : FindStringSubmatch re host = [m0, m1, m2, k, m4])
    (hext : (deps.StringExtensionExists extensions ("x-terraform-resource-regions-" ++ k)).2
      = false) :
    isMultiRegionResource deps resourceRoot extensions
        = .error (.missingRegionExtension k ("x-terraform-resource-regions-" ++ k)) ∧
      getResourceRegionExtensionName k = "x-terraform-resource-regions-" ++ k := by
  refine ⟨?_, rfl⟩
  rw [isMultiRegionResource_of_match deps resourceRoot extensions host re m0 m1 m2 k m4
    hhost hne hmulti hmatch]
  simp only [getResourceRegionExtensionName, hext, Bool.false_eq_true, if_false]

/-- Witness of C14: the host `accounts.${region}.api.com` has the keyword
`region`, and the document has no root level extension. -/
theorem isMultiRegionResource_missing_extension_witness :
    FindStringSubmatch multiRegionHostRegex "accounts.${region}.api.com"
        = ["accounts.${region}.api.com", "accounts.", "${region}", "region", ".api.com"] ∧
      isMultiRegionResource flatCollaborators regionRootItem []
        = .error (.missingRegionExtension "region" "x-terraform-resource-regions-region") :=
  ⟨by decide,
    (isMultiRegionResource_missing_extension flatCollaborators regionRootItem []
      "accounts.${region}.api.com" multiRegionHostRegex "accounts.${region}.api.com"
      "accounts." "${region}" "region" ".api.com" rfl (by decide) rfl (by decide) rfl).1⟩

/-- C15, the code at the failing input: with the host
`accounts.${region}.api.com` and a region extension whose value is empty, or
made of spaces only, `isMultiRegionResource` reports a multi-region resource
with one region, the empty name, and no error. -/
theorem isMultiRegionResource_empty_extension :
    isMultiRegionResource flatCollaborators regionRootItem [(regionExtensionName, .str "")]
        = .ok (true, [""]) ∧
      isMultiRegionResource flatCollaborators regionRootItem [(regionExtensionName, .str "   ")]
        = .ok (true, [""]) :=
  ⟨rfl, rfl⟩

/-- C16: when the POST operation of the root path item declares no override
host, or its override host does not match the parametrized-host pattern,
`isMultiRegionResource` returns false, no region and no error, whatever the
root level extensions are. -/
theorem isMultiRegionResource_not_multi_region (deps : Collaborators) (resourceRoot : PathItem)
    (extensions : Extensions)
    (h : deps.getResourceOverrideHost resourceRoot.Post = "" ∨
      (deps.IsMultiRegionHost (deps.getResourceOverrideHost resourceRoot.Post)).1 = false) :
    isMultiRegionResource deps resourceRoot extensions = .ok (false, []) := by
  unfold isMultiRegionResource
  rcases h with h | h
  · simp [h]
  · by_cases h0 : deps.getResourceOverrideHost resourceRoot.Post = ""
    · simp [h0]
    · simp [h0, h]

/-- Witness of C16: the root path item of the end-to-end document declares no
override host, and a region extension is present. -/
theorem isMultiRegionResource_not_multi_region_witness :
    flatCollaborators.getResourceOverrideHost (cdnDoc.pathItem "/v1/cdns").Post = "" ∧
      isMultiRegionResource flatCollaborators (cdnDoc.pathItem "/v1/cdns")
        [(regionExtensionName, .str "us,eu")] = .ok (false, []) :=
  ⟨rfl, isMultiRegionResource_not_multi_region flatCollaborators (cdnDoc.pathItem "/v1/cdns")
    [(regionExtensionName, .str "us,eu")] (Or.inl rfl)⟩

/-- C17, as the code has it: when the host matches with the keyword `k` and
the extension `x-terraform-resource-regions-k` has the string value `v`,
`isMultiRegionResource` returns true, no error, and the pieces between the
commas of `v` without its space characters, in order: joined by commas they
give back `v` without its spaces, and no region holds a comma or a space. -/
theorem isMultiRegionResource_regions (deps : Collaborators) (resourceRoot : PathItem)
    (extensions : Extensions) (host : String) (re : Regex) (m0 m1 m2 k m4 v : String)
    (hhost : deps.getResourceOverrideHost resourceRoot.Post = host) (hne : host ≠ "")
    (hmulti : deps.IsMultiRegionHost host = (true, re))
    (hmatch : FindStringSubmatch re host = [m0, m1, m2, k, m4])
    (hext : deps.StringExtensionExists extensions ("x-terraform-resource-regions-" ++ k)
      = (v, true)) :
    isMultiRegionResource deps resourceRoot extensions
        = .ok (true, stringsSplitComma (removeSpaces v)) ∧
      [','].intercalate ((stringsSplitComma (removeSpaces v)).map String.data)
        = v.data.filter (fun c => c != ' ') ∧
      ∀ region ∈ stringsSplitComma (removeSpaces v), ',' ∉ region.data ∧ ' ' ∉ region.data := by
  refine ⟨?_, ?_, ?_⟩
  · rw [isMultiRegionResource_of_match deps resourceRoot extensions host re m0 m1 m2 k m4
      hhost hne hmulti hmatch]
    simp only [getResourceRegionExtensionName, hext, if_true]
  · have hmap : (stringsSplitComma (removeSpaces v)).map String.data
        = splitOnComma (v.data.filter (fun c => c != ' ')) := by
      simp [stringsSplitComma, removeSpaces, List.map_map, Function.comp_def]
    rw [hmap, splitOnComma_intercalate]
  · intro region hregion
    obtain ⟨x, hx, rfl⟩ := List.mem_map.mp hregion
    refine ⟨splitOnComma_no_comma _ x hx, fun hsp => ?_⟩
    have := splitOnComma_subset _ x hx ' ' hsp
    simp [removeSpaces] at this

/-- Witness of C17 (amended): the value `us, eu` gives the regions `us` and `eu`. -/
theorem isMultiRegionResource_regions_witness :
    isMultiRegionResource flatCollaborators regionRootItem [(regionExtensionName, .str "us, eu")]
        = .ok (true, ["us", "eu"]) ∧
      isMultiRegionResource flatCollaborators regionRootItem [(regionExtensionName, .str "us,eu")]
        = .ok (true, ["us", "eu"]) :=
  ⟨(isMultiRegionResource_regions flatCollaborators regionRootItem
      [(regionExtensionName, .str "us, eu")] "accounts.${region}.api.com" multiRegionHostRegex
      "accounts.${region}.api.com" "accounts." "${region}" "region" ".api.com" "us, eu"
      rfl (by decide) rfl (by decide) rfl).1,
    rfl⟩

/-- C17 fails as stated: for the value `us east,eu` the names with their
surrounding white space trimmed are `us east` and `eu`, but the code returns
`useast` and `eu`; and for `us,` followed by a tab and `eu` the code keeps the
tab in the second region. -/
theorem isMultiRegionResource_inner_space :
    isMultiRegionResource flatCollaborators regionRootItem
        [(regionExtensionName, .str "us east,eu")] = .ok (true, ["useast", "eu"]) ∧
      trimmedNames "us east,eu" = ["us east", "eu"] ∧
      isMultiRegionResource flatCollaborators regionRootItem
        [(regionExtensionName, .str "us,\teu")] = .ok (true, ["us", "\teu"]) ∧
      trimmedNames "us,\teu" = ["us", "eu"] :=
  ⟨rfl, by decide, rfl, by decide⟩

/-! ## Lemmas on the discovery pass -/

theorem complianceLoop_cons (deps : Collaborators) (doc : Swagger) (e : String × PathItem)
    (rest : List (String × PathItem)) (acc : List SpecV2Resource) :
    complianceLoop deps doc (e :: rest) acc
      = complianceLoop deps doc rest (acc ++ complianceLoop deps doc [e] []) := by
  obtain ⟨p, item⟩ := e
  simp only [complianceLoop]
  repeat' split
  all_goals simp

theorem complianceLoop_acc (deps : Collaborators) (doc : Swagger) :
    ∀ (l : List (String × PathItem)) (acc : List SpecV2Resource),
      complianceLoop deps doc l acc = acc ++ complianceLoop deps doc l []
  | [], acc => by simp [complianceLoop]
  | e :: rest, acc => by
    rw [complianceLoop_cons deps doc e rest acc, complianceLoop_cons deps doc e rest [],
      complianceLoop_acc deps doc rest (acc ++ _), complianceLoop_acc deps doc rest ([] ++ _)]
    simp

theorem complianceLoop_flatMap (deps : Collaborators) (doc : Swagger) :
    ∀ l : List (String × PathItem),
      complianceLoop deps doc l [] = l.flatMap (fun e => complianceLoop deps doc [e] [])
  | [] => by simp [complianceLoop]
  | e :: rest => by
    rw [complianceLoop_cons, complianceLoop_acc, complianceLoop_flatMap deps doc rest]
    simp

theorem complianceLoop_split (deps : Collaborators) (doc : Swagger)
    (pre post : List (String × PathItem)) (e : String × PathItem) :
    complianceLoop deps doc (pre ++ e :: post) []
      = complianceLoop deps doc pre [] ++ complianceLoop deps doc [e] []
        ++ complianceLoop deps doc post [] := by
  rw [complianceLoop_flatMap deps doc (pre ++ e :: post), complianceLoop_flatMap deps doc pre,
    complianceLoop_flatMap deps doc post]
  simp only [List.flatMap_append, List.flatMap_cons, List.append_assoc]

theorem complianceLoop_append (deps : Collaborators) (doc : Swagger)
    (pre post : List (String × PathItem)) :
    complianceLoop deps doc (pre ++ post) []
      = complianceLoop deps doc pre [] ++ complianceLoop deps doc post [] := by
  rw [complianceLoop_flatMap deps doc (pre ++ post), complianceLoop_flatMap deps doc pre,
    complianceLoop_flatMap deps doc post]
  simp only [List.flatMap_append]

theorem createMultiRegionResourcesLoop_ok (deps : Collaborators) (doc : Swagger)
    (root : String) (rootItem pathItem : PathItem) (schema : Schema) :
    ∀ (regions : List String) (acc : List SpecV2Resource),
      (∀ region ∈ regions, ∃ r, deps.newSpecV2ResourceWithRegion region root schema rootItem
        pathItem doc.Definitions doc.Paths = .ok r) →
      ∃ rs, createMultiRegionResourcesLoop deps doc root rootItem pathItem schema regions acc
          = .ok (acc ++ rs) ∧
        List.Forall₂ (fun region r => deps.newSpecV2ResourceWithRegion region root schema
          rootItem pathItem doc.Definitions doc.Paths = .ok r) regions rs
  | [], acc, _ => ⟨[], by simp [createMultiRegionResourcesLoop], List.Forall₂.nil⟩
  | region :: rest, acc, h => by
    obtain ⟨r, hr⟩ := h region (by simp)
    obtain ⟨rs, hrs, hall⟩ := createMultiRegionResourcesLoop_ok deps doc root rootItem pathItem
      schema rest (acc ++ [r]) (fun x hx => h x (by simp [hx]))
    refine ⟨r :: rs, ?_, List.Forall₂.cons hr hall⟩
    simp only [createMultiRegionResourcesLoop, hr, hrs]
    simp

theorem createMultiRegionResourcesLoop_error (deps : Collaborators) (doc : Swagger)
    (root : String) (rootItem pathItem : PathItem) (schema : Schema) :
    ∀ (regions : List String) (acc : List SpecV2Resource),
      (∃ region ∈ regions, ∃ e, deps.newSpecV2ResourceWithRegion region root schema rootItem
        pathItem doc.Definitions doc.Paths = .error e) →
      ∃ e, createMultiRegionResourcesLoop deps doc root rootItem pathItem schema regions acc
          = .error (.failedRegionResource e)
  | [], acc, h => by
    obtain ⟨region, hmem, -⟩ := h
    simp at hmem
  | region :: rest, acc, h => by
    cases hr : deps.newSpecV2ResourceWithRegion region root schema rootItem pathItem
        doc.Definitions doc.Paths with
    | error e => exact ⟨e, by simp [createMultiRegionResourcesLoop, hr]⟩
    | ok r =>
      obtain ⟨x, hx, e, he⟩ := h
      have hrest : ∃ y ∈ rest, ∃ e, deps.newSpecV2ResourceWithRegion y root schema rootItem
          pathItem doc.Definitions doc.Paths = .error e := by
        rcases List.mem_cons.mp hx with h1 | h1
        · subst h1
          rw [hr] at he
          cases he
        · exact ⟨x, h1, e, he⟩
      obtain ⟨e', he'⟩ := createMultiRegionResourcesLoop_error deps doc root rootItem pathItem
        schema rest (acc ++ [r]) hrest
      exact ⟨e', by simp [createMultiRegionResourcesLoop, hr, he']⟩

/-! ## The discovery pass -/

/-- C11: `GetTerraformCompliantResources` returns no error, in whatever order
the paths are visited; a path that fails the compliance check contributes no
resource, the pass giving the same list as without it; and a path that passes
the check, is not multi region, whose resource is constructed and passes the
sub-resource validation contributes exactly that one resource, between the
resources of the paths visited before and after it. -/
theorem GetTerraformCompliantResources_never_fails (deps : Collaborators) (doc : Swagger) :
    (∃ rs, GetTerraformCompliantResources deps doc = .ok rs) ∧
    (∀ order, ∃ rs, GetTerraformCompliantResourcesIn deps doc order = .ok rs) ∧
    (∀ pre post p item e, isEndPointFullyTerraformResourceCompliant doc p = .error e →
      GetTerraformCompliantResourcesIn deps doc (pre ++ (p, item) :: post)
        = GetTerraformCompliantResourcesIn deps doc (pre ++ post)) ∧
    (∀ pre post p item root rootItem schema regions r,
      isEndPointFullyTerraformResourceCompliant doc p = .ok (root, rootItem, schema) →
      isMultiRegionResource deps rootItem doc.Extensions = .ok (false, regions) →
      deps.newSpecV2Resource root schema rootItem item doc.Definitions doc.Paths = .ok r →
      validateSubResourceTerraformCompliance deps doc r = .ok () →
      ∃ rs₁ rs₂, GetTerraformCompliantResourcesIn deps doc pre = .ok rs₁ ∧
        GetTerraformCompliantResourcesIn deps doc post = .ok rs₂ ∧
        GetTerraformCompliantResourcesIn deps doc (pre ++ (p, item) :: post)
          = .ok (rs₁ ++ r :: rs₂)) := by
  refine ⟨⟨_, rfl⟩, fun order => ⟨_, rfl⟩, ?_, ?_⟩
  · intro pre post p item e he
    have hone : complianceLoop deps doc [(p, item)] [] = [] := by
      simp [complianceLoop, he]
    unfold GetTerraformCompliantResourcesIn
    rw [complianceLoop_split, complianceLoop_append, hone]
    simp
  · intro pre post p item root rootItem schema regions r hc hm hn hv
    have hone : complianceLoop deps doc [(p, item)] [] = [r] := by
      simp [complianceLoop, hc, hm, hn, hv]
    refine ⟨complianceLoop deps doc pre [], complianceLoop deps doc post [], rfl, rfl, ?_⟩
    unfold GetTerraformCompliantResourcesIn
    rw [complianceLoop_split, hone]
    simp

/-- C13, as the code has it: when a compliant resource has a multi-region host
pattern with the keyword `k` on its POST operation and the region extension of
`k` is missing, `isMultiRegionResource` fails, the resource is skipped, and
the pass goes on: it returns, without error, the same list as without that
path. -/
theorem GetTerraformCompliantResources_skips_missing_regions (deps : Collaborators)
    (doc : Swagger) (pre post : List (String × PathItem)) (p : String) (item : PathItem)
    (root : String) (rootItem : PathItem) (schema : Schema)
    (host : String) (re : Regex) (m0 m1 m2 k m4 : String)
    (hc : isEndPointFullyTerraformResourceCompliant doc p = .ok (root, rootItem, schema))
    (hhost : deps.getResourceOverrideHost rootItem.Post = host) (hne : host ≠ "")
    (hmulti : deps.IsMultiRegionHost host = (true, re))
    (hmatch : FindStringSubmatch re host = [m0, m1, m2, k, m4])
    (hext : (deps.StringExtensionExists doc.Extensions ("x-terraform-resource-regions-" ++ k)).2
      = false) :
    isMultiRegionResource deps rootItem doc.Extensions
        = .error (.missingRegionExtension k ("x-terraform-resource-regions-" ++ k)) ∧
      GetTerraformCompliantResourcesIn deps doc (pre ++ (p, item) :: post)
        = GetTerraformCompliantResourcesIn deps doc (pre ++ post) ∧
      ∃ rs, GetTerraformCompliantResourcesIn deps doc (pre ++ (p, item) :: post) = .ok rs := by
  have hm : isMultiRegionResource deps rootItem doc.Extensions
      = .error (.missingRegionExtension k ("x-terraform-resource-regions-" ++ k)) := by
    rw [isMultiRegionResource_of_match deps rootItem doc.Extensions host re m0 m1 m2 k m4
      hhost hne hmulti hmatch]
    simp only [getResourceRegionExtensionName, hext, Bool.false_eq_true, if_false]
  refine ⟨hm, ?_, ⟨_, rfl⟩⟩
  have hone : complianceLoop deps doc [(p, item)] [] = [] := by
    simp [complianceLoop, hc, hm]
  unfold GetTerraformCompliantResourcesIn
  rw [complianceLoop_split, complianceLoop_append, hone]
  simp

/-- Witness of C13 (amended): the multi-region document without region extension. -/
theorem GetTerraformCompliantResources_skips_missing_regions_witness :
    isEndPointFullyTerraformResourceCompliant (regionDoc []) "/v1/cdns/{id}"
        = .ok ("/v1/cdns", regionRootItem, cdnSchema) ∧
      GetTerraformCompliantResourcesIn flatCollaborators (regionDoc [])
          ([("/v1/cdns", regionRootItem)] ++ ("/v1/cdns/{id}", { Get := some {} }) :: [])
        = GetTerraformCompliantResourcesIn flatCollaborators (regionDoc [])
          ([("/v1/cdns", regionRootItem)] ++ []) :=
  ⟨rfl,
    (GetTerraformCompliantResources_skips_missing_regions flatCollaborators (regionDoc [])
      [("/v1/cdns", regionRootItem)] [] "/v1/cdns/{id}" { Get := some {} } "/v1/cdns"
      regionRootItem cdnSchema "accounts.${region}.api.com" multiRegionHostRegex
      "accounts.${region}.api.com" "accounts." "${region}" "region" ".api.com"
      rfl rfl (by decide) rfl (by decide) rfl).2.1⟩

/-- C13 fails as stated: in the multi-region document without region
extension the resource of `/v1/cdns/{id}` is compliant, its host has the
pattern and `isMultiRegionResource` fails, yet the pass returns no error, and
an empty list. -/
theorem GetTerraformCompliantResources_no_abort :
    isEndPointFullyTerraformResourceCompliant (regionDoc []) "/v1/cdns/{id}"
        = .ok ("/v1/cdns", regionRootItem, cdnSchema) ∧
      isMultiRegionResource flatCollaborators regionRootItem (regionDoc []).Extensions
        = .error (.missingRegionExtension "region" "x-terraform-resource-regions-region") ∧
      GetTerraformCompliantResources flatCollaborators (regionDoc []) = .ok [] :=
  ⟨rfl, rfl, rfl⟩

/-- C18: for every list of regions, when the construction succeeds for every
region `createMultiRegionResources` returns as many resources as regions, the
i-th one being the resource constructed from the i-th region with the same
root path, payload schema, root path item and instance path item; when the
construction fails for some region it returns an error, and no resource. -/
theorem createMultiRegionResources_spec (deps : Collaborators) (doc : Swagger)
    (regions : List String) (root : String) (rootItem pathItem : PathItem) (schema : Schema) :
    ((∀ region ∈ regions, ∃ r, deps.newSpecV2ResourceWithRegion region root schema rootItem
        pathItem doc.Definitions doc.Paths = .ok r) →
      ∃ rs, createMultiRegionResources deps doc regions root rootItem pathItem schema = .ok rs ∧
        rs.length = regions.length ∧
        List.Forall₂ (fun region r => deps.newSpecV2ResourceWithRegion region root schema
          rootItem pathItem doc.Definitions doc.Paths = .ok r) regions rs) ∧
    ((∃ region ∈ regions, ∃ e, deps.newSpecV2ResourceWithRegion region root schema rootItem
        pathItem doc.Definitions doc.Paths = .error e) →
      ∃ e, createMultiRegionResources deps doc regions root rootItem pathItem schema
        = .error (.failedRegionResource e)) := by
  constructor
  · intro h
    obtain ⟨rs, hrs, hall⟩ := createMultiRegionResourcesLoop_ok deps doc root rootItem pathItem
      schema regions [] h
    exact ⟨rs, by simpa [createMultiRegionResources] using hrs, hall.length_eq.symm, hall⟩
  · intro h
    exact createMultiRegionResourcesLoop_error deps doc root rootItem pathItem schema regions [] h

/-! ## Lemmas on the security definitions -/

theorem apiKeySecurityDefinitionsLoop_ok :
    ∀ (l : List (String × SecurityScheme)) (acc : List SpecSecurityDefinition),
      (∀ nd ∈ l, nd.2.Typ = "apiKey" → nd.2.In = "header" ∨ nd.2.In = "query") →
      apiKeySecurityDefinitionsLoop l acc
        = .ok (acc ++ (l.filter (fun nd => decide (nd.2.Typ = "apiKey"))).map extractedDefinition)
  | [], acc, _ => by simp [apiKeySecurityDefinitionsLoop]
  | (name, d) :: rest, acc, h => by
    have ih := fun acc' => apiKeySecurityDefinitionsLoop_ok rest acc'
      (fun nd hnd => h nd (List.mem_cons_of_mem _ hnd))
    unfold apiKeySecurityDefinitionsLoop
    by_cases ht : d.Typ = "apiKey"
    · have hin := h (name, d) (by simp) ht
      by_cases hh : d.In = "header"
      · cases hb : isBearerScheme d <;>
          simp [ht, hh, hb, ih, extractedDefinition, newAPIKeyHeaderBearerSecurityDefinition,
            newAPIKeyHeaderSecurityDefinition]
      · have hq : d.In = "query" := by
          rcases hin with h1 | h1
          · exact absurd h1 hh
          · exact h1
        have hqh : ¬ ("query" : String) = "header" := by decide
        cases hb : isBearerScheme d <;>
          simp [ht, hq, hqh, hb, ih, extractedDefinition, newAPIKeyQueryBearerSecurityDefinition,
            newAPIKeyQuerySecurityDefinition]
    · simp [ht, ih]

theorem apiKeySecurityDefinitionsLoop_error :
    ∀ (l : List (String × SecurityScheme)) (acc : List SpecSecurityDefinition),
      (∃ nd ∈ l, nd.2.Typ = "apiKey" ∧ nd.2.In ≠ "header" ∧ nd.2.In ≠ "query") →
      ∃ nd ∈ l, (nd.2.Typ = "apiKey" ∧ nd.2.In ≠ "header" ∧ nd.2.In ≠ "query") ∧
        apiKeySecurityDefinitionsLoop l acc = .error (.apiKeyInNotSupported nd.2.In)
  | [], acc, h => by
    obtain ⟨nd, hnd, -⟩ := h
    simp at hnd
  | (name, d) :: rest, acc, h => by
    by_cases hbad : d.Typ = "apiKey" ∧ d.In ≠ "header" ∧ d.In ≠ "query"
    · refine ⟨(name, d), by simp, hbad, ?_⟩
      unfold apiKeySecurityDefinitionsLoop
      simp [hbad.1, hbad.2.1, hbad.2.2]
    · have hrest : ∃ nd ∈ rest, nd.2.Typ = "apiKey" ∧ nd.2.In ≠ "header" ∧ nd.2.In ≠ "query" := by
        obtain ⟨nd, hnd, hb⟩ := h
        rcases List.mem_cons.mp hnd with h1 | h1
        · subst h1
          exact absurd hb hbad
        · exact ⟨nd, h1, hb⟩
      have ih := fun acc' => apiKeySecurityDefinitionsLoop_error rest acc' hrest
      unfold apiKeySecurityDefinitionsLoop
      by_cases ht : d.Typ = "apiKey"
      · by_cases hh : d.In = "header"
        · cases hb : isBearerScheme d
          · obtain ⟨nd, hnd, hb', he⟩ := ih (acc ++ [newAPIKeyHeaderSecurityDefinition name d.Name])
            exact ⟨nd, List.mem_cons_of_mem _ hnd, hb', by simp [ht, hh, hb, he]⟩
          · obtain ⟨nd, hnd, hb', he⟩ := ih (acc ++ [newAPIKeyHeaderBearerSecurityDefinition name])
            exact ⟨nd, List.mem_cons_of_mem _ hnd, hb', by simp [ht, hh, hb, he]⟩
        · by_cases hq : d.In = "query"
          · cases hb : isBearerScheme d
            · obtain ⟨nd, hnd, hb', he⟩ :=
                ih (acc ++ [newAPIKeyQuerySecurityDefinition name d.Name])
              exact ⟨nd, List.mem_cons_of_mem _ hnd, hb', by simp [ht, hh, hq, hb, he]⟩
            · obtain ⟨nd, hnd, hb', he⟩ := ih (acc ++ [newAPIKeyQueryBearerSecurityDefinition name])
              exact ⟨nd, List.mem_cons_of_mem _ hnd, hb', by simp [ht, hh, hq, hb, he]⟩
          · exact absurd ⟨ht, hh, hq⟩ hbad
      · obtain ⟨nd, hnd, hb', he⟩ := ih acc
        exact ⟨nd, List.mem_cons_of_mem _ hnd, hb', by simp [ht, he]⟩

theorem isBearerScheme_iff (d : SecurityScheme) :
    isBearerScheme d = true ↔
      d.Extensions.lookup "x-terraform-authentication-scheme-bearer" = some (.bool true) := by
  have h : String.mk (extTfAuthenticationSchemeBearer.data.map Char.toLower)
      = "x-terraform-authentication-scheme-bearer" := by decide
  unfold isBearerScheme Extensions.GetBool
  rw [h]
  cases hl : List.lookup "x-terraform-authentication-scheme-bearer" d.Extensions with
  | none => simp
  | some v => cases v <;> simp

/-- The outcome of `GetAPIKeySecurityDefinitions`: an error when some `apiKey`
definition has an unsupported location, else the extracted definitions. -/
theorem GetAPIKeySecurityDefinitions_cases (s : specV2Security) :
    ((∃ nd ∈ s.SecurityDefinitions,
        nd.2.Typ = "apiKey" ∧ nd.2.In ≠ "header" ∧ nd.2.In ≠ "query") ∧
      ∃ e, s.GetAPIKeySecurityDefinitions = .error e) ∨
    ((∀ nd ∈ s.SecurityDefinitions, nd.2.Typ = "apiKey" → nd.2.In = "header" ∨ nd.2.In = "query") ∧
      s.GetAPIKeySecurityDefinitions
        = .ok ((s.SecurityDefinitions.filter (fun nd => decide (nd.2.Typ = "apiKey"))).map
            extractedDefinition)) := by
  by_cases hbad : ∃ nd ∈ s.SecurityDefinitions,
      nd.2.Typ = "apiKey" ∧ nd.2.In ≠ "header" ∧ nd.2.In ≠ "query"
  · left
    obtain ⟨nd, -, -, he⟩ := apiKeySecurityDefinitionsLoop_error s.SecurityDefinitions [] hbad
    exact ⟨hbad, _, he⟩
  · right
    have hall : ∀ nd ∈ s.SecurityDefinitions,
        nd.2.Typ = "apiKey" → nd.2.In = "header" ∨ nd.2.In = "query" := by
      intro nd hnd ht
      by_contra hne
      exact hbad ⟨nd, hnd, ht, fun h => hne (Or.inl h), fun h => hne (Or.inr h)⟩
    refine ⟨hall, ?_⟩
    unfold specV2Security.GetAPIKeySecurityDefinitions
    rw [apiKeySecurityDefinitionsLoop_ok s.SecurityDefinitions [] hall]
    simp

theorem extractedDefinition_getName (nd : String × SecurityScheme) :
    (extractedDefinition nd).getName = nd.1 := by
  unfold extractedDefinition
  split <;> split <;> rfl

/-! ## The security extractor -/

/-- C19: `GetAPIKeySecurityDefinitions` fails if and only if some definition of
type `apiKey` has a location other than `header` and `query`; every extracted
definition comes from, and is named after, a definition of type `apiKey`, so
the other types neither fail nor appear; and visiting the same definitions in
another order gives a failure exactly when this order does, and on success a
permutation of the same extracted definitions. -/
theorem GetAPIKeySecurityDefinitions_fails_iff (s : specV2Security) :
    ((∃ e, s.GetAPIKeySecurityDefinitions = .error e) ↔
      ∃ nd ∈ s.SecurityDefinitions,
        nd.2.Typ = "apiKey" ∧ nd.2.In ≠ "header" ∧ nd.2.In ≠ "query") ∧
    (∀ rs, s.GetAPIKeySecurityDefinitions = .ok rs → ∀ d ∈ rs,
      ∃ nd ∈ s.SecurityDefinitions, nd.2.Typ = "apiKey" ∧ d = extractedDefinition nd ∧
        d.getName = nd.1) ∧
    (∀ s₂ : specV2Security, s₂.SecurityDefinitions.Perm s.SecurityDefinitions →
      ((∃ e, s₂.GetAPIKeySecurityDefinitions = .error e) ↔
        (∃ e, s.GetAPIKeySecurityDefinitions = .error e)) ∧
      ∀ rs rs₂, s.GetAPIKeySecurityDefinitions = .ok rs →
        s₂.GetAPIKeySecurityDefinitions = .ok rs₂ → rs₂.Perm rs) := by
  have hiff : ∀ t : specV2Security, (∃ e, t.GetAPIKeySecurityDefinitions = .error e) ↔
      ∃ nd ∈ t.SecurityDefinitions,
        nd.2.Typ = "apiKey" ∧ nd.2.In ≠ "header" ∧ nd.2.In ≠ "query" := by
    intro t
    rcases GetAPIKeySecurityDefinitions_cases t with ⟨hbad, he⟩ | ⟨hall, hok⟩
    · exact ⟨fun _ => hbad, fun _ => he⟩
    · constructor
      · rintro ⟨e, he⟩
        rw [hok] at he
        cases he
      · rintro ⟨nd, hnd, ht, h1, h2⟩
        rcases hall nd hnd ht with h | h
        · exact absurd h h1
        · exact absurd h h2
  have hres : ∀ (t : specV2Security) (rs : List SpecSecurityDefinition),
      t.GetAPIKeySecurityDefinitions = .ok rs →
      rs = (t.SecurityDefinitions.filter (fun nd => decide (nd.2.Typ = "apiKey"))).map
        extractedDefinition := by
    intro t rs hrs
    rcases GetAPIKeySecurityDefinitions_cases t with ⟨-, e, he⟩ | ⟨-, hok⟩
    · rw [he] at hrs
      cases hrs
    · rw [hok] at hrs
      cases hrs
      rfl
  refine ⟨hiff s, ?_, ?_⟩
  · intro rs hrs d hd
    rw [hres s rs hrs] at hd
    obtain ⟨nd, hnd, rfl⟩ := List.mem_map.mp hd
    obtain ⟨hmem, ht⟩ := List.mem_filter.mp hnd
    exact ⟨nd, hmem, by simpa using ht, rfl, extractedDefinition_getName nd⟩
  · intro s₂ hperm
    refine ⟨?_, ?_⟩
    · rw [hiff s₂, hiff s]
      constructor
      · rintro ⟨nd, hnd, hb⟩
        exact ⟨nd, hperm.subset hnd, hb⟩
      · rintro ⟨nd, hnd, hb⟩
        exact ⟨nd, hperm.symm.subset hnd, hb⟩
    · intro rs rs₂ hrs hrs₂
      rw [hres s rs hrs, hres s₂ rs₂ hrs₂]
      exact (hperm.filter _).map _

/-- C20: when every `apiKey` definition is located in `header` or `query`,
`GetAPIKeySecurityDefinitions` returns one extracted definition for each
`apiKey` definition, in the order they are visited, so as many as there are;
the variant of each is fixed by its location and by its bearer flag alone, and
the bearer flag is set exactly when the extension
`x-terraform-authentication-scheme-bearer` is the boolean true. -/
theorem GetAPIKeySecurityDefinitions_variants (s : specV2Security)
    (h : ∀ nd ∈ s.SecurityDefinitions, nd.2.Typ = "apiKey" →
      nd.2.In = "header" ∨ nd.2.In = "query") :
    (∃ rs, s.GetAPIKeySecurityDefinitions = .ok rs ∧
      rs = (s.SecurityDefinitions.filter (fun nd => decide (nd.2.Typ = "apiKey"))).map
        extractedDefinition ∧
      rs.length = (s.SecurityDefinitions.filter (fun nd => decide (nd.2.Typ = "apiKey"))).length) ∧
    (∀ nd : String × SecurityScheme,
      (nd.2.In = "header" → isBearerScheme nd.2 = false →
        extractedDefinition nd = .apiKeyHeader nd.1 nd.2.Name) ∧
      (nd.2.In = "header" → isBearerScheme nd.2 = true →
        extractedDefinition nd = .apiKeyHeaderBearer nd.1) ∧
      (nd.2.In = "query" → isBearerScheme nd.2 = false →
        extractedDefinition nd = .apiKeyQuery nd.1 nd.2.Name) ∧
      (nd.2.In = "query" → isBearerScheme nd.2 = true →
        extractedDefinition nd = .apiKeyQueryBearer nd.1) ∧
      (isBearerScheme nd.2 = true ↔
        nd.2.Extensions.lookup "x-terraform-authentication-scheme-bearer"
          = some (.bool true))) := by
  have hqh : ¬ ("query" : String) = "header" := by decide
  refine ⟨?_, ?_⟩
  · rcases GetAPIKeySecurityDefinitions_cases s with ⟨⟨nd, hnd, ht, h1, h2⟩, -⟩ | ⟨-, hok⟩
    · rcases h nd hnd ht with h' | h'
      · exact absurd h' h1
      · exact absurd h' h2
    · exact ⟨_, hok, rfl, by simp⟩
  · intro nd
    refine ⟨?_, ?_, ?_, ?_, isBearerScheme_iff nd.2⟩
    · intro h1 h2
      simp [extractedDefinition, h1, h2]
    · intro h1 h2
      simp [extractedDefinition, h1, h2]
    · intro h1 h2
      simp [extractedDefinition, h1, h2, hqh]
    · intro h1 h2
      simp [extractedDefinition, h1, h2, hqh]

/-- Witness of C20: the four variants of `fourVariantsSecurity`, without its
`oauth2` definition. -/
theorem GetAPIKeySecurityDefinitions_variants_witness :
    fourVariantsSecurity.GetAPIKeySecurityDefinitions
        = .ok [.apiKeyHeader "apikey_header" "X-API-KEY", .apiKeyHeaderBearer "bearer_header",
            .apiKeyQuery "apikey_query" "token", .apiKeyQueryBearer "bearer_query"] ∧
      ∃ rs, fourVariantsSecurity.GetAPIKeySecurityDefinitions = .ok rs ∧ rs.length = 4 :=
  have hw := (GetAPIKeySecurityDefinitions_variants fourVariantsSecurity (by decide)).1
  ⟨rfl, by
    obtain ⟨rs, h1, -, h3⟩ := hw
    exact ⟨rs, h1, by rw [h3]; rfl⟩⟩

/-! ## Lemmas on the global security schemes -/

theorem isBearerScheme_congr {d d₂ : SecurityScheme} (h : d.Extensions = d₂.Extensions) :
    isBearerScheme d = isBearerScheme d₂ := by
  unfold isBearerScheme
  rw [h]

theorem apiKeySecurityDefinitionsLoop_congr :
    ∀ (l l₂ : List (String × SecurityScheme)),
      List.Forall₂ (fun nd nd₂ => nd.1 = nd₂.1 ∧ nd.2.Typ = nd₂.2.Typ ∧ nd.2.In = nd₂.2.In ∧
        nd.2.Extensions = nd₂.2.Extensions ∧
        (isBearerScheme nd.2 = false → nd.2.Name = nd₂.2.Name)) l l₂ →
      ∀ acc, apiKeySecurityDefinitionsLoop l acc = apiKeySecurityDefinitionsLoop l₂ acc
  | [], [], _, _ => rfl
  | [], _ :: _, h, _ => by cases h
  | _ :: _, [], h, _ => by cases h
  | (name, d) :: rest, (name₂, d₂) :: rest₂, h, acc => by
    obtain ⟨hhead, htail⟩ := List.forall₂_cons.mp h
    obtain ⟨h1, h2, h3, h4, h5⟩ := hhead
    simp only at h1 h2 h3 h4 h5
    subst h1
    have ih := apiKeySecurityDefinitionsLoop_congr rest rest₂ htail
    have hb := isBearerScheme_congr h4
    unfold apiKeySecurityDefinitionsLoop
    rw [← h2, ← h3, ← hb]
    cases hbd : isBearerScheme d with
    | true => simp only [ih, if_true]
    | false =>
      rw [← h5 hbd]
      simp only [ih]

/-- The result of `GetGlobalSecuritySchemes` when the extraction fails: an
empty list and no error, unless there is no global security scheme. -/
theorem globalSecuritySchemesLoop_of_error (s : specV2Security) (e : AnalyserError)
    (he : s.GetAPIKeySecurityDefinitions = .error e) (all : List SpecSecurityScheme)
    (scheme : SpecSecurityScheme) (rest : List SpecSecurityScheme) :
    globalSecuritySchemesLoop s all (scheme :: rest) = .ok [] := by
  unfold globalSecuritySchemesLoop
  rw [he]

/-! ## The global security schemes -/

/-- C21: two maps of security definitions that differ only in the declared
parameter name of their bearer-flagged definitions give the same result of
`GetAPIKeySecurityDefinitions`; and a plain `apiKey` definition is extracted as
its logical name together with its declared parameter name. -/
theorem GetAPIKeySecurityDefinitions_bearer_name (s s₂ : specV2Security)
    (h : List.Forall₂ (fun nd nd₂ => nd.1 = nd₂.1 ∧ nd.2.Typ = nd₂.2.Typ ∧ nd.2.In = nd₂.2.In ∧
      nd.2.Extensions = nd₂.2.Extensions ∧ (isBearerScheme nd.2 = false → nd.2.Name = nd₂.2.Name))
      s.SecurityDefinitions s₂.SecurityDefinitions) :
    s.GetAPIKeySecurityDefinitions = s₂.GetAPIKeySecurityDefinitions ∧
    (∀ (name : String) (d : SecurityScheme), d.Typ = "apiKey" → isBearerScheme d = false →
      (d.In = "header" →
        specV2Security.GetAPIKeySecurityDefinitions { SecurityDefinitions := [(name, d)] }
          = .ok [.apiKeyHeader name d.Name]) ∧
      (d.In = "query" →
        specV2Security.GetAPIKeySecurityDefinitions { SecurityDefinitions := [(name, d)] }
          = .ok [.apiKeyQuery name d.Name])) := by
  refine ⟨apiKeySecurityDefinitionsLoop_congr _ _ h [], ?_⟩
  intro name d ht hb
  have hqh : ¬ ("query" : String) = "header" := by decide
  constructor
  · intro hin
    simp [specV2Security.GetAPIKeySecurityDefinitions, apiKeySecurityDefinitionsLoop, ht, hb, hin,
      newAPIKeyHeaderSecurityDefinition]
  · intro hin
    simp [specV2Security.GetAPIKeySecurityDefinitions, apiKeySecurityDefinitionsLoop, ht, hb, hin,
      hqh, newAPIKeyQuerySecurityDefinition]

/-- Witness of C21: the bearer definition declared with the parameter name
`Authorization` or `X-Token` is extracted the same. -/
theorem GetAPIKeySecurityDefinitions_bearer_name_witness :
    (bearerSecurity "Authorization").GetAPIKeySecurityDefinitions
        = (bearerSecurity "X-Token").GetAPIKeySecurityDefinitions ∧
      (bearerSecurity "X-Token").GetAPIKeySecurityDefinitions
        = .ok [.apiKeyHeaderBearer "bearer_header", .apiKeyQuery "apikey_query" "token"] :=
  ⟨(GetAPIKeySecurityDefinitions_bearer_name (bearerSecurity "Authorization")
      (bearerSecurity "X-Token")
      (List.Forall₂.cons ⟨rfl, rfl, rfl, rfl, fun hb => absurd hb (by decide)⟩
        (List.Forall₂.cons ⟨rfl, rfl, rfl, rfl, fun _ => rfl⟩ List.Forall₂.nil))).1,
    rfl⟩

/-- C23, the code at the failing input: for `cookieSecurity`
`GetGlobalSecuritySchemes` returns without error, yet the returned list is
empty and not the list of schemes built from the global security requirements,
which holds `token_auth`. -/
theorem GetGlobalSecuritySchemes_not_the_built_list :
    cookieSecurity.GetGlobalSecuritySchemes = .ok [] ∧
      createSecuritySchemes cookieSecurity.GlobalSecurity ≠ [] :=
  ⟨rfl, by decide⟩

/-- C24, the code at the failing input: `cookieSecurity` has an `apiKey`
definition located in `cookie`, for which `GetAPIKeySecurityDefinitions` fails,
and a global security requirement; `GetGlobalSecuritySchemes` returns an empty
list and no error. -/
theorem GetGlobalSecuritySchemes_swallows_error :
    cookieSecurity.GetAPIKeySecurityDefinitions = .error (.apiKeyInNotSupported "cookie") ∧
      cookieSecurity.GlobalSecurity ≠ [] ∧
      cookieSecurity.GetGlobalSecuritySchemes = .ok [] :=
  ⟨rfl, by decide, rfl⟩

/-! ## Lemmas on the sub-resource validation -/

theorem pathExists_fst (doc : Swagger) (path : String) :
    (pathExists doc path).1 = true ↔
      (doc.Paths.lookup path).isSome = true ∨ (doc.Paths.lookup (path ++ "/")).isSome = true := by
  unfold pathExists
  cases h1 : List.lookup path doc.Paths with
  | some p => simp
  | none =>
    cases h2 : List.lookup (path ++ "/") doc.Paths with
    | some p => simp
    | none => simp

theorem parentInstanceLoop_cases (doc : Swagger) (resourcePath : String) :
    ∀ l : List String,
      ((∀ u ∈ l, (pathExists doc u).1 = true) ∧ parentInstanceLoop doc resourcePath l = .ok ()) ∨
      (∃ u ∈ l, (pathExists doc u).1 = false ∧
        parentInstanceLoop doc resourcePath l = .error (.missingParentInstancePath resourcePath u))
  | [] => Or.inl ⟨by simp, rfl⟩
  | u :: rest => by
    unfold parentInstanceLoop
    cases he : (pathExists doc u).1 with
    | false => exact Or.inr ⟨u, by simp, he, by simp⟩
    | true =>
      simp only [Bool.not_true, Bool.false_eq_true, if_false]
      rcases parentInstanceLoop_cases doc resourcePath rest with ⟨hall, hok⟩ | ⟨v, hv, hne, herr⟩
      · left
        refine ⟨?_, hok⟩
        intro x hx
        rcases List.mem_cons.mp hx with h | h
        · rw [h]; exact he
        · exact hall x h
      · exact Or.inr ⟨v, List.mem_cons_of_mem _ hv, hne, herr⟩

theorem parentRootLoop_cases (deps : Collaborators) (doc : Swagger) (resourcePath : String) :
    ∀ l : List String,
      ((∀ u ∈ l, (pathExists doc u).1 = true ∧
          deps.ShouldIgnoreResource { RootPathItem := (pathExists doc u).2 } = false) ∧
        parentRootLoop deps doc resourcePath l = .ok ()) ∨
      (∃ u ∈ l,
        ((pathExists doc u).1 = false ∧
          parentRootLoop deps doc resourcePath l
            = .error (.missingParentRootPath resourcePath u)) ∨
        ((pathExists doc u).1 = true ∧
          deps.ShouldIgnoreResource { RootPathItem := (pathExists doc u).2 } = true ∧
          parentRootLoop deps doc resourcePath l = .error (.ignoredParent resourcePath u)))
  | [] => Or.inl ⟨by simp, rfl⟩
  | u :: rest => by
    unfold parentRootLoop
    cases he : (pathExists doc u).1 with
    | false => exact Or.inr ⟨u, by simp, Or.inl ⟨he, by simp⟩⟩
    | true =>
      simp only [Bool.not_true, Bool.false_eq_true, if_false]
      cases hi : deps.ShouldIgnoreResource { RootPathItem := (pathExists doc u).2 } with
      | true => exact Or.inr ⟨u, by simp, Or.inr ⟨he, hi, by simp⟩⟩
      | false =>
        simp only [Bool.false_eq_true, if_false]
        rcases parentRootLoop_cases deps doc resourcePath rest with ⟨hall, hok⟩ | ⟨v, hv, hcase⟩
        · left
          refine ⟨?_, hok⟩
          intro x hx
          rcases List.mem_cons.mp hx with h | h
          · rw [h]; exact ⟨he, hi⟩
          · exact hall x h
        · exact Or.inr ⟨v, List.mem_cons_of_mem _ hv, hcase⟩

/-! ## The sub-resource linker -/

/-- C25: `validateSubResourceTerraformCompliance` succeeds if and only if the
resource has no parent information, or every parent instance URI is declared
(as written or followed by `/`) and every parent root URI is declared (as
written or followed by `/`) with a path item that is not marked as ignored; a
missing parent instance path gives the missing-parent-instance error and,
when the parent instance paths are declared, a missing or ignored parent root
path gives the missing-parent-root or the ignored-parent error. -/
theorem validateSubResourceTerraformCompliance_iff (deps : Collaborators) (doc : Swagger)
    (r : SpecV2Resource) :
    (validateSubResourceTerraformCompliance deps doc r = .ok () ↔
      deps.GetParentResourceInfo r = none ∨
      ∃ info, deps.GetParentResourceInfo r = some info ∧
        (∀ u ∈ info.parentInstanceURIs,
          (doc.Paths.lookup u).isSome = true ∨ (doc.Paths.lookup (u ++ "/")).isSome = true) ∧
        (∀ u ∈ info.parentURIs,
          ((doc.Paths.lookup u).isSome = true ∨ (doc.Paths.lookup (u ++ "/")).isSome = true) ∧
          deps.ShouldIgnoreResource { RootPathItem := (pathExists doc u).2 } = false)) ∧
    (∀ info, deps.GetParentResourceInfo r = some info →
      ((∃ u ∈ info.parentInstanceURIs,
          ¬ ((doc.Paths.lookup u).isSome = true ∨ (doc.Paths.lookup (u ++ "/")).isSome = true)) →
        ∃ u ∈ info.parentInstanceURIs,
          validateSubResourceTerraformCompliance deps doc r
            = .error (.missingParentInstancePath r.Path u)) ∧
      ((∀ u ∈ info.parentInstanceURIs,
          (doc.Paths.lookup u).isSome = true ∨ (doc.Paths.lookup (u ++ "/")).isSome = true) →
        (∃ u ∈ info.parentURIs,
          ¬ ((doc.Paths.lookup u).isSome = true ∨ (doc.Paths.lookup (u ++ "/")).isSome = true) ∨
          deps.ShouldIgnoreResource { RootPathItem := (pathExists doc u).2 } = true) →
        ∃ u ∈ info.parentURIs,
          validateSubResourceTerraformCompliance deps doc r
              = .error (.missingParentRootPath r.Path u) ∨
            validateSubResourceTerraformCompliance deps doc r
              = .error (.ignoredParent r.Path u))) := by
  unfold validateSubResourceTerraformCompliance
  cases hinfo : deps.GetParentResourceInfo r with
  | none => simp
  | some info =>
    have hsn : (some info = (none : Option ParentResourceInfo)) ↔ False := by simp
    simp only [hsn, false_or, Option.some.injEq, exists_eq_left', forall_eq', ← pathExists_fst]
    rcases parentInstanceLoop_cases doc r.Path info.parentInstanceURIs with
      ⟨hiall, hiok⟩ | ⟨v, hv, hve, hverr⟩
    · rw [hiok]
      simp only
      rcases parentRootLoop_cases deps doc r.Path info.parentURIs with
        ⟨hrall, hrok⟩ | ⟨w, hw, hcase⟩
      · rw [hrok]
        refine ⟨⟨fun _ => ⟨hiall, hrall⟩, fun _ => rfl⟩, ?_, ?_⟩
        · rintro ⟨u, hu, hne⟩
          exact absurd (hiall u hu) hne
        · rintro - ⟨u, hu, hne | hign⟩
          · exact absurd (hrall u hu).1 hne
          · rw [(hrall u hu).2] at hign
            cases hign
      · have herr : ∃ e, parentRootLoop deps doc r.Path info.parentURIs = .error e := by
          rcases hcase with ⟨-, h⟩ | ⟨-, -, h⟩ <;> exact ⟨_, h⟩
        obtain ⟨e, he⟩ := herr
        refine ⟨⟨fun h => ?_, fun h => ?_⟩, ?_, ?_⟩
        · rw [he] at h
          cases h
        · exfalso
          rcases hcase with ⟨hne, -⟩ | ⟨-, hign, -⟩
          · rw [(h.2 w hw).1] at hne
            cases hne
          · rw [(h.2 w hw).2] at hign
            cases hign
        · rintro ⟨u, hu, hne⟩
          exact absurd (hiall u hu) hne
        · rintro - -
          rcases hcase with ⟨-, h⟩ | ⟨-, -, h⟩
          · exact ⟨w, hw, Or.inl h⟩
          · exact ⟨w, hw, Or.inr h⟩
    · rw [hverr]
      simp only
      refine ⟨⟨fun h => ?_, fun h => ?_⟩, ?_, ?_⟩
      · cases h
      · rw [h.1 v hv] at hve
        cases hve
      · rintro -
        exact ⟨v, hv, rfl⟩
      · intro hall
        rw [hall v hv] at hve
        cases hve

/-- The cases of `isEndPointTerraformDataSourceCompliant` once the GET
operation declares a 200 response with a schema. -/
theorem isEndPointTerraformDataSourceCompliant_of_schema {path : PathItem} {get : Operation}
    {responses : Responses} {response : Response} {schema : Schema}
    (hget : path.Get = some get) (hresp : get.Responses = some responses)
    (h200 : responses.StatusCodeResponses.lookup 200 = some response)
    (hschema : response.Schema = some schema) :
    isEndPointTerraformDataSourceCompliant path =
      if schema.Typ ≠ [] ∧ "array" ∉ schema.Typ then .error .responseNotArray
      else
        match schema.Items with
        | none => .error .itemsNotObjectWithProperties
        | some items =>
          if "object" ∉ items.Typ ∨ items.Properties.length = 0 then
            .error .itemsNotObjectWithProperties
          else .ok items := by
  unfold isEndPointTerraformDataSourceCompliant
  simp only [hget, hresp, h200, hschema]
  have h1 : (schema.Typ.length > 0 ∧ ¬ schema.Typ.contains "array" = true) ↔
      (schema.Typ ≠ [] ∧ "array" ∉ schema.Typ) := by
    simp [List.length_pos]
  simp only [h1]
  cases hi : schema.Items with
  | none => rfl
  | some items =>
    have h2 : (¬ items.Typ.contains "object" = true ∨ items.Properties.length = 0) ↔
        ("object" ∉ items.Typ ∨ items.Properties.length = 0) := by
      simp
    simp only [h2]

/-- C27, as the code has it: `isEndPointTerraformDataSourceCompliant` succeeds
with `items` if and only if the path item declares GET, the GET declares a 200
response with a schema, that schema declares no type or is of array type, and
its item schema is `items`, of object type with at least one property. -/
theorem isEndPointTerraformDataSourceCompliant_iff (path : PathItem) (items : Schema) :
    isEndPointTerraformDataSourceCompliant path = .ok items ↔
      ∃ get responses response schema, path.Get = some get ∧
        get.Responses = some responses ∧
        responses.StatusCodeResponses.lookup 200 = some response ∧
        response.Schema = some schema ∧
        (schema.Typ = [] ∨ "array" ∈ schema.Typ) ∧
        schema.Items = some items ∧ "object" ∈ items.Typ ∧ items.Properties ≠ [] := by
  constructor
  · intro h
    cases hget : path.Get with
    | none => simp [isEndPointTerraformDataSourceCompliant, hget] at h
    | some get =>
      cases hresp : get.Responses with
      | none => simp [isEndPointTerraformDataSourceCompliant, hget, hresp] at h
      | some responses =>
        cases h200 : responses.StatusCodeResponses.lookup 200 with
        | none => simp [isEndPointTerraformDataSourceCompliant, hget, hresp, h200] at h
        | some response =>
          cases hschema : response.Schema with
          | none =>
            simp [isEndPointTerraformDataSourceCompliant, hget, hresp, h200, hschema] at h
          | some schema =>
            rw [isEndPointTerraformDataSourceCompliant_of_schema hget hresp h200 hschema] at h
            split at h
            · cases h
            · rename_i harr
              cases hi : schema.Items with
              | none => rw [hi] at h; cases h
              | some it =>
                rw [hi] at h
                simp only at h
                split at h
                · cases h
                · rename_i hobj
                  cases h
                  refine ⟨get, responses, response, schema, rfl, hresp, h200, hschema, ?_, hi, ?_, ?_⟩
                  · by_cases ht : schema.Typ = []
                    · exact Or.inl ht
                    · right
                      by_contra hne
                      exact harr ⟨ht, hne⟩
                  · by_contra hne
                    exact hobj (Or.inl hne)
                  · intro hnil
                    exact hobj (Or.inr (by simp [hnil]))
  · rintro ⟨get, responses, response, schema, hget, hresp, h200, hschema, harr, hi, hobj, hprops⟩
    rw [isEndPointTerraformDataSourceCompliant_of_schema hget hresp h200 hschema]
    have h1 : ¬ (schema.Typ ≠ [] ∧ "array" ∉ schema.Typ) := by
      rintro ⟨ha, hb⟩
      rcases harr with h | h
      · exact ha h
      · exact hb h
    have h2 : ¬ ("object" ∉ items.Typ ∨ items.Properties.length = 0) := by
      rintro (h | h)
      · exact h hobj
      · exact hprops (List.length_eq_zero.mp h)
    rw [if_neg h1, hi]
    simp only
    rw [if_neg h2]

/-- C27 fails as stated: the GET of `dataSourceItem untypedListSchema` answers
200 with a schema that declares no type, so is not of array type, and the path
item is a compliant data source. -/
theorem isEndPointTerraformDataSourceCompliant_untyped :
    isEndPointTerraformDataSourceCompliant (dataSourceItem untypedListSchema)
        = .ok listedObject ∧
      "array" ∉ untypedListSchema.Typ :=
  ⟨rfl, by decide⟩

/-- C28, as the code has it: the errors of
`isEndPointTerraformDataSourceCompliant` for no GET operation, no 200 response,
a response schema of a type other than array, and an item schema that is not
an object with properties are pairwise different; an item schema that is not
an object and an object item schema without property give the same error. -/
theorem isEndPointTerraformDataSourceCompliant_errors (path : PathItem) :
    (path.Get = none →
      isEndPointTerraformDataSourceCompliant path = .error .missingGetOperation) ∧
    (∀ get responses, path.Get = some get → get.Responses = some responses →
      responses.StatusCodeResponses.lookup 200 = none →
      isEndPointTerraformDataSourceCompliant path = .error .missingGet200Response) ∧
    (∀ get responses response schema, path.Get = some get → get.Responses = some responses →
      responses.StatusCodeResponses.lookup 200 = some response →
      response.Schema = some schema →
      (schema.Typ ≠ [] ∧ "array" ∉ schema.Typ →
        isEndPointTerraformDataSourceCompliant path = .error .responseNotArray) ∧
      (∀ items, (schema.Typ = [] ∨ "array" ∈ schema.Typ) → schema.Items = some items →
        ("object" ∉ items.Typ →
          isEndPointTerraformDataSourceCompliant path = .error .itemsNotObjectWithProperties) ∧
        ("object" ∈ items.Typ → items.Properties = [] →
          isEndPointTerraformDataSourceCompliant path
            = .error .itemsNotObjectWithProperties))) ∧
    (AnalyserError.missingGetOperation ≠ .missingGet200Response ∧
      AnalyserError.missingGetOperation ≠ .responseNotArray ∧
      AnalyserError.missingGetOperation ≠ .itemsNotObjectWithProperties ∧
      AnalyserError.missingGet200Response ≠ .responseNotArray ∧
      AnalyserError.missingGet200Response ≠ .itemsNotObjectWithProperties ∧
      AnalyserError.responseNotArray ≠ .itemsNotObjectWithProperties) := by
  refine ⟨?_, ?_, ?_, ?_⟩
  · intro h
    simp [isEndPointTerraformDataSourceCompliant, h]
  · intro get responses hget hresp h200
    simp [isEndPointTerraformDataSourceCompliant, hget, hresp, h200]
  · intro get responses response schema hget hresp h200 hschema
    rw [isEndPointTerraformDataSourceCompliant_of_schema hget hresp h200 hschema]
    refine ⟨fun h => by rw [if_pos h], ?_⟩
    intro items harr hi
    have h1 : ¬ (schema.Typ ≠ [] ∧ "array" ∉ schema.Typ) := by
      rintro ⟨ha, hb⟩
      rcases harr with h | h
      · exact ha h
      · exact hb h
    rw [if_neg h1, hi]
    simp only
    constructor
    · intro hobj
      rw [if_pos (Or.inl hobj)]
    · intro _ hprops
      rw [if_pos (Or.inr (by simp [hprops]))]
  · decide

/-- C28 fails as stated: items that are not objects and object items without
property are reported with one and the same error. -/
theorem isEndPointTerraformDataSourceCompliant_same_error :
    isEndPointTerraformDataSourceCompliant (dataSourceItem stringListSchema)
        = .error .itemsNotObjectWithProperties ∧
      isEndPointTerraformDataSourceCompliant (dataSourceItem emptyObjectListSchema)
        = .error .itemsNotObjectWithProperties ∧
      isEndPointTerraformDataSourceCompliant (dataSourceItem stringListSchema)
        = isEndPointTerraformDataSourceCompliant (dataSourceItem emptyObjectListSchema) :=
  ⟨rfl, rfl, rfl⟩

/-! ## End-to-end scenario and step-level errors -/

/-- C29: in the end-to-end document `/v1/cdns/{id}` is compliant, with the
root path `/v1/cdns` and the schema of the body parameter of its POST, whose
properties are `id` (read only) and `label`; `/v1/cdns` is not compliant; so
the document has exactly one compliant path. -/
theorem isEndPointFullyTerraformResourceCompliant_cdns :
    isEndPointFullyTerraformResourceCompliant cdnDoc "/v1/cdns/{id}"
        = .ok ("/v1/cdns", cdnDoc.pathItem "/v1/cdns", cdnSchema) ∧
      (bodyParameterExists (cdnDoc.pathItem "/v1/cdns").Post).map (fun param => param.Schema)
        = some (some cdnSchema) ∧
      cdnSchema.Properties.map (fun np => (np.1, np.2.ReadOnly))
        = [("id", true), ("label", false)] ∧
      isEndPointFullyTerraformResourceCompliant cdnDoc "/v1/cdns"
        = .error (.notInstancePath "/v1/cdns") ∧
      (cdnDoc.Paths.filter
          (fun e => (isEndPointFullyTerraformResourceCompliant cdnDoc e.1).toBool)).map
        (fun e => e.1) = ["/v1/cdns/{id}"] :=
  ⟨rfl, rfl, rfl, rfl, rfl⟩

/-- C30: for a document and an instance path, a missing GET on the instance
path, a missing POST on the root path, an invalid schema of the POST body
parameter and a payload schema without identifier make
`isEndPointFullyTerraformResourceCompliant` fail with four errors that are
pairwise different. -/
theorem isEndPointFullyTerraformResourceCompliant_errors (doc : Swagger) (p root : String) :
    ((isResourceInstanceEndPoint p).1 = true → (doc.pathItem p).Get = none →
      isEndPointFullyTerraformResourceCompliant doc p = .error (.missingGet p)) ∧
    (validateInstancePath doc p = .ok () → findMatchingResourceRootPath doc p = .ok root →
      (doc.pathItem root).Post = none →
      isEndPointFullyTerraformResourceCompliant doc p = .error (.missingPost root)) ∧
    (∀ op param e, validateInstancePath doc p = .ok () →
      findMatchingResourceRootPath doc p = .ok root →
      (doc.pathItem root).Post = some op → bodyParameterExists (some op) = some param →
      getBodyParameterBodySchema (some op) = .error e →
      isEndPointFullyTerraformResourceCompliant doc p = .error (.postValidationError root e)) ∧
    (∀ rootItem schema, validateInstancePath doc p = .ok () →
      validateRootPath doc p = .ok (root, rootItem, schema) →
      (¬ ∃ np ∈ schema.Properties,
        np.1 = "id" ∨ np.2.Extensions.lookup "x-terraform-id" = some (.bool true)) →
      isEndPointFullyTerraformResourceCompliant doc p = .error .missingIdentifier) ∧
    (∀ e, AnalyserError.missingGet p ≠ .missingPost root ∧
      AnalyserError.missingGet p ≠ .postValidationError root e ∧
      AnalyserError.missingGet p ≠ .missingIdentifier ∧
      AnalyserError.missingPost root ≠ .postValidationError root e ∧
      AnalyserError.missingPost root ≠ .missingIdentifier ∧
      AnalyserError.postValidationError root e ≠ .missingIdentifier) := by
  refine ⟨?_, ?_, ?_, ?_, ?_⟩
  · intro hshape hget
    have hv : validateInstancePath doc p = .error (.missingGet p) := by
      unfold validateInstancePath
      simp only [isResourceInstanceEndPoint] at hshape ⊢
      simp [hshape, hget]
    simp [isEndPointFullyTerraformResourceCompliant, hv]
  · intro hv hroot hpost
    have hr : validateRootPath doc p = .error (.missingPost root) := by
      rw [validateRootPath_of_root hroot, hpost]
      simp
    simp [isEndPointFullyTerraformResourceCompliant, hv, hr]
  · intro op param e hv hroot hpost hbody hschema
    have hr : validateRootPath doc p = .error (.postValidationError root e) := by
      rw [validateRootPath_of_root hroot, hpost]
      simp [hschema, hbody]
    simp [isEndPointFullyTerraformResourceCompliant, hv, hr]
  · intro rootItem schema hv hr hno
    have hs : validateResourceSchemaDefinition schema = .error .missingIdentifier := by
      rw [validateResourceSchemaDefinition_eq]
      have : schema.Properties.any usableAsIdentifier = false := by
        rw [← Bool.not_eq_true, any_usableAsIdentifier]
        exact hno
      simp [this]
    simp [isEndPointFullyTerraformResourceCompliant, hv, hr, hs]
  · intro e
    refine ⟨?_, ?_, ?_, ?_, ?_, ?_⟩ <;> intro h <;> cases h

/-! ## Behaviour of the region parsing -/

/-- C31: whenever `isMultiRegionResource` reports a multi-region resource its
region list is not empty, and it never returns the error of the branch "could
not find any region" nor of the branch "could not build properly the resource
region map", whatever the collaborators, the path item and the extensions. -/
theorem isMultiRegionResource_regions_nonempty (deps : Collaborators) (resourceRoot : PathItem)
    (extensions : Extensions) :
    (∀ regions, isMultiRegionResource deps resourceRoot extensions = .ok (true, regions) →
      regions ≠ []) ∧
    (∀ k n v, isMultiRegionResource deps resourceRoot extensions ≠ .error (.noRegionFound k n v) ∧
      isMultiRegionResource deps resourceRoot extensions
        ≠ .error (.regionMapNotBuilt k n v)) := by
  have hnil : ∀ v : String, stringsSplitComma v ≠ [] := fun v => by
    unfold stringsSplitComma
    simpa using splitOnComma_ne_nil v.data
  have hlen : ∀ v : String, ¬ (stringsSplitComma v).length < 1 := stringsSplitComma_length_pos
  unfold isMultiRegionResource
  simp only [copyRegions_eq, List.nil_append]
  constructor
  · intro regions h
    split_ifs at h with h1 h2 h3 h4 h5 <;>
      first
        | exact absurd h5 (hlen _)
        | (cases h; done)
        | (cases h; exact hnil _)
  · intro k n v
    constructor <;> intro h <;> split_ifs at h with h1 h2 h3 h4 h5 <;>
      first
        | exact absurd h5 (hlen _)
        | cases h

/-- C32: the region parsing is permissive. For the value `us,,us` the code
succeeds with the regions `us`, the empty name and `us` again; and for every
string value of the region extension it succeeds with the pieces between the
commas, none being rejected. -/
theorem isMultiRegionResource_permissive :
    isMultiRegionResource flatCollaborators regionRootItem [(regionExtensionName, .str "us,,us")]
        = .ok (true, ["us", "", "us"]) ∧
      ∀ v : String,
        isMultiRegionResource flatCollaborators regionRootItem [(regionExtensionName, .str v)]
          = .ok (true, stringsSplitComma (removeSpaces v)) := by
  refine ⟨rfl, fun v => ?_⟩
  rw [isMultiRegionResource_of_match flatCollaborators regionRootItem
    [(regionExtensionName, .str v)] "accounts.${region}.api.com" multiRegionHostRegex
    "accounts.${region}.api.com" "accounts." "${region}" "region" ".api.com"
    rfl (by decide) rfl (by decide)]
  rfl

/-! ## Behaviour of the successful response lookup -/

theorem successfulResponseLoop_skip (pre : List (Int × Response))
    (hpre : ∀ e ∈ pre, ¬ (e.1 = 200 ∨ e.1 = 201 ∨ e.1 = 202)) (rest : List (Int × Response)) :
    successfulResponseLoop (pre ++ rest) = successfulResponseLoop rest := by
  induction pre with
  | nil => rfl
  | cons e pre ih =>
    obtain ⟨code, response⟩ := e
    have hcode : ¬ (code = 200 ∨ code = 201 ∨ code = 202) := hpre (code, response) (by simp)
    simp only [List.cons_append, successfulResponseLoop, hcode, if_false]
    exact ih (fun x hx => hpre x (by simp [hx]))

/-- C33: `getSuccessfulResponseDefinition` fails when the operation or its
responses are absent or when none of 200, 201 and 202 is declared; a schema it
returns is the schema of a declared response with one of these three codes;
and when exactly one of these codes is declared, wherever it stands, the
result is the schema of that response if it has one and else the
missing-schema error for that code. -/
theorem getSuccessfulResponseDefinition_spec (operation : Option Operation) :
    (operation = none → getSuccessfulResponseDefinition operation = .error .missingResponses) ∧
    (∀ op, operation = some op → op.Responses = none →
      getSuccessfulResponseDefinition operation = .error .missingResponses) ∧
    (∀ op responses, operation = some op → op.Responses = some responses →
      (∀ e ∈ responses.StatusCodeResponses, ¬ (e.1 = 200 ∨ e.1 = 201 ∨ e.1 = 202)) →
      getSuccessfulResponseDefinition operation = .error .missingSuccessfulResponse) ∧
    (∀ schema, getSuccessfulResponseDefinition operation = .ok schema →
      ∃ op responses code response, operation = some op ∧ op.Responses = some responses ∧
        (code, response) ∈ responses.StatusCodeResponses ∧
        (code = 200 ∨ code = 201 ∨ code = 202) ∧ response.Schema = some schema) ∧
    (∀ op responses pre post code response, operation = some op →
      op.Responses = some responses →
      responses.StatusCodeResponses = pre ++ (code, response) :: post →
      (code = 200 ∨ code = 201 ∨ code = 202) →
      (∀ e ∈ pre ++ post, ¬ (e.1 = 200 ∨ e.1 = 201 ∨ e.1 = 202)) →
      (∀ schema, response.Schema = some schema →
        getSuccessfulResponseDefinition operation = .ok schema) ∧
      (response.Schema = none →
        getSuccessfulResponseDefinition operation = .error (.responseMissingSchema code))) := by
  refine ⟨?_, ?_, ?_, ?_, ?_⟩
  · intro h
    subst h
    rfl
  · intro op hop hresp
    subst hop
    simp [getSuccessfulResponseDefinition, hresp]
  · intro op responses hop hresp hnone
    subst hop
    simp only [getSuccessfulResponseDefinition, hresp]
    have := successfulResponseLoop_skip responses.StatusCodeResponses hnone []
    rw [List.append_nil] at this
    rw [this]
    rfl
  · intro schema h
    exact getSuccessfulResponseDefinition_ok h
  · intro op responses pre post code response hop hresp hl hcode hothers
    subst hop
    simp only [getSuccessfulResponseDefinition, hresp, hl]
    rw [successfulResponseLoop_skip pre (fun e he => hothers e (by simp [he]))]
    simp only [successfulResponseLoop, hcode, if_true]
    constructor
    · intro schema hs
      rw [hs]
    · intro hs
      rw [hs]

/-! ## Behaviour of the schema validation -/

theorem any_perm {α : Type} (f : α → Bool) {l₁ l₂ : List α} (h : l₁.Perm l₂) :
    l₁.any f = l₂.any f := by
  rw [Bool.eq_iff_iff, List.any_eq_true, List.any_eq_true]
  constructor
  · rintro ⟨x, hx, hf⟩
    exact ⟨x, h.subset hx, hf⟩
  · rintro ⟨x, hx, hf⟩
    exact ⟨x, h.symm.subset hx, hf⟩

theorem all_perm {α : Type} (f : α → Bool) {l₁ l₂ : List α} (h : l₁.Perm l₂) :
    l₁.all f = l₂.all f := by
  rw [Bool.eq_iff_iff, List.all_eq_true, List.all_eq_true]
  constructor
  · intro hall x hx
    exact hall x (h.symm.subset hx)
  · intro hall x hx
    exact hall x (h.subset hx)

/-- C35: in read-only mode `validateResourceSchemaDefWithOptions` returns the
read-only error if and only if some property is not read only, whether or not
an identifier exists, the missing-identifier error if and only if every
property is read only and none is an identifier, and succeeds otherwise; and
in both modes the outcome is the same for every order of the properties. -/
theorem validateResourceSchemaDefWithOptions_order (schema : Schema) :
    (validateResourceSchemaDefWithOptions schema true = .error .notJustReadOnly ↔
      ∃ np ∈ schema.Properties, np.2.ReadOnly = false) ∧
    (validateResourceSchemaDefWithOptions schema true = .error .missingIdentifier ↔
      (∀ np ∈ schema.Properties, np.2.ReadOnly = true) ∧
      ¬ ∃ np ∈ schema.Properties,
        np.1 = "id" ∨ np.2.Extensions.lookup "x-terraform-id" = some (.bool true)) ∧
    (validateResourceSchemaDefWithOptions schema true = .ok () ↔
      (∀ np ∈ schema.Properties, np.2.ReadOnly = true) ∧
      ∃ np ∈ schema.Properties,
        np.1 = "id" ∨ np.2.Extensions.lookup "x-terraform-id" = some (.bool true)) ∧
    (∀ (schema₂ : Schema) (shouldPropBeReadOnly : Bool),
      schema₂.Properties.Perm schema.Properties →
      validateResourceSchemaDefWithOptions schema₂ shouldPropBeReadOnly
        = validateResourceSchemaDefWithOptions schema shouldPropBeReadOnly) := by
  have hall : (∀ np ∈ schema.Properties, np.2.ReadOnly = true) ↔
      schema.Properties.all (fun np => np.2.ReadOnly) = true := by
    simp [List.all_eq_true]
  have hex : (∃ np ∈ schema.Properties, np.2.ReadOnly = false) ↔
      schema.Properties.all (fun np => np.2.ReadOnly) = false := by
    rw [← Bool.not_eq_true, ← hall]
    simp
  refine ⟨?_, ?_, ?_, ?_⟩
  · rw [validateResourceSchemaDefWithOptions_true, hex]
    cases h1 : schema.Properties.all (fun np => np.2.ReadOnly) <;>
      cases h2 : schema.Properties.any usableAsIdentifier <;> simp
  · rw [validateResourceSchemaDefWithOptions_true, hall, ← any_usableAsIdentifier]
    cases h1 : schema.Properties.all (fun np => np.2.ReadOnly) <;>
      cases h2 : schema.Properties.any usableAsIdentifier <;> simp
  · rw [validateResourceSchemaDefWithOptions_true, hall, ← any_usableAsIdentifier]
    cases h1 : schema.Properties.all (fun np => np.2.ReadOnly) <;>
      cases h2 : schema.Properties.any usableAsIdentifier <;> simp
  · intro schema₂ b hperm
    cases b with
    | true =>
      rw [validateResourceSchemaDefWithOptions_true, validateResourceSchemaDefWithOptions_true,
        all_perm _ hperm, any_perm _ hperm]
    | false =>
      have h1 := validateResourceSchemaDefinition_eq schema
      have h2 := validateResourceSchemaDefinition_eq schema₂
      unfold validateResourceSchemaDefinition at h1 h2
      rw [h1, h2, any_perm _ hperm]

/-! ## Behaviour of the root path validation -/

/-- C36: when the POST operation of the root path has a parameter located in
`body` that is invalid (no schema, an unexpanded reference, or no property),
`validateRootPath` rejects the candidate with the POST validation error,
whatever the responses of the operation are; and when `validateRootPath`
accepts a schema that is not the schema of the body parameter, the operation
has no parameter located in `body`. -/
theorem validateRootPath_no_fallback (doc : Swagger) (p root : String) (op : Operation)
    (param : Parameter)
    (hroot : findMatchingResourceRootPath doc p = .ok root)
    (hpost : (doc.pathItem root).Post = some op)
    (hbody : bodyParameterExists (some op) = some param) :
    ((param.Schema = none ∨
        ∃ schema, param.Schema = some schema ∧ (schema.Ref ≠ "" ∨ schema.Properties = [])) →
      ∃ e, getBodyParameterBodySchema (some op) = .error e ∧
        validateRootPath doc p = .error (.postValidationError root e)) ∧
    (∀ r, validateRootPath doc p = .ok r →
      getBodyParameterBodySchema (some op) = .ok r.2.2) := by
  have hv := validateRootPath_of_root hroot
  rw [hpost] at hv
  simp only [Option.isSome_some, if_true, hbody] at hv
  constructor
  · intro hinvalid
    have herr : ∃ e, getBodyParameterBodySchema (some op) = .error e := by
      unfold getBodyParameterBodySchema
      rw [hbody]
      rcases hinvalid with hs | ⟨schema, hs, hr | hp⟩
      · exact ⟨.missingBodyParameterSchema, by simp [hs]⟩
      · exact ⟨.refNotExpanded, by simp [hs, hr]⟩
      · by_cases hr : schema.Ref = ""
        · exact ⟨.schemaWithoutProperties, by simp [hs, hr, hp]⟩
        · exact ⟨.refNotExpanded, by simp [hs, hr]⟩
    obtain ⟨e, he⟩ := herr
    refine ⟨e, he, ?_⟩
    rw [hv, he]
  · intro r hr
    cases hb : getBodyParameterBodySchema (some op) with
    | error e =>
      rw [hv, hb] at hr
      cases hr
    | ok schema =>
      rw [hv, hb] at hr
      cases hr
      rfl

/-- Witness of C36: in `invalidBodyDoc` the body parameter has no schema and
the 201 response has a valid computed-only schema; the candidate is rejected. -/
theorem validateRootPath_no_fallback_witness :
    validateResourceSchemaDefWithOptions computedSchema true = .ok () ∧
      validateRootPath invalidBodyDoc "/v1/tokens/{id}"
        = .error (.postValidationError "/v1/tokens" .missingBodyParameterSchema) :=
  have h := (validateRootPath_no_fallback invalidBodyDoc "/v1/tokens/{id}" "/v1/tokens"
    { Parameters := [{ Name := "body", In := "body" }],
      Responses := some { StatusCodeResponses := [(201, { Schema := some computedSchema })] } }
    { Name := "body", In := "body" } rfl rfl rfl).1 (Or.inl rfl)
  ⟨rfl, by
    obtain ⟨e, he, hv⟩ := h
    cases he
    exact hv⟩

/-- C37: for a path accepted by `isResourceInstanceEndPoint` the root pattern
gives exactly the match and one captured text, so `findMatchingResourceRootPath`
never returns the malformed-match error, and its only error is the
missing-root-path error. -/
theorem findMatchingResourceRootPath_only_missing_root (doc : Swagger) (p : String)
    (hinst : (isResourceInstanceEndPoint p).1 = true) :
    (∃ w R, FindStringSubmatch resourceInstanceRegex p = [w, R]) ∧
    (∀ result, findMatchingResourceRootPath doc p ≠ .error (.malformedRootMatch p result)) ∧
    (∀ e, findMatchingResourceRootPath doc p = .error e → e = .missingRootPath p) := by
  obtain ⟨a, name, t, hp, -, -, -, -⟩ := (isResourceInstanceEndPoint_iff p).mp hinst
  have hmem : '{' ∈ p.data := by rw [hp]; simp
  obtain ⟨R, rest, hsplit, hlast⟩ := exists_last_split hmem
  obtain ⟨hnR, hclose⟩ := instance_last_split hinst hsplit
  obtain ⟨w, hw⟩ := FindStringSubmatch_root p R rest hsplit hnR hlast hclose
  have heq := findMatchingResourceRootPath_eq doc hinst hsplit hlast
  refine ⟨⟨w, _, hw⟩, ?_, ?_⟩
  · intro result h
    rw [heq] at h
    split_ifs at h
    cases h
  · intro e h
    rw [heq] at h
    split_ifs at h
    cases h
    rfl

/-- Witness of C37 on the end-to-end document. -/
theorem findMatchingResourceRootPath_only_missing_root_witness :
    (isResourceInstanceEndPoint "/v1/cdns/{id}").1 = true ∧
      FindStringSubmatch resourceInstanceRegex "/v1/cdns/{id}"
        = ["/v1/cdns/{id}", "/v1/cdns/"] ∧
      ∀ e, findMatchingResourceRootPath {} "/v1/cdns/{id}" = .error e →
        e = .missingRootPath "/v1/cdns/{id}" :=
  ⟨by decide, by decide,
    (findMatchingResourceRootPath_only_missing_root {} "/v1/cdns/{id}" (by decide)).2.2⟩

/-- C39: `pathExists` returns true if and only if the path, or the path
followed by `/`, is a key of the path map; it then returns the item stored
under the path when the path is a key, else the item stored under the path
followed by `/`; and when it returns false it returns the empty path item. -/
theorem pathExists_spec (doc : Swagger) (path : String) :
    ((pathExists doc path).1 = true ↔
      (doc.Paths.lookup path).isSome = true ∨ (doc.Paths.lookup (path ++ "/")).isSome = true) ∧
    (∀ item, doc.Paths.lookup path = some item → pathExists doc path = (true, item)) ∧
    (∀ item, doc.Paths.lookup path = none → doc.Paths.lookup (path ++ "/") = some item →
      pathExists doc path = (true, item)) ∧
    (doc.Paths.lookup path = none → doc.Paths.lookup (path ++ "/") = none →
      pathExists doc path = (false, {})) := by
  refine ⟨pathExists_fst doc path, ?_, ?_, ?_⟩
  · intro item h
    simp [pathExists, h]
  · intro item h1 h2
    simp [pathExists, h1, h2]
  · intro h1 h2
    simp [pathExists, h1, h2]

/-! ## The refresh token authenticator -/

theorem lookup_mapSet (m : List (String × String)) (key value k : String) :
    (mapSet m key value).lookup k = if k = key then some value else m.lookup k := by
  unfold mapSet
  by_cases hk : k = key
  · subst hk
    simp
  · simp only [hk, if_false]
    rw [List.lookup_cons]
    have hbeq : (k == key) = false := by simpa using hk
    rw [hbeq]
    simp only
    induction m with
    | nil => rfl
    | cons e rest ih =>
      obtain ⟨k₁, v₁⟩ := e
      by_cases h1 : k₁ = key
      · subst h1
        have hne : (k == k₁) = false := by simpa using hk
        simp [List.lookup_cons, hne, ih]
      · simp only [List.filter_cons, bne_iff_ne, ne_eq, h1, not_false_eq_true, if_true,
          List.lookup_cons, ih]

/-- C34: `prepareAuth` succeeds if and only if the refresh token POST returns
a response with status 200 or 204 and a non-empty `Authorization` header; on
success the `Authorization` header of the context is that value and every
other header of the context is as before; on a failure (request error, other
status, missing token) it returns the error of that case and the context is
as before. -/
theorem prepareAuth_spec (a : apiRefreshTokenAuthenticator) (ctx : authContext) :
    ((a.prepareAuth ctx).2 = none ↔
      ∃ r, a.PostJson a.refreshTokenURL [(a.name, a.value)] = .ok r ∧
        (r.StatusCode = 200 ∨ r.StatusCode = 204) ∧ r.headerGet "Authorization" ≠ "") ∧
    (∀ r, a.PostJson a.refreshTokenURL [(a.name, a.value)] = .ok r →
      (a.prepareAuth ctx).2 = none →
      (a.prepareAuth ctx).1.header "Authorization" = some (r.headerGet "Authorization") ∧
      ∀ k, k ≠ "Authorization" → (a.prepareAuth ctx).1.header k = ctx.header k) ∧
    ((a.prepareAuth ctx).2 ≠ none → (a.prepareAuth ctx).1 = ctx) ∧
    (∀ e, a.PostJson a.refreshTokenURL [(a.name, a.value)] = .error e →
      a.prepareAuth ctx = (ctx, some e)) ∧
    (∀ r, a.PostJson a.refreshTokenURL [(a.name, a.value)] = .ok r →
      (r.StatusCode ≠ 200 ∧ r.StatusCode ≠ 204 →
        a.prepareAuth ctx = (ctx, some (.refreshTokenStatus a.refreshTokenURL r.StatusCode))) ∧
      ((r.StatusCode = 200 ∨ r.StatusCode = 204) → r.headerGet "Authorization" = "" →
        a.prepareAuth ctx
          = (ctx, some (.refreshTokenMissingAccessToken a.refreshTokenURL)))) := by
  have hkey : a.getContext.name = a.name ∧ a.getContext.value = a.value := ⟨rfl, rfl⟩
  unfold apiRefreshTokenAuthenticator.prepareAuth
  simp only [hkey.1, hkey.2, authorizationHeader]
  cases hpost : a.PostJson a.refreshTokenURL [(a.name, a.value)] with
  | error e => simp
  | ok r =>
    simp only
    by_cases hstatus : r.StatusCode ≠ 200 ∧ r.StatusCode ≠ 204
    · have hno : ¬ (r.StatusCode = 200 ∨ r.StatusCode = 204) := by
        rintro (h | h)
        · exact hstatus.1 h
        · exact hstatus.2 h
      simp [hstatus, hno]
    · have hyes : r.StatusCode = 200 ∨ r.StatusCode = 204 := by
        by_contra hne
        exact hstatus ⟨fun h => hne (Or.inl h), fun h => hne (Or.inr h)⟩
      simp only [if_neg hstatus]
      by_cases htoken : r.headerGet "Authorization" = ""
      · simp [htoken, hstatus]
        exact fun h => hyes.resolve_left h
      · simp only [if_neg htoken]
        refine ⟨?_, ?_, ?_, ?_, ?_⟩
        · simp [hyes, htoken]
        · intro r' hr' _
          cases hr'
          refine ⟨?_, ?_⟩
          · simp [authContext.header, lookup_mapSet]
          · intro k hk
            cases hh : ctx.headers with
            | none => simp [authContext.header, lookup_mapSet, hk, hh]
            | some m => simp [authContext.header, lookup_mapSet, hk, hh]
        · simp
        · simp
        · intro r' hr'
          cases hr'
          exact ⟨fun h => absurd h hstatus, fun _ h => absurd h htoken⟩

theorem dropWhile_spaces (n : Nat) (c : Char) (rest : List Char) (hc : c ≠ ' ') :
    (List.replicate n ' ' ++ c :: rest).dropWhile (fun c => c == ' ') = c :: rest := by
  induction n with
  | zero => simp [List.dropWhile_cons, hc]
  | succ n ih => simpa [List.replicate_succ, List.dropWhile_cons] using ih

theorem takeWhile_spaces (l : List Char) :
    ∃ n, l.takeWhile (fun c => c == ' ') = List.replicate n ' ' := by
  refine ⟨(l.takeWhile (fun c => c == ' ')).length, List.eq_replicate_of_mem ?_⟩
  intro b hb
  simpa using List.mem_takeWhile_imp hb

theorem trimSpaces_data (s : String) :
    ∃ n m, s.data = List.replicate n ' ' ++ (trimSpaces s).data ++ List.replicate m ' ' := by
  obtain ⟨n, hn⟩ := takeWhile_spaces s.data
  obtain ⟨m, hm⟩ := takeWhile_spaces (s.data.dropWhile (fun c => c == ' ')).reverse
  refine ⟨n, m, ?_⟩
  have h1 := List.takeWhile_append_dropWhile (fun c => c == ' ') s.data
  have h2 := List.takeWhile_append_dropWhile (fun c => c == ' ')
    (s.data.dropWhile (fun c => c == ' ')).reverse
  have h3 := congrArg List.reverse h2
  rw [List.reverse_append, List.reverse_reverse, hm, List.reverse_replicate] at h3
  rw [hn] at h1
  have h4 : (trimSpaces s).data
      = ((s.data.dropWhile (fun c => c == ' ')).reverse.dropWhile (fun c => c == ' ')).reverse :=
    rfl
  rw [h4, List.append_assoc, h3, h1]

theorem trimSpaces_eq_bearer (s : String) :
    trimSpaces s = "Bearer" ↔
      ∃ n m, s.data = List.replicate n ' ' ++ "Bearer".data ++ List.replicate m ' ' := by
  constructor
  · intro h
    obtain ⟨n, m, hnm⟩ := trimSpaces_data s
    rw [h] at hnm
    exact ⟨n, m, hnm⟩
  · rintro ⟨n, m, h⟩
    have hB : "Bearer".data = ['B', 'e', 'a', 'r', 'e', 'r'] := rfl
    apply String.ext
    show ((s.data.dropWhile (fun c => c == ' ')).reverse.dropWhile (fun c => c == ' ')).reverse
      = "Bearer".data
    rw [h, hB, List.append_assoc, List.cons_append,
      dropWhile_spaces n 'B' _ (by decide)]
    have hrev : ('B' :: (['e', 'a', 'r', 'e', 'r'] ++ List.replicate m ' ')).reverse
        = List.replicate m ' ' ++ 'r' :: ['e', 'r', 'a', 'e', 'B'] := by
      simp [List.reverse_cons, List.reverse_append]
    rw [hrev, dropWhile_spaces m 'r' _ (by decide)]
    rfl

/-- C40: `validate` fails if and only if the configured value is the empty
string or is the word `Bearer` between any number of leading and trailing
spaces; the failure is the error about the missing value of the security
definition; a value `Bearer ` followed by a token that has a character other
than a space passes. -/
theorem validate_spec (a : apiRefreshTokenAuthenticator) :
    (a.validate ≠ none ↔
      a.value = "" ∨
        ∃ n m, a.value.data = List.replicate n ' ' ++ "Bearer".data ++ List.replicate m ' ') ∧
    (a.validate ≠ none →
      a.validate = some (.missingSecurityValue a.terraformConfigurationName)) ∧
    (∀ token : String, (∃ c ∈ token.data, c ≠ ' ') → a.value = "Bearer " ++ token →
      a.validate = none) := by
  have hiff : a.validate ≠ none ↔ a.value = "" ∨ trimSpaces a.value = "Bearer" := by
    unfold apiRefreshTokenAuthenticator.validate
    split_ifs with h
    · simp [h]
    · simp [h]
  refine ⟨?_, ?_, ?_⟩
  · rw [hiff, trimSpaces_eq_bearer]
  · intro h
    rw [hiff] at h
    unfold apiRefreshTokenAuthenticator.validate
    rw [if_pos h]
  · rintro token ⟨c, hc, hne⟩ hvalue
    by_contra hnone
    have hfail := hiff.mp hnone
    rw [trimSpaces_eq_bearer, hvalue] at hfail
    rcases hfail with hempty | ⟨n, m, hdata⟩
    · have := congrArg String.data hempty
      simp [String.data_append] at this
    · have hB : "Bearer".data = ['B', 'e', 'a', 'r', 'e', 'r'] := rfl
      have hB2 : "Bearer ".data = ['B', 'e', 'a', 'r', 'e', 'r', ' '] := rfl
      rw [String.data_append, hB, hB2] at hdata
      cases n with
      | zero =>
        simp only [List.replicate_zero, List.nil_append, List.cons_append,
          List.cons.injEq, true_and] at hdata
        have hmem : c ∈ List.replicate m ' ' := by
          rw [← hdata]
          simp [hc]
        exact hne (List.eq_of_mem_replicate hmem)
      | succ n =>
        simp [List.replicate_succ] at hdata

/-! ## One resource for each instance path -/

theorem complianceLoop_single (deps : Collaborators) (doc : Swagger) (e : String × PathItem)
    (hsingle : yieldsMultiRegion deps doc e.1 = false) :
    complianceLoop deps doc [e] [] = [] ∨
      ∃ r root rootItem schema, complianceLoop deps doc [e] [] = [r] ∧
        isEndPointFullyTerraformResourceCompliant doc e.1 = .ok (root, rootItem, schema) ∧
        deps.newSpecV2Resource root schema rootItem e.2 doc.Definitions doc.Paths = .ok r := by
  obtain ⟨p, item⟩ := e
  simp only [yieldsMultiRegion] at hsingle
  simp only [complianceLoop]
  cases h1 : isEndPointFullyTerraformResourceCompliant doc p with
  | error _ => exact Or.inl rfl
  | ok t =>
    obtain ⟨root, rootItem, schema⟩ := t
    rw [h1] at hsingle
    simp only at hsingle ⊢
    cases h2 : isMultiRegionResource deps rootItem doc.Extensions with
    | error _ => exact Or.inl rfl
    | ok q =>
      obtain ⟨b, regions⟩ := q
      rw [h2] at hsingle
      simp only at hsingle
      subst hsingle
      simp only [Bool.false_eq_true, if_false]
      cases h3 : deps.newSpecV2Resource root schema rootItem item doc.Definitions doc.Paths with
      | error _ => exact Or.inl rfl
      | ok r =>
        simp only
        cases h4 : validateSubResourceTerraformCompliance deps doc r with
        | error _ => exact Or.inl rfl
        | ok _ => exact Or.inr ⟨r, root, rootItem, schema, by simp, rfl, h3⟩

theorem complianceLoop_single_length (deps : Collaborators) (doc : Swagger)
    (e : String × PathItem) (hsingle : yieldsMultiRegion deps doc e.1 = false) :
    (complianceLoop deps doc [e] []).length
      ≤ ([e].filter (fun e => (isEndPointFullyTerraformResourceCompliant doc e.1).toBool)).length := by
  rcases complianceLoop_single deps doc e hsingle with h | ⟨r, root, rootItem, schema, h, hc, _⟩
  · rw [h]
    exact Nat.zero_le _
  · rw [h]
    simp [List.filter_cons, hc, Except.toBool]

/-- C38, as the code has it: in a pass that takes the multi-region branch at no
path, every instance path that is visited yields at most one resource, built by
`newSpecV2Resource` from the root path derived from that instance path; the
resources are counted by instance path, not by root path, so the list is no
longer than the list of the compliant paths visited. -/
theorem GetTerraformCompliantResources_one_per_instance_path (deps : Collaborators)
    (doc : Swagger) (order : List (String × PathItem))
    (hsingle : ∀ e ∈ order, yieldsMultiRegion deps doc e.1 = false) :
    ∃ rs, GetTerraformCompliantResourcesIn deps doc order = .ok rs ∧
      rs.length ≤ (order.filter
        (fun e => (isEndPointFullyTerraformResourceCompliant doc e.1).toBool)).length ∧
      ∀ r ∈ rs, ∃ e ∈ order, ∃ root rootItem schema,
        isEndPointFullyTerraformResourceCompliant doc e.1 = .ok (root, rootItem, schema) ∧
        deps.newSpecV2Resource root schema rootItem e.2 doc.Definitions doc.Paths = .ok r := by
  refine ⟨_, rfl, ?_, ?_⟩
  · induction order with
    | nil => simp [complianceLoop]
    | cons e rest ih =>
      rw [complianceLoop_cons, complianceLoop_acc, List.nil_append, List.length_append]
      have h1 := complianceLoop_single_length deps doc e (hsingle e (by simp))
      have h2 := ih (fun x hx => hsingle x (by simp [hx]))
      have h3 : (List.filter (fun e => (isEndPointFullyTerraformResourceCompliant doc e.1).toBool)
          (e :: rest)).length
          = ([e].filter (fun e => (isEndPointFullyTerraformResourceCompliant doc e.1).toBool)).length
            + (rest.filter
                (fun e => (isEndPointFullyTerraformResourceCompliant doc e.1).toBool)).length := by
        rw [← List.length_append, ← List.filter_append]
        rfl
      omega
  · intro r hr
    rw [complianceLoop_flatMap deps doc order, List.mem_flatMap] at hr
    obtain ⟨e, he, hmem⟩ := hr
    rcases complianceLoop_single deps doc e (hsingle e he) with h | ⟨r', root, rootItem, schema, h, hc, hn⟩
    · rw [h] at hmem
      cases hmem
    · rw [h, List.mem_singleton] at hmem
      subst hmem
      exact ⟨e, he, root, rootItem, schema, hc, hn⟩

/-- Witness of C38 (amended): the document that declares `/v1/cdns/{id}` and
`/v1/cdns/{id}/`. -/
theorem GetTerraformCompliantResources_one_per_instance_path_witness :
    (∀ e ∈ twoInstancePathsDoc.Paths,
      yieldsMultiRegion flatCollaborators twoInstancePathsDoc e.1 = false) ∧
    ∃ rs, GetTerraformCompliantResourcesIn flatCollaborators twoInstancePathsDoc
        twoInstancePathsDoc.Paths = .ok rs ∧
      rs.length ≤ (twoInstancePathsDoc.Paths.filter
        (fun e => (isEndPointFullyTerraformResourceCompliant twoInstancePathsDoc e.1).toBool)).length ∧
      ∀ r ∈ rs, ∃ e ∈ twoInstancePathsDoc.Paths, ∃ root rootItem schema,
        isEndPointFullyTerraformResourceCompliant twoInstancePathsDoc e.1
          = .ok (root, rootItem, schema) ∧
        flatCollaborators.newSpecV2Resource root schema rootItem e.2
          twoInstancePathsDoc.Definitions twoInstancePathsDoc.Paths = .ok r :=
  have h : ∀ e ∈ twoInstancePathsDoc.Paths,
      yieldsMultiRegion flatCollaborators twoInstancePathsDoc e.1 = false := by
    intro e he
    simp only [twoInstancePathsDoc, List.mem_cons, List.mem_singleton, List.not_mem_nil,
      or_false] at he
    rcases he with rfl | rfl | rfl <;> rfl
  ⟨h, GetTerraformCompliantResources_one_per_instance_path flatCollaborators
    twoInstancePathsDoc twoInstancePathsDoc.Paths h⟩

/-- C38 fails as stated: the document `twoInstancePathsDoc` has no multi-region
resource and declares `/v1/cdns/{id}` and `/v1/cdns/{id}/`; the pass returns
two resources, both with the root path `/v1/cdns`. -/
theorem GetTerraformCompliantResources_repeats_root_path :
    (∀ e ∈ twoInstancePathsDoc.Paths,
      yieldsMultiRegion flatCollaborators twoInstancePathsDoc e.1 = false) ∧
    GetTerraformCompliantResources flatCollaborators twoInstancePathsDoc
      = .ok [cdnsResource, cdnsResource] ∧
    cdnsResource.Path = "/v1/cdns" := by
  refine ⟨?_, rfl, rfl⟩
  intro e he
  simp only [twoInstancePathsDoc, List.mem_cons, List.mem_singleton, List.not_mem_nil,
    or_false] at he
  rcases he with rfl | rfl | rfl <;> rfl

/-! ## Two runs over the same document -/

theorem successfulResponseLoop_filter (l : List (Int × Response)) :
    successfulResponseLoop l
      = successfulResponseLoop
          (l.filter (fun e => decide (e.1 = 200 ∨ e.1 = 201 ∨ e.1 = 202))) := by
  induction l with
  | nil => rfl
  | cons e rest ih =>
    obtain ⟨code, response⟩ := e
    by_cases hcode : code = 200 ∨ code = 201 ∨ code = 202
    · rw [List.filter_cons_of_pos (by simpa using hcode)]
      simp only [successfulResponseLoop, hcode, if_true]
    · rw [List.filter_cons_of_neg (by simpa using hcode)]
      simp only [successfulResponseLoop, hcode, if_false]
      exact ih

theorem successfulResponseLoop_perm {l₁ l₂ : List (Int × Response)} (h : l₁.Perm l₂)
    (hone : (l₁.filter (fun e => decide (e.1 = 200 ∨ e.1 = 201 ∨ e.1 = 202))).length ≤ 1) :
    successfulResponseLoop l₁ = successfulResponseLoop l₂ := by
  rw [successfulResponseLoop_filter l₁, successfulResponseLoop_filter l₂]
  have hp := h.filter (fun e => decide (e.1 = 200 ∨ e.1 = 201 ∨ e.1 = 202))
  generalize List.filter (fun e => decide (e.1 = 200 ∨ e.1 = 201 ∨ e.1 = 202)) l₁ = f₁
    at hp hone
  generalize List.filter (fun e => decide (e.1 = 200 ∨ e.1 = 201 ∨ e.1 = 202)) l₂ = f₂ at hp
  match f₁, hone, hp with
  | [], _, hp => rw [List.perm_nil.mp hp.symm]
  | [a], _, hp => rw [List.perm_singleton.mp hp.symm]
  | _ :: _ :: _, hone, _ => simp at hone

theorem validateResourceSchemaDefWithOptions_perm (schema schema₂ : Schema)
    (shouldPropBeReadOnly : Bool) (hperm : schema₂.Properties.Perm schema.Properties) :
    validateResourceSchemaDefWithOptions schema₂ shouldPropBeReadOnly
      = validateResourceSchemaDefWithOptions schema shouldPropBeReadOnly := by
  cases shouldPropBeReadOnly with
  | true =>
    rw [validateResourceSchemaDefWithOptions_true, validateResourceSchemaDefWithOptions_true,
      all_perm _ hperm, any_perm _ hperm]
  | false =>
    have h1 := validateResourceSchemaDefinition_eq schema
    have h2 := validateResourceSchemaDefinition_eq schema₂
    unfold validateResourceSchemaDefinition at h1 h2
    rw [h1, h2, any_perm _ hperm]

theorem validateResourceSchemaDefWithOptionsIn_eq
    (visit : List (String × Schema) → List (String × Schema)) (hvisit : ∀ l, (visit l).Perm l)
    (schema : Schema) (shouldPropBeReadOnly : Bool) :
    validateResourceSchemaDefWithOptionsIn visit schema shouldPropBeReadOnly
      = validateResourceSchemaDefWithOptions schema shouldPropBeReadOnly := by
  have h : validateResourceSchemaDefWithOptionsIn visit schema shouldPropBeReadOnly
      = validateResourceSchemaDefWithOptions
          (.mk schema.Ref schema.Typ schema.ReadOnly (visit schema.Properties) schema.Items
            schema.Extensions) shouldPropBeReadOnly := rfl
  rw [h]
  exact validateResourceSchemaDefWithOptions_perm schema _ shouldPropBeReadOnly
    (hvisit schema.Properties)

theorem getSuccessfulResponseDefinitionIn_eq
    (visit : List (Int × Response) → List (Int × Response)) (hvisit : ∀ l, (visit l).Perm l)
    (operation : Option Operation)
    (hone : ∀ op r, operation = some op → op.Responses = some r →
      (r.StatusCodeResponses.filter
        (fun e => decide (e.1 = 200 ∨ e.1 = 201 ∨ e.1 = 202))).length ≤ 1) :
    getSuccessfulResponseDefinitionIn visit operation
      = getSuccessfulResponseDefinition operation := by
  unfold getSuccessfulResponseDefinitionIn getSuccessfulResponseDefinition
  cases operation with
  | none => rfl
  | some op =>
    simp only
    cases hr : op.Responses with
    | none => rfl
    | some r =>
      simp only
      exact (successfulResponseLoop_perm (hvisit _).symm (hone op r rfl hr)).symm

theorem mem_of_lookup {α : Type} {k : String} {v : α} :
    ∀ {l : List (String × α)}, l.lookup k = some v → (k, v) ∈ l
  | [], h => by simp at h
  | (k₁, v₁) :: rest, h => by
    rw [List.lookup_cons] at h
    by_cases hk : k = k₁
    · subst hk
      simp only [beq_self_eq_true] at h
      cases h
      simp
    · have hb : (k == k₁) = false := by simpa using hk
      rw [hb] at h
      exact List.mem_cons_of_mem _ (mem_of_lookup h)

theorem isEndPointFullyTerraformResourceCompliantIn_eq (orders : MapOrders) (doc : Swagger)
    (hresp : ∀ p l, (orders.responses p l).Perm l)
    (hprop : ∀ p b l, (orders.properties p b l).Perm l)
    (hone : ∀ e ∈ doc.Paths, ∀ op r, e.2.Post = some op → op.Responses = some r →
      (r.StatusCodeResponses.filter
        (fun e => decide (e.1 = 200 ∨ e.1 = 201 ∨ e.1 = 202))).length ≤ 1)
    (p : String) :
    isEndPointFullyTerraformResourceCompliantIn orders doc p
      = isEndPointFullyTerraformResourceCompliant doc p := by
  have e1 : ∀ b schema b₂, validateResourceSchemaDefWithOptionsIn (orders.properties p b)
      schema b₂ = validateResourceSchemaDefWithOptions schema b₂ :=
    fun b schema b₂ => validateResourceSchemaDefWithOptionsIn_eq _ (hprop p b) schema b₂
  have e2 : ∀ root, getSuccessfulResponseDefinitionIn (orders.responses p) (doc.pathItem root).Post
      = getSuccessfulResponseDefinition (doc.pathItem root).Post := by
    intro root
    apply getSuccessfulResponseDefinitionIn_eq _ (hresp p)
    intro op r hop hr
    exact hone (root, doc.pathItem root) (mem_of_lookup (lookup_of_pathItem_post hop)) op r hop hr
  have hroot : validateRootPathIn orders doc p = validateRootPath doc p := by
    unfold validateRootPathIn validateRootPath
    simp only [e1, e2]
  unfold isEndPointFullyTerraformResourceCompliantIn isEndPointFullyTerraformResourceCompliant
  simp only [hroot, e1, validateResourceSchemaDefinition]

theorem complianceLoopIn_eq (orders : MapOrders) (deps : Collaborators) (doc : Swagger)
    (heq : ∀ p, isEndPointFullyTerraformResourceCompliantIn orders doc p
      = isEndPointFullyTerraformResourceCompliant doc p) :
    ∀ (l : List (String × PathItem)) (acc : List SpecV2Resource),
      complianceLoopIn orders deps doc l acc = complianceLoop deps doc l acc
  | [], acc => rfl
  | (p, item) :: rest, acc => by
    simp only [complianceLoopIn, complianceLoop, heq, complianceLoopIn_eq orders deps doc heq rest]

theorem isEndPointFullyTerraformResourceCompliantIn_stored (doc : Swagger) (p : String) :
    isEndPointFullyTerraformResourceCompliantIn MapOrders.stored doc p
      = isEndPointFullyTerraformResourceCompliant doc p := by
  have e1 : ∀ schema b, validateResourceSchemaDefWithOptionsIn (fun l => l) schema b
      = validateResourceSchemaDefWithOptions schema b := fun _ _ => rfl
  have e2 : ∀ operation, getSuccessfulResponseDefinitionIn (fun l => l) operation
      = getSuccessfulResponseDefinition operation := by
    intro operation
    unfold getSuccessfulResponseDefinitionIn getSuccessfulResponseDefinition
    rfl
  have hroot : validateRootPathIn MapOrders.stored doc p = validateRootPath doc p := by
    unfold validateRootPathIn validateRootPath
    simp only [MapOrders.stored, e1, e2]
  unfold isEndPointFullyTerraformResourceCompliantIn isEndPointFullyTerraformResourceCompliant
  simp only [hroot, validateResourceSchemaDefinition]
  simp only [MapOrders.stored, e1]

/-- C12, as the code has it: the pass applies no sort. One run visits the path
map in some order and every other map in some order of its own; when no POST
operation of the document declares more than one of the responses 200, 201
and 202, any two runs return lists that hold the same resources, one being a
permutation of the other, in the order the paths were visited; and the run
that visits the maps as the document value lists them is the pass
`GetTerraformCompliantResourcesIn`. -/
theorem GetTerraformCompliantResources_perm (deps : Collaborators) (doc : Swagger)
    (orders₁ orders₂ : MapOrders) (order₁ order₂ : List (String × PathItem))
    (h : order₁.Perm order₂)
    (hresp₁ : ∀ p l, (orders₁.responses p l).Perm l)
    (hprop₁ : ∀ p b l, (orders₁.properties p b l).Perm l)
    (hresp₂ : ∀ p l, (orders₂.responses p l).Perm l)
    (hprop₂ : ∀ p b l, (orders₂.properties p b l).Perm l)
    (hone : ∀ e ∈ doc.Paths, ∀ op r, e.2.Post = some op → op.Responses = some r →
      (r.StatusCodeResponses.filter
        (fun e => decide (e.1 = 200 ∨ e.1 = 201 ∨ e.1 = 202))).length ≤ 1) :
    (∃ rs₁ rs₂, GetTerraformCompliantResourcesRun deps doc orders₁ order₁ = .ok rs₁ ∧
      GetTerraformCompliantResourcesRun deps doc orders₂ order₂ = .ok rs₂ ∧ rs₁.Perm rs₂) ∧
    (∀ order, GetTerraformCompliantResourcesRun deps doc MapOrders.stored order
      = GetTerraformCompliantResourcesIn deps doc order) := by
  refine ⟨⟨_, _, rfl, rfl, ?_⟩, ?_⟩
  · rw [complianceLoopIn_eq orders₁ deps doc
        (isEndPointFullyTerraformResourceCompliantIn_eq orders₁ doc hresp₁ hprop₁ hone),
      complianceLoopIn_eq orders₂ deps doc
        (isEndPointFullyTerraformResourceCompliantIn_eq orders₂ doc hresp₂ hprop₂ hone),
      complianceLoop_flatMap deps doc order₁, complianceLoop_flatMap deps doc order₂]
    exact List.Perm.flatMap_right _ h
  · intro order
    unfold GetTerraformCompliantResourcesRun GetTerraformCompliantResourcesIn
    rw [complianceLoopIn_eq MapOrders.stored deps doc
      (isEndPointFullyTerraformResourceCompliantIn_stored doc)]

/-- Witness of C12 (amended): the paths of `computedDoc`, whose POST declares
the single response 201, visited in reverse with the maps as listed, and in
the listed order with the maps reversed. -/
theorem GetTerraformCompliantResources_perm_witness :
    computedDoc.Paths.reverse.Perm computedDoc.Paths ∧
      ∃ rs₁ rs₂,
        GetTerraformCompliantResourcesRun flatCollaborators computedDoc MapOrders.stored
          computedDoc.Paths.reverse = .ok rs₁ ∧
        GetTerraformCompliantResourcesRun flatCollaborators computedDoc MapOrders.reversed
          computedDoc.Paths = .ok rs₂ ∧ rs₁.Perm rs₂ :=
  ⟨List.reverse_perm _,
    (GetTerraformCompliantResources_perm flatCollaborators computedDoc MapOrders.stored
      MapOrders.reversed computedDoc.Paths.reverse computedDoc.Paths (List.reverse_perm _)
      (fun _ l => List.Perm.refl l) (fun _ _ l => List.Perm.refl l)
      (fun _ l => List.reverse_perm l) (fun _ _ l => List.reverse_perm l)
      (by
        intro e he op r hpost hr
        simp only [computedDoc, List.mem_cons, List.mem_singleton, List.not_mem_nil,
          or_false] at he
        rcases he with rfl | rfl
        · simp only [Option.some.injEq] at hpost
          subst hpost
          simp only [Option.some.injEq] at hr
          subst hr
          decide
        · simp at hpost)).1⟩

/-- C12 fails as stated: visiting the same paths of `twoResourcesDoc` in two
orders gives the two resources in two different orders; and in
`twoSuccessCodesDoc`, whose POST declares the responses 200 and 201, the run
that meets 200 first returns no resource while the run that meets 201 first
returns the resource of `/v1/tokens`. -/
theorem GetTerraformCompliantResources_order_dependent :
    twoResourcesDoc.Paths.reverse.Perm twoResourcesDoc.Paths ∧
      GetTerraformCompliantResources flatCollaborators twoResourcesDoc
        = .ok [cdnsResource, lbsResource] ∧
      GetTerraformCompliantResourcesIn flatCollaborators twoResourcesDoc
        twoResourcesDoc.Paths.reverse = .ok [lbsResource, cdnsResource] ∧
      cdnsResource.Path ≠ lbsResource.Path ∧
      GetTerraformCompliantResourcesRun flatCollaborators twoSuccessCodesDoc MapOrders.stored
        twoSuccessCodesDoc.Paths = .ok [] ∧
      GetTerraformCompliantResourcesRun flatCollaborators twoSuccessCodesDoc MapOrders.reversed
        twoSuccessCodesDoc.Paths = .ok [tokensResource] :=
  ⟨List.reverse_perm _, rfl, rfl, by decide, rfl, rfl⟩

/-! ## An unresolved global security scheme -/

end OpenAPI
